import Mathlib

/-!
# Tilck scheduler core (`kernel/sched.c`)

A shallow embedding of the scheduler of `kernel/sched.c`: the task records, the
task index ordered by `tid`, the three state lists, the identifier allocator
`create_new_pid`, the state-transition helpers and `schedule`.

Conventions of the embedding.

* A `task_info *` is a `TaskPtr` (an address); a nullable pointer is an
  `Option TaskPtr`.  The records live in `sched_state.mem`; dereferencing an
  address that holds no record makes the operation fail (`none`).
* A failing `ASSERT`, `VERIFY` or `NOT_REACHED` makes the operation fail (`none`).
* C `int` values are integers; the result of an `int` addition is reduced to the
  32-bit two's complement range by `wrap_int`.
* The intrusive lists are the sequences of the linked records, head first.
* `switch_to_task` does not return: `schedule` ends either by returning or by
  the call of `switch_to_task`, recorded in `sched_exit`.
-/

namespace Tilck

/-! ## Data model -/

/-- Result of a C `int` operation: reduced to the range `[-2^31, 2^31)`. -/
def wrap_int (x : Int) : Int := (x + 2147483648) % 4294967296 - 2147483648

/-- Value of a `u32` operation: reduced modulo `2^32`. -/
def wrap_u32 (x : Int) : Nat := (x % 4294967296).toNat

/-- Address of a `task_info` record. -/
abbrev TaskPtr := Nat

/-- The `enum task_state` of the kernel. -/
inductive task_state where
  | TASK_STATE_INVALID
  | TASK_STATE_RUNNABLE
  | TASK_STATE_RUNNING
  | TASK_STATE_SLEEPING
  | TASK_STATE_ZOMBIE
deriving DecidableEq, Repr

open task_state

/-- The fields of `task_info` that `sched.c` reads or writes. -/
structure task_info where
  tid : Int
  pid : Int
  state : task_state
  time_slot_ticks : Nat
  total_ticks : Nat
  total_kernel_ticks : Nat
  running_in_kernel : Bool
deriving DecidableEq, Repr

/-- Constants and collaborators that `sched.c` takes from other files: the
macros `MAX_PID` and `TIME_SLOT_TICKS`, and the predicate `is_tasklet_runner`
of the tasklet subsystem. -/
structure sched_config where
  MAX_PID : Int
  TIME_SLOT_TICKS : Nat
  is_tasklet_runner : TaskPtr → Bool

/-- The global variables of `sched.c` together with the task records. -/
structure sched_state where
  /-- the task records, by address -/
  mem : TaskPtr → Option task_info
  /-- the variable `__current` -/
  current : Option TaskPtr
  disable_preemption_count : Nat
  runnable_tasks_list : List TaskPtr
  sleeping_tasks_list : List TaskPtr
  zombie_tasks_list : List TaskPtr
  /-- the tree rooted at `tree_by_tid_root`, as its in-order sequence -/
  tree_by_tid_root : List TaskPtr
  runnable_tasks_count : Int
  current_max_pid : Int
  idle_task : Option TaskPtr

/-- The variables as the C initialisers leave them, before any call. -/
def boot_state : sched_state where
  mem := fun _ => none
  current := none
  disable_preemption_count := 1
  runnable_tasks_list := []
  sleeping_tasks_list := []
  zombie_tasks_list := []
  tree_by_tid_root := []
  runnable_tasks_count := 0
  current_max_pid := -1
  idle_task := none

/-- Store of a record at an address. -/
def sched_state.write (s : sched_state) (p : TaskPtr) (t : task_info) : sched_state :=
  { s with mem := fun q => if q = p then some t else s.mem q }

/-- Release of the record at an address. -/
def sched_state.release (s : sched_state) (p : TaskPtr) : sched_state :=
  { s with mem := fun q => if q = p then none else s.mem q }

/-! ## Preemption gate -/

/-- Modelled from the spec: `disable_preemption`, which increments the gate
counter. -/
def disable_preemption (s : sched_state) : sched_state :=
  { s with disable_preemption_count := wrap_u32 (s.disable_preemption_count + 1) }

/-- Modelled from the spec: `enable_preemption` decrements the gate counter. -/
def enable_preemption (s : sched_state) : sched_state :=
  { s with disable_preemption_count := wrap_u32 (s.disable_preemption_count - 1) }

/-- Modelled from the spec: `is_preemption_enabled` tells whether the gate
counter is zero. -/
def is_preemption_enabled (s : sched_state) : Bool :=
  s.disable_preemption_count == 0

/-! ## Task index -/

/-- The comparison `ti_insert_remove_cmp`: the difference of the two `tid`s. -/
def ti_insert_remove_cmp (t1 t2 : task_info) : Int := wrap_int (t1.tid - t2.tid)

/-- The comparison `ti_find_cmp`: the difference of the `tid` and the key. -/
def ti_find_cmp (task : task_info) (searched_tid : Int) : Int :=
  wrap_int (task.tid - searched_tid)

/-- Records behind a sequence of addresses; fails on an address without record. -/
def deref_all (mem : TaskPtr → Option task_info) : List TaskPtr → Option (List task_info)
  | [] => some []
  | p :: ps =>
    match mem p, deref_all mem ps with
    | some t, some ts => some (t :: ts)
    | _, _ => none

/-- Modelled from the spec: `bintree_in_order_visit`, the in-order traversal of
the task index: the visitor is called on each record in ascending order until it
returns a non-zero value or the records are exhausted. -/
def bintree_in_order_visit {σ : Type} (nodes : List task_info)
    (func : task_info → σ → σ × Int) (arg : σ) : σ × Int :=
  match nodes with
  | [] => (arg, 0)
  | n :: rest =>
    match func n arg with
    | (a, r) => if r ≠ 0 then (a, r) else bintree_in_order_visit rest func a

/-- Modelled from the spec: `bintree_insert`, ordered insertion that fails
(leaving the index as it is) when a record with an equal key is present. -/
def bintree_insert (mem : TaskPtr → Option task_info) (root : List TaskPtr)
    (p : TaskPtr) (t : task_info) : Option (List TaskPtr × Bool) :=
  match root with
  | [] => some ([p], true)
  | q :: rest =>
    match mem q with
    | none => none
    | some u =>
      if ti_insert_remove_cmp t u = 0 then some (q :: rest, false)
      else if ti_insert_remove_cmp t u < 0 then some (p :: q :: rest, true)
      else
        match bintree_insert mem rest p t with
        | none => none
        | some (r, ok) => some (q :: r, ok)

/-- Modelled from the spec: `bintree_remove`, removal of the record whose key
compares equal to the key of the given record. -/
def bintree_remove (mem : TaskPtr → Option task_info) (root : List TaskPtr)
    (t : task_info) : Option (List TaskPtr) :=
  match root with
  | [] => some []
  | q :: rest =>
    match mem q with
    | none => none
    | some u =>
      if ti_insert_remove_cmp t u = 0 then some rest
      else
        match bintree_remove mem rest t with
        | none => none
        | some r => some (q :: r)

/-- Modelled from the spec: `bintree_find`, lookup of the record whose key
compares equal to the searched value. -/
def bintree_find (mem : TaskPtr → Option task_info) (root : List TaskPtr)
    (searched_tid : Int) : Option (Option TaskPtr) :=
  match root with
  | [] => some none
  | q :: rest =>
    match mem q with
    | none => none
    | some u =>
      if ti_find_cmp u searched_tid = 0 then some (some q)
      else bintree_find mem rest searched_tid

/-- The function `iterate_over_tasks`. -/
def iterate_over_tasks {σ : Type} (s : sched_state)
    (func : task_info → σ → σ × Int) (arg : σ) : Option (σ × Int) :=
  if is_preemption_enabled s then none
  else
    match deref_all s.mem s.tree_by_tid_root with
    | none => none
    | some nodes => some (bintree_in_order_visit nodes func arg)

/-! ## Identifier allocator -/

/-- Modelled from the spec: `is_main_thread`, a task whose `pid` equals its `tid`. -/
def is_main_thread (ti : task_info) : Bool := ti.pid == ti.tid

/-- The visitor context `create_pid_visit_ctx`. -/
structure create_pid_visit_ctx where
  lowest_available : Int
  lowest_after_current_max : Int
deriving DecidableEq, Repr

/-- The visitor `create_new_pid_visit_cb`. -/
def create_new_pid_visit_cb (ti : task_info) (ctx : create_pid_visit_ctx) :
    create_pid_visit_ctx × Int :=
  if !is_main_thread ti then (ctx, 0)
  else
    let ctx1 : create_pid_visit_ctx :=
      if ctx.lowest_available = ti.tid then
        { ctx with lowest_available := wrap_int (ti.tid + 1) }
      else ctx
    let ctx2 : create_pid_visit_ctx :=
      if ctx1.lowest_after_current_max = ti.tid then
        { ctx1 with lowest_after_current_max := wrap_int (ti.tid + 1) }
      else ctx1
    (ctx2, 0)

/-- The selection of `create_new_pid` from the two candidates. -/
def select_pid (MAX_PID : Int) (ctx : create_pid_visit_ctx) : Int :=
  if ctx.lowest_after_current_max ≤ MAX_PID then ctx.lowest_after_current_max
  else if ctx.lowest_available ≤ MAX_PID then ctx.lowest_available
  else -1

/-- The function `create_new_pid`: the result and the state it leaves. -/
def create_new_pid (cfg : sched_config) (s : sched_state) : Option (Int × sched_state) :=
  if is_preemption_enabled s then none
  else
    match iterate_over_tasks s create_new_pid_visit_cb
        ⟨0, wrap_int (s.current_max_pid + 1)⟩ with
    | none => none
    | some (ctx, _) =>
      let r := select_pid cfg.MAX_PID ctx
      if r ≥ 0 then some (r, { s with current_max_pid := r })
      else some (r, s)

/-! ## State lists -/

/-- Modelled from the spec: `list_add_tail`, which links a node at the tail. -/
def list_add_tail (l : List TaskPtr) (p : TaskPtr) : List TaskPtr := l ++ [p]

/-- Modelled from the spec: `list_remove`, which unlinks a node from the list
it is linked in. -/
def list_remove (l : List TaskPtr) (p : TaskPtr) : List TaskPtr := l.erase p

/-- The function `task_add_to_state_list`. -/
def task_add_to_state_list (cfg : sched_config) (s : sched_state) (ti : TaskPtr) :
    Option sched_state :=
  if cfg.is_tasklet_runner ti then some s
  else
    match s.mem ti with
    | none => none
    | some t =>
      match t.state with
      | TASK_STATE_RUNNABLE =>
        some { s with
          runnable_tasks_list := list_add_tail s.runnable_tasks_list ti
          runnable_tasks_count := wrap_int (s.runnable_tasks_count + 1) }
      | TASK_STATE_SLEEPING =>
        some { s with sleeping_tasks_list := list_add_tail s.sleeping_tasks_list ti }
      | TASK_STATE_RUNNING => some s
      | TASK_STATE_ZOMBIE =>
        some { s with zombie_tasks_list := list_add_tail s.zombie_tasks_list ti }
      | TASK_STATE_INVALID => none

/-- The function `task_remove_from_state_list`. -/
def task_remove_from_state_list (cfg : sched_config) (s : sched_state) (ti : TaskPtr) :
    Option sched_state :=
  if cfg.is_tasklet_runner ti then some s
  else
    match s.mem ti with
    | none => none
    | some t =>
      match t.state with
      | TASK_STATE_RUNNABLE =>
        if wrap_int (s.runnable_tasks_count - 1) ≥ 0 then
          some { s with
            runnable_tasks_list := list_remove s.runnable_tasks_list ti
            runnable_tasks_count := wrap_int (s.runnable_tasks_count - 1) }
        else none
      | TASK_STATE_SLEEPING =>
        some { s with sleeping_tasks_list := list_remove s.sleeping_tasks_list ti }
      | TASK_STATE_RUNNING => some s
      | TASK_STATE_ZOMBIE =>
        some { s with zombie_tasks_list := list_remove s.zombie_tasks_list ti }
      | TASK_STATE_INVALID => none

/-- The function `task_change_state`.  The check
`check_in_no_other_irq_than_timer` concerns the interrupt context of the
caller, which is not part of the scheduler state, and is left out. -/
def task_change_state (cfg : sched_config) (s : sched_state) (ti : TaskPtr)
    (new_state : task_state) : Option sched_state :=
  match s.mem ti with
  | none => none
  | some t =>
    if t.state = new_state then none
    else if t.state = TASK_STATE_ZOMBIE then none
    else
      match task_remove_from_state_list cfg (disable_preemption s) ti with
      | none => none
      | some s2 =>
        match s2.mem ti with
        | none => none
        | some t2 =>
          match task_add_to_state_list cfg (s2.write ti { t2 with state := new_state }) ti with
          | none => none
          | some s4 => some (enable_preemption s4)

/-- The function `add_task`. -/
def add_task (cfg : sched_config) (s : sched_state) (ti : TaskPtr) : Option sched_state :=
  match task_add_to_state_list cfg (disable_preemption s) ti with
  | none => none
  | some s2 =>
    match s2.mem ti with
    | none => none
    | some t =>
      match bintree_insert s2.mem s2.tree_by_tid_root ti t with
      | none => none
      | some (root, _) => some (enable_preemption { s2 with tree_by_tid_root := root })

/-- The function `remove_task`; `free_task` releases the record. -/
def remove_task (cfg : sched_config) (s : sched_state) (ti : TaskPtr) : Option sched_state :=
  match s.mem ti with
  | none => none
  | some t =>
    if t.state ≠ TASK_STATE_ZOMBIE then none
    else
      match task_remove_from_state_list cfg (disable_preemption s) ti with
      | none => none
      | some s2 =>
        match bintree_remove s2.mem s2.tree_by_tid_root t with
        | none => none
        | some root =>
          some (enable_preemption ({ s2 with tree_by_tid_root := root }.release ti))

/-- The function `get_task`. -/
def get_task (s : sched_state) (tid : Int) : Option (Option TaskPtr × sched_state) :=
  match bintree_find s.mem s.tree_by_tid_root tid with
  | none => none
  | some res => some (res, enable_preemption (disable_preemption s))

/-- The record in the zero-initialised static buffer `kernel_proc_buf`. -/
def kernel_proc_buf : task_info where
  tid := 0
  pid := 0
  state := TASK_STATE_INVALID
  time_slot_ticks := 0
  total_ticks := 0
  total_kernel_ticks := 0
  running_in_kernel := false

/-- The function `create_kernel_process`; `s_kernel_ti` is the address of the
static buffer, and `arch_specific_new_task_setup` is taken to succeed. -/
def create_kernel_process (cfg : sched_config) (s : sched_state) (s_kernel_ti : TaskPtr) :
    Option sched_state :=
  let s1 : sched_state :=
    { s with runnable_tasks_list := [], sleeping_tasks_list := [], zombie_tasks_list := [] }
  match create_new_pid cfg s1 with
  | none => none
  | some (r, s2) =>
    if r ≠ 0 then none
    else
      let s3 := s2.write s_kernel_ti
        { kernel_proc_buf with running_in_kernel := true, state := TASK_STATE_SLEEPING }
      match add_task cfg s3 s_kernel_ti with
      | none => none
      | some s4 => some { s4 with current := some s_kernel_ti }

/-! ## Scheduler engine -/

/-- The function `need_reschedule`; `tasklet_runner` is the answer of
`get_hi_prio_ready_tasklet_runner`. -/
def need_reschedule (cfg : sched_config) (s : sched_state) (tasklet_runner : Option TaskPtr) :
    Option Bool :=
  match s.current with
  | none => none
  | some curr =>
    match tasklet_runner with
    | some r => if r = curr then some false else some true
    | none =>
      match s.mem curr with
      | none => none
      | some c =>
        if c.time_slot_ticks < cfg.TIME_SLOT_TICKS ∧ c.state = TASK_STATE_RUNNING then
          some false
        else some true

/-- How a call of `schedule` ends: it returns, or it calls `switch_to_task`,
which does not return. -/
inductive sched_exit where
  | returned (s : sched_state)
  | switched (s : sched_state) (task : Option TaskPtr) (curr_irq : Int)

/-- The loop of `schedule` over `runnable_tasks_list`, from the position `pos`
on, with the value of `selected` so far. -/
def schedule_loop (s : sched_state) : List TaskPtr → Option TaskPtr → Option (Option TaskPtr)
  | [], selected => some selected
  | pos :: rest, selected =>
    match s.mem pos with
    | none => none
    | some t =>
      if t.state ≠ TASK_STATE_RUNNABLE then none
      else if some pos = s.idle_task ∨ some pos = s.current then schedule_loop s rest selected
      else
        match selected with
        | none => schedule_loop s rest (some pos)
        | some q =>
          match s.mem q with
          | none => none
          | some u =>
            if t.total_ticks < u.total_ticks then schedule_loop s rest (some pos)
            else schedule_loop s rest selected

/-- The function `schedule`; `tasklet_runner` is the answer of
`get_hi_prio_ready_tasklet_runner`. -/
def schedule (cfg : sched_config) (s : sched_state) (tasklet_runner : Option TaskPtr)
    (curr_irq : Int) : Option sched_exit :=
  if is_preemption_enabled s then none
  else if tasklet_runner = s.current then some (.returned s)
  else
    match s.current with
    | none => none
    | some curr =>
      match s.mem curr with
      | none => none
      | some c =>
        match (if c.state = TASK_STATE_RUNNING then
                 task_change_state cfg s curr TASK_STATE_RUNNABLE
               else some s) with
        | none => none
        | some s1 =>
          match tasklet_runner with
          | some r => some (.switched s1 (some r) curr_irq)
          | none =>
            match schedule_loop s1 s1.runnable_tasks_list none with
            | none => none
            | some (some sel) => some (.switched s1 (some sel) curr_irq)
            | some none =>
              match s1.mem curr with
              | none => none
              | some c1 =>
                if c1.state = TASK_STATE_RUNNABLE then
                  match task_change_state cfg s1 curr TASK_STATE_RUNNING with
                  | none => none
                  | some s2 =>
                    match s2.mem curr with
                    | none => none
                    | some c2 =>
                      some (.returned (s2.write curr { c2 with time_slot_ticks := 0 }))
                else some (.switched s1 s1.idle_task curr_irq)

/-! ## Auxiliary definitions for the statements -/

/-- One candidate of the allocator followed through the traversal: the value
moves to `tid + 1` at each main thread whose `tid` equals it. -/
def pid_scan (x : Int) : List task_info → Int
  | [] => x
  | t :: rest =>
    pid_scan (if is_main_thread t = true ∧ x = t.tid then wrap_int (t.tid + 1) else x) rest

/-- A record with the given identifiers and state, and zeroed counters. -/
def mk_task (tid pid : Int) (st : task_state) (total_ticks : Nat) : task_info where
  tid := tid
  pid := pid
  state := st
  time_slot_ticks := 0
  total_ticks := total_ticks
  total_kernel_ticks := 0
  running_in_kernel := false

/-- A configuration with `MAX_PID = 5`, a quantum of 20 ticks, and the task at
address 9 as the only tasklet runner. -/
def cfg5 : sched_config where
  MAX_PID := 5
  TIME_SLOT_TICKS := 20
  is_tasklet_runner := fun p => p == 9

/-- A state whose index holds the sleeping main threads with the given `tid`s
(the record of `tid` `i` at address `i + 1`) and the given `current_max_pid`. -/
def index_state (tids : List Nat) (current_max_pid : Int) : sched_state :=
  { boot_state with
    mem := fun p => if p - 1 ∈ tids ∧ 0 < p then
      some (mk_task (p - 1 : Nat) (p - 1 : Nat) TASK_STATE_SLEEPING 0) else none
    tree_by_tid_root := tids.map (· + 1)
    sleeping_tasks_list := tids.map (· + 1)
    current_max_pid := current_max_pid }

/-- A state built from a table of records (in ascending `tid` order), the
current task, the idle task and the runnable and sleeping lists; the gate is
closed and `runnable_tasks_count` is the length of the runnable list. -/
def table_state (recs : List (TaskPtr × task_info)) (current idle : Option TaskPtr)
    (runnable sleeping : List TaskPtr) : sched_state where
  mem := fun p => recs.lookup p
  current := current
  disable_preemption_count := 1
  runnable_tasks_list := runnable
  sleeping_tasks_list := sleeping
  zombie_tasks_list := []
  tree_by_tid_root := recs.map Prod.fst
  runnable_tasks_count := runnable.length
  current_max_pid := -1
  idle_task := idle

/-- A running tasklet runner (address 9) that is the current task and has used
up its quantum of 20 ticks. -/
def runner_is_current : sched_state :=
  table_state [(9, { mk_task 9 0 TASK_STATE_RUNNING 50 with time_slot_ticks := 20 })]
    (some 9) none [] []

/-- The records behind the index have non-negative `int` `tid`s. -/
def index_valid (mem : TaskPtr → Option task_info) (root : List TaskPtr) : Prop :=
  ∀ p ∈ root, ∃ t, mem p = some t ∧ 0 ≤ t.tid ∧ t.tid < 2147483648

/-- The index is in strictly ascending `tid` order. -/
def index_sorted (mem : TaskPtr → Option task_info) (root : List TaskPtr) : Prop :=
  root.Pairwise (fun p q => ∀ t u, mem p = some t → mem q = some u → t.tid < u.tid)

/-- The states reached from an empty index with `current_max_pid = -1` by
allocations (a successful result of `create_new_pid` becomes the `tid` and `pid`
of a new record, which is added by `add_task`), state changes and removals of
tasks of the index. -/
inductive pid_reachable (cfg : sched_config) : sched_state → Prop where
  | start (s : sched_state) (hroot : s.tree_by_tid_root = [])
      (hmax : s.current_max_pid = -1) : pid_reachable cfg s
  | alloc (s s1 s2 : sched_state) (r : Int) (p : TaskPtr) (t : task_info)
      (hs : pid_reachable cfg s)
      (hcall : create_new_pid cfg s = some (r, s1)) (hr : 0 ≤ r)
      (hnew : s1.mem p = none) (htid : t.tid = r) (hpid : t.pid = r)
      (hadd : add_task cfg (s1.write p t) p = some s2) : pid_reachable cfg s2
  | change (s s1 : sched_state) (p : TaskPtr) (st : task_state)
      (hs : pid_reachable cfg s) (hp : p ∈ s.tree_by_tid_root)
      (hcall : task_change_state cfg s p st = some s1) : pid_reachable cfg s1
  | remove (s s1 : sched_state) (p : TaskPtr)
      (hs : pid_reachable cfg s) (hp : p ∈ s.tree_by_tid_root)
      (hcall : remove_task cfg s p = some s1) : pid_reachable cfg s1

/-- The invariant of the index and of `current_max_pid` behind the allocator. -/
def pid_inv (s : sched_state) : Prop :=
  index_valid s.mem s.tree_by_tid_root ∧ index_sorted s.mem s.tree_by_tid_root ∧
    -1 ≤ s.current_max_pid ∧ s.current_max_pid < 2147483648

/-- The state after an allocation that returned `r`: the new main thread, in
state `st`, has its record at address `p` and has been added by `add_task`. -/
def after_alloc (s : sched_state) (r : Int) (p : TaskPtr) (st : task_state) : sched_state :=
  (add_task cfg5 ({ s with current_max_pid := r }.write p (mk_task r r st 0)) p).getD s

/-- Two allocations from the boot state (identifiers 0 and 1), then the
removal of the task with identifier 0. -/
def alloc_alloc_remove : sched_state :=
  (remove_task cfg5
    (after_alloc (after_alloc boot_state 0 1 TASK_STATE_ZOMBIE) 1 2 TASK_STATE_SLEEPING)
    1).getD boot_state

/-- The state that `task_change_state ti new_state` leaves when it returns, for
a task whose record on entry is `t`: every field, written out. -/
def change_state_result (cfg : sched_config) (s : sched_state) (ti : TaskPtr)
    (t : task_info) (new_state : task_state) : sched_state where
  mem := fun q => if q = ti then some { t with state := new_state } else s.mem q
  current := s.current
  disable_preemption_count := wrap_u32 (wrap_u32 (s.disable_preemption_count + 1) - 1)
  runnable_tasks_list :=
    if cfg.is_tasklet_runner ti then s.runnable_tasks_list
    else if new_state = TASK_STATE_RUNNABLE then
      (if t.state = TASK_STATE_RUNNABLE then s.runnable_tasks_list.erase ti
        else s.runnable_tasks_list) ++ [ti]
    else if t.state = TASK_STATE_RUNNABLE then s.runnable_tasks_list.erase ti
    else s.runnable_tasks_list
  sleeping_tasks_list :=
    if cfg.is_tasklet_runner ti then s.sleeping_tasks_list
    else if new_state = TASK_STATE_SLEEPING then
      (if t.state = TASK_STATE_SLEEPING then s.sleeping_tasks_list.erase ti
        else s.sleeping_tasks_list) ++ [ti]
    else if t.state = TASK_STATE_SLEEPING then s.sleeping_tasks_list.erase ti
    else s.sleeping_tasks_list
  zombie_tasks_list :=
    if cfg.is_tasklet_runner ti then s.zombie_tasks_list
    else if new_state = TASK_STATE_ZOMBIE then
      (if t.state = TASK_STATE_ZOMBIE then s.zombie_tasks_list.erase ti
        else s.zombie_tasks_list) ++ [ti]
    else if t.state = TASK_STATE_ZOMBIE then s.zombie_tasks_list.erase ti
    else s.zombie_tasks_list
  tree_by_tid_root := s.tree_by_tid_root
  runnable_tasks_count :=
    if cfg.is_tasklet_runner ti then s.runnable_tasks_count
    else if new_state = TASK_STATE_RUNNABLE then
      wrap_int ((if t.state = TASK_STATE_RUNNABLE then wrap_int (s.runnable_tasks_count - 1)
        else s.runnable_tasks_count) + 1)
    else if t.state = TASK_STATE_RUNNABLE then wrap_int (s.runnable_tasks_count - 1)
    else s.runnable_tasks_count
  current_max_pid := s.current_max_pid
  idle_task := s.idle_task

/-- The conditions under which `task_change_state ti new_state` returns, for a
task whose record on entry is `t`: its two assertions hold, and for a task that
is not a tasklet runner neither switch reaches `NOT_REACHED` and the assertion
on `runnable_tasks_count` holds. -/
def change_state_returns (cfg : sched_config) (s : sched_state) (ti : TaskPtr)
    (t : task_info) (new_state : task_state) : Prop :=
  t.state ≠ new_state ∧ t.state ≠ TASK_STATE_ZOMBIE ∧
    (cfg.is_tasklet_runner ti = true ∨
      (t.state ≠ TASK_STATE_INVALID ∧ new_state ≠ TASK_STATE_INVALID ∧
        (t.state = TASK_STATE_RUNNABLE → 0 ≤ wrap_int (s.runnable_tasks_count - 1))))

/-- The state of `schedule` after its first `if`: the current task, whose
record on entry is `c`, has been demoted to runnable when it was running. -/
def after_demotion (cfg : sched_config) (s : sched_state) (curr : TaskPtr) (c : task_info) :
    sched_state :=
  if c.state = TASK_STATE_RUNNING then change_state_result cfg s curr c TASK_STATE_RUNNABLE
  else s

/-- The `total_ticks` of the task at an address. -/
def total_ticks_of (s : sched_state) (p : TaskPtr) : Nat :=
  match s.mem p with
  | some t => t.total_ticks
  | none => 0

/-- The tasks of the runnable list that are neither the idle task nor the
current task, in list order. -/
def sched_candidates (s : sched_state) : List TaskPtr :=
  s.runnable_tasks_list.filter (fun p => !(decide (some p = s.idle_task ∨ some p = s.current)))

/-- The choice that the loop of `schedule` makes among candidates with keys
`f`: the selected task changes only at a strictly smaller key. -/
def pick_least (f : TaskPtr → Nat) : List TaskPtr → Option TaskPtr → Option TaskPtr
  | [], selected => selected
  | p :: rest, none => pick_least f rest (some p)
  | p :: rest, some q =>
    if f p < f q then pick_least f rest (some p) else pick_least f rest (some q)

/-- Task 1 is running with 3 ticks, task 2 is runnable with 1 tick, and the
tasklet runner (address 9) has 500 ticks; task 1 is the current task. -/
def runner_ready_state : sched_state :=
  table_state
    [(1, mk_task 1 1 TASK_STATE_RUNNING 3), (2, mk_task 2 2 TASK_STATE_RUNNABLE 1),
     (9, mk_task 9 0 TASK_STATE_SLEEPING 500)]
    (some 1) none [2] []

/-- The current task 1 is running; the runnable list holds the idle task 7
(0 ticks) and the tasks 2, 3, 4 with 5, 2 and 2 ticks. -/
def three_candidates_state : sched_state :=
  table_state
    [(1, mk_task 1 1 TASK_STATE_RUNNING 1), (2, mk_task 2 2 TASK_STATE_RUNNABLE 5),
     (3, mk_task 3 3 TASK_STATE_RUNNABLE 2), (4, mk_task 4 4 TASK_STATE_RUNNABLE 2),
     (7, mk_task 7 0 TASK_STATE_RUNNABLE 0)]
    (some 1) (some 7) [7, 2, 3, 4] []

/-- The only task besides the idle task 7 is the running current task 1, with
100 ticks in total and 20 ticks in its quantum. -/
def quantum_expired_state : sched_state :=
  table_state
    [(1, { mk_task 1 1 TASK_STATE_RUNNING 100 with time_slot_ticks := 20 }),
     (7, mk_task 7 0 TASK_STATE_RUNNABLE 0)]
    (some 1) (some 7) [7] []

/-- The task at `p` is linked exactly once in the state list of `st` (in none
when `st` has no list) and not at all in the other state lists. -/
def linked_by_state (s : sched_state) (p : TaskPtr) (st : task_state) : Prop :=
  s.runnable_tasks_list.count p = (if st = TASK_STATE_RUNNABLE then 1 else 0) ∧
  s.sleeping_tasks_list.count p = (if st = TASK_STATE_SLEEPING then 1 else 0) ∧
  s.zombie_tasks_list.count p = (if st = TASK_STATE_ZOMBIE then 1 else 0)

/-- The state that `add_task ti` leaves when it returns, for a task whose record
is `t` and an index that has become `root`: every field, written out. -/
def add_task_result (cfg : sched_config) (s : sched_state) (ti : TaskPtr)
    (t : task_info) (root : List TaskPtr) : sched_state where
  mem := s.mem
  current := s.current
  disable_preemption_count := wrap_u32 (wrap_u32 (s.disable_preemption_count + 1) - 1)
  runnable_tasks_list :=
    if cfg.is_tasklet_runner ti = false ∧ t.state = TASK_STATE_RUNNABLE then
      s.runnable_tasks_list ++ [ti]
    else s.runnable_tasks_list
  sleeping_tasks_list :=
    if cfg.is_tasklet_runner ti = false ∧ t.state = TASK_STATE_SLEEPING then
      s.sleeping_tasks_list ++ [ti]
    else s.sleeping_tasks_list
  zombie_tasks_list :=
    if cfg.is_tasklet_runner ti = false ∧ t.state = TASK_STATE_ZOMBIE then
      s.zombie_tasks_list ++ [ti]
    else s.zombie_tasks_list
  tree_by_tid_root := root
  runnable_tasks_count :=
    if cfg.is_tasklet_runner ti = false ∧ t.state = TASK_STATE_RUNNABLE then
      wrap_int (s.runnable_tasks_count + 1)
    else s.runnable_tasks_count
  current_max_pid := s.current_max_pid
  idle_task := s.idle_task

/-- The state that `remove_task ti` leaves when it returns, for an index that
has become `root`: every field, written out. -/
def remove_task_result (cfg : sched_config) (s : sched_state) (ti : TaskPtr)
    (root : List TaskPtr) : sched_state where
  mem := fun q => if q = ti then none else s.mem q
  current := s.current
  disable_preemption_count := wrap_u32 (wrap_u32 (s.disable_preemption_count + 1) - 1)
  runnable_tasks_list := s.runnable_tasks_list
  sleeping_tasks_list := s.sleeping_tasks_list
  zombie_tasks_list :=
    if cfg.is_tasklet_runner ti = false then s.zombie_tasks_list.erase ti
    else s.zombie_tasks_list
  tree_by_tid_root := root
  runnable_tasks_count := s.runnable_tasks_count
  current_max_pid := s.current_max_pid
  idle_task := s.idle_task

/-- The states reached from the one that `create_kernel_process` produces (with
the kernel task at address `k`) by calls of `add_task` on a newly created record
with a non-negative `tid`, of `task_change_state`, and of `remove_task` on a
task of the index. -/
inductive sched_reachable (cfg : sched_config) (k : TaskPtr) : sched_state → Prop where
  | init (s : sched_state) (hcall : create_kernel_process cfg boot_state k = some s) :
      sched_reachable cfg k s
  | add (s s1 : sched_state) (p : TaskPtr) (t : task_info)
      (hs : sched_reachable cfg k s) (hnew : s.mem p = none)
      (htid : 0 ≤ t.tid ∧ t.tid < 2147483648)
      (hcall : add_task cfg (s.write p t) p = some s1) : sched_reachable cfg k s1
  | change (s s1 : sched_state) (p : TaskPtr) (st : task_state)
      (hs : sched_reachable cfg k s)
      (hcall : task_change_state cfg s p st = some s1) : sched_reachable cfg k s1
  | remove (s s1 : sched_state) (p : TaskPtr)
      (hs : sched_reachable cfg k s) (hp : p ∈ s.tree_by_tid_root)
      (hcall : remove_task cfg s p = some s1) : sched_reachable cfg k s1

/-- The state whose list, if any, holds the task at `p` with record `t`: its
own state, or one without a list for a tasklet runner. -/
def listed_state (cfg : sched_config) (p : TaskPtr) (t : task_info) : task_state :=
  if cfg.is_tasklet_runner p then TASK_STATE_RUNNING else t.state

/-- The invariant behind the agreement of the state lists with the state
fields: the index is valid and in ascending order, every task of the index is
linked as its state says, and every entry of a state list has a record. -/
def sched_inv (cfg : sched_config) (s : sched_state) : Prop :=
  index_valid s.mem s.tree_by_tid_root ∧ index_sorted s.mem s.tree_by_tid_root ∧
  (∀ p ∈ s.tree_by_tid_root, ∃ t, s.mem p = some t ∧
    linked_by_state s p (listed_state cfg p t)) ∧
  (∀ p, p ∈ s.runnable_tasks_list ∨ p ∈ s.sleeping_tasks_list ∨ p ∈ s.zombie_tasks_list →
    s.mem p ≠ none)

/-- The boot sequence followed by the creation of a runnable task with `tid` 1
at address 2, which is then put to sleep. -/
def boot_add_sleep : sched_state :=
  let s0 := (create_kernel_process cfg5 boot_state 1).getD boot_state
  let s1 := (add_task cfg5 (s0.write 2 (mk_task 1 1 TASK_STATE_RUNNABLE 0)) 2).getD s0
  (task_change_state cfg5 s1 2 TASK_STATE_SLEEPING).getD s1

/-- The current task 1 has gone to sleep; the runnable list holds only the
idle task 7. -/
def blocked_current_state : sched_state :=
  table_state
    [(1, mk_task 1 1 TASK_STATE_SLEEPING 4), (7, mk_task 7 0 TASK_STATE_RUNNABLE 0)]
    (some 1) (some 7) [7] [1]

/-- The widths, in bits, of the unsigned types of the three tick counters of
`task_info`; the declaration of the structure is not in `sched.c`, so the
widths are parameters. -/
structure tick_widths where
  time_slot_ticks_bits : Nat
  total_ticks_bits : Nat
  total_kernel_ticks_bits : Nat

/-- The function `account_ticks`; each increment is reduced to the range of
its counter. -/
def account_ticks (w : tick_widths) (s : sched_state) : Option sched_state :=
  match s.current with
  | none => none
  | some curr =>
    match s.mem curr with
    | none => none
    | some c =>
      let c1 : task_info :=
        { c with time_slot_ticks := (c.time_slot_ticks + 1) % 2 ^ w.time_slot_ticks_bits }
      let c2 : task_info :=
        { c1 with total_ticks := (c1.total_ticks + 1) % 2 ^ w.total_ticks_bits }
      let c3 : task_info :=
        if c2.running_in_kernel then
          { c2 with
            total_kernel_ticks := (c2.total_kernel_ticks + 1) % 2 ^ w.total_kernel_ticks_bits }
        else c2
      some (s.write curr c3)

/-- A 32-bit quantum counter and 64-bit totals. -/
def widths_32_64 : tick_widths where
  time_slot_ticks_bits := 32
  total_ticks_bits := 64
  total_kernel_ticks_bits := 64

/-- The running current task 1 is in kernel mode, with 100 ticks in total, 40
of them in the kernel, and 3 ticks in its quantum; task 2 is runnable. -/
def in_kernel_state : sched_state :=
  table_state
    [(1, { mk_task 1 1 TASK_STATE_RUNNING 100 with
            time_slot_ticks := 3, total_kernel_ticks := 40, running_in_kernel := true }),
     (2, mk_task 2 2 TASK_STATE_RUNNABLE 7)]
    (some 1) none [2] []

/-- The index holds the main thread with `tid` 0 (address 1) and an additional
thread of the same process with `tid` 1 (address 2); `current_max_pid = -1`. -/
def thread_in_index_state : sched_state :=
  table_state
    [(1, mk_task 0 0 TASK_STATE_SLEEPING 0), (2, mk_task 1 0 TASK_STATE_SLEEPING 0)]
    none none [] [1, 2]

/-- The index holds the task with `tid` 0 (address 1), and a second record with
the same `tid` 0 has been created at address 5, in state runnable. -/
def duplicate_tid_state : sched_state :=
  (index_state [0] 0).write 5 (mk_task 0 0 TASK_STATE_RUNNABLE 0)

/-- The index holds the task with `tid` 0 (address 1), and a record with the
new `tid` 1 has been created at address 5, in state runnable. -/
def new_tid_state : sched_state :=
  (index_state [0] 0).write 5 (mk_task 1 1 TASK_STATE_RUNNABLE 0)

/-- The function `task_change_state`, statement by statement: the states after
`disable_preemption`, after `task_remove_from_state_list`, after the write of
the state, after `task_add_to_state_list` and after `enable_preemption`, and
the last of them once more. -/
def task_change_state_steps (cfg : sched_config) (s : sched_state) (ti : TaskPtr)
    (new_state : task_state) : Option (List sched_state × sched_state) :=
  match s.mem ti with
  | none => none
  | some t =>
    if t.state = new_state then none
    else if t.state = TASK_STATE_ZOMBIE then none
    else
      match task_remove_from_state_list cfg (disable_preemption s) ti with
      | none => none
      | some s2 =>
        match s2.mem ti with
        | none => none
        | some t2 =>
          match task_add_to_state_list cfg (s2.write ti { t2 with state := new_state }) ti with
          | none => none
          | some s4 =>
            some ([disable_preemption s, s2, s2.write ti { t2 with state := new_state }, s4,
              enable_preemption s4], enable_preemption s4)

/-- The scheduler state at the end of a call of `schedule`. -/
def sched_exit.state : sched_exit → sched_state
  | .returned s => s
  | .switched s _ _ => s

/-- The function `schedule` together with the states it passes through after
its entry: those of its calls of `task_change_state`. -/
def schedule_steps (cfg : sched_config) (s : sched_state) (tasklet_runner : Option TaskPtr)
    (curr_irq : Int) : Option (List sched_state × sched_exit) :=
  if is_preemption_enabled s then none
  else if tasklet_runner = s.current then some ([], .returned s)
  else
    match s.current with
    | none => none
    | some curr =>
      match s.mem curr with
      | none => none
      | some c =>
        match (if c.state = TASK_STATE_RUNNING then
                 task_change_state_steps cfg s curr TASK_STATE_RUNNABLE
               else some ([], s)) with
        | none => none
        | some (l1, s1) =>
          match tasklet_runner with
          | some r => some (l1, .switched s1 (some r) curr_irq)
          | none =>
            match schedule_loop s1 s1.runnable_tasks_list none with
            | none => none
            | some (some sel) => some (l1, .switched s1 (some sel) curr_irq)
            | some none =>
              match s1.mem curr with
              | none => none
              | some c1 =>
                if c1.state = TASK_STATE_RUNNABLE then
                  match task_change_state_steps cfg s1 curr TASK_STATE_RUNNING with
                  | none => none
                  | some (l2, s2) =>
                    match s2.mem curr with
                    | none => none
                    | some c2 =>
                      some (l1 ++ l2,
                        .returned (s2.write curr { c2 with time_slot_ticks := 0 }))
                else some (l1, .switched s1 s1.idle_task curr_irq)

/-- Modelled from the spec: the contract of `switch_to_task`, which is not in
`sched.c`: the task becomes the current task, in state running (it leaves its
state list through `task_change_state`), with `time_slot_ticks` reset to 0. -/
def switch_to_task (cfg : sched_config) (s : sched_state) (task : Option TaskPtr) :
    Option sched_state :=
  match task with
  | none => none
  | some p =>
    match s.mem p with
    | none => none
    | some t =>
      match (if t.state = TASK_STATE_RUNNING then some s
             else task_change_state cfg s p TASK_STATE_RUNNING) with
      | none => none
      | some s1 =>
        match s1.mem p with
        | none => none
        | some t1 =>
          some { s1.write p { t1 with time_slot_ticks := 0 } with current := some p }

/-- The scheduler state once a call of `schedule` is over: the state it
returned with, or the state that the contract of `switch_to_task` gives. -/
def after_schedule (cfg : sched_config) : sched_exit → Option sched_state
  | .returned s => some s
  | .switched s task _ => switch_to_task cfg s task

/-- The running current task 1 has 10 ticks and the runnable task 2 has 5. -/
def two_tasks_state : sched_state :=
  table_state
    [(1, mk_task 1 1 TASK_STATE_RUNNING 10), (2, mk_task 2 2 TASK_STATE_RUNNABLE 5)]
    (some 1) none [2] []

/-- The states reached from the one that `create_kernel_process` produces (with
the kernel task at address `k`) by `add_task` on a newly created record whose
state is not running, `task_change_state` to a state other than running,
`remove_task`, `account_ticks`, and `schedule` completed by the contract of
`switch_to_task`. -/
inductive run_reachable (cfg : sched_config) (w : tick_widths) (k : TaskPtr) :
    sched_state → Prop where
  | init (s : sched_state) (hcall : create_kernel_process cfg boot_state k = some s) :
      run_reachable cfg w k s
  | add (s s1 : sched_state) (p : TaskPtr) (t : task_info)
      (hs : run_reachable cfg w k s) (hnew : s.mem p = none)
      (hstate : t.state ≠ TASK_STATE_RUNNING)
      (hcall : add_task cfg (s.write p t) p = some s1) : run_reachable cfg w k s1
  | change (s s1 : sched_state) (p : TaskPtr) (st : task_state)
      (hs : run_reachable cfg w k s) (hst : st ≠ TASK_STATE_RUNNING)
      (hcall : task_change_state cfg s p st = some s1) : run_reachable cfg w k s1
  | remove (s s1 : sched_state) (p : TaskPtr)
      (hs : run_reachable cfg w k s)
      (hcall : remove_task cfg s p = some s1) : run_reachable cfg w k s1
  | ticks (s s1 : sched_state)
      (hs : run_reachable cfg w k s)
      (hcall : account_ticks w s = some s1) : run_reachable cfg w k s1
  | sched (s s1 : sched_state) (tasklet_runner : Option TaskPtr) (curr_irq : Int)
      (e : sched_exit) (hs : run_reachable cfg w k s)
      (hcall : schedule cfg s tasklet_runner curr_irq = some e)
      (hafter : after_schedule cfg e = some s1) : run_reachable cfg w k s1

/-- Every record is linked as its state says, and every entry of a state
list has a record. -/
def links_ok (cfg : sched_config) (s : sched_state) : Prop :=
  (∀ p t, s.mem p = some t → linked_by_state s p (listed_state cfg p t)) ∧
  (∀ p, p ∈ s.runnable_tasks_list ∨ p ∈ s.sleeping_tasks_list ∨ p ∈ s.zombie_tasks_list →
    s.mem p ≠ none)

/-- Every task whose state is running is the current task. -/
def running_is_current (s : sched_state) : Prop :=
  ∀ p t, s.mem p = some t → t.state = TASK_STATE_RUNNING → s.current = some p

/-- The state after `create_kernel_process` for the kernel record at address 1,
`add_task` of a runnable task at address 2, and one call of `schedule` followed
by the switch it asks for. -/
def boot_add_schedule : sched_state :=
  let s0 := (create_kernel_process cfg5 boot_state 1).getD boot_state
  let s1 := (add_task cfg5 (s0.write 2 (mk_task 1 1 TASK_STATE_RUNNABLE 0)) 2).getD s0
  ((schedule cfg5 s1 none 0).bind (after_schedule cfg5)).getD s1

/-- Every address of the index holds a record, and the `tid` of a main thread
of the index is below `INT_MAX`, so that `tid + 1` is an `int`. -/
def index_in_range (mem : TaskPtr → Option task_info) (root : List TaskPtr) : Prop :=
  ∀ p ∈ root, ∃ t, mem p = some t ∧ (is_main_thread t = true → t.tid < 2147483647)

/-- The integer is the `tid` of a main thread of the index. -/
def main_thread_tid (s : sched_state) (j : Int) : Prop :=
  ∃ p ∈ s.tree_by_tid_root, ∃ t, s.mem p = some t ∧ is_main_thread t = true ∧ t.tid = j

/-- The index holds the main threads with `tid`s 0, 1 and 4 and, between them,
the additional thread with `tid` 2 of process 1; `current_max_pid = 3`. -/
def gap_index_state : sched_state :=
  { table_state
      [(1, mk_task 0 0 TASK_STATE_SLEEPING 0), (2, mk_task 1 1 TASK_STATE_SLEEPING 0),
       (3, mk_task 2 1 TASK_STATE_SLEEPING 0), (4, mk_task 4 4 TASK_STATE_SLEEPING 0)]
      none none [] [1, 2, 3, 4] with
    current_max_pid := 3 }

/-! ## The identifier allocator -/

theorem wrap_int_eq (x : Int) (h1 : -2147483648 ≤ x) (h2 : x < 2147483648) :
    wrap_int x = x := by
  unfold wrap_int; omega

theorem wrap_int_range (x : Int) : -2147483648 ≤ wrap_int x ∧ wrap_int x < 2147483648 := by
  unfold wrap_int; omega

theorem visit_eq_scan (nodes : List task_info) (ctx : create_pid_visit_ctx) :
    bintree_in_order_visit nodes create_new_pid_visit_cb ctx =
      (⟨pid_scan ctx.lowest_available nodes, pid_scan ctx.lowest_after_current_max nodes⟩, 0) := by
  induction nodes generalizing ctx with
  | nil => rfl
  | cons t rest ih =>
    simp only [bintree_in_order_visit, create_new_pid_visit_cb, pid_scan]
    by_cases hm : is_main_thread t = true
    · simp only [hm, Bool.not_true, Bool.false_eq_true, if_false, ne_eq, not_true_eq_false,
        true_and]
      rw [ih]
      by_cases h1 : ctx.lowest_available = t.tid <;>
        by_cases h2 : ctx.lowest_after_current_max = t.tid <;> simp [h1, h2]
    · simp only [hm, Bool.not_false, if_true, ne_eq, not_true_eq_false, if_false, false_and]
      rw [ih]
      simp [hm]

theorem create_new_pid_eq (cfg : sched_config) (s : sched_state) (nodes : List task_info)
    (hgate : s.disable_preemption_count ≠ 0)
    (hnodes : deref_all s.mem s.tree_by_tid_root = some nodes) :
    create_new_pid cfg s =
      (let r := select_pid cfg.MAX_PID
          ⟨pid_scan 0 nodes, pid_scan (wrap_int (s.current_max_pid + 1)) nodes⟩
       if r ≥ 0 then some (r, { s with current_max_pid := r }) else some (r, s)) := by
  have hg : is_preemption_enabled s = false := by
    simp [is_preemption_enabled, hgate]
  simp only [create_new_pid, iterate_over_tasks, hg, hnodes, visit_eq_scan]
  simp

/-- C1: with the gate closed and every address of the index holding a record,
`create_new_pid` returns A if A ≤ `MAX_PID`, otherwise L if L ≤ `MAX_PID`,
otherwise -1, where L and A are `lowest_available` and
`lowest_after_current_max` at the end of the traversal of the index; a result
≥ 0 becomes `current_max_pid`, and with the result -1 `current_max_pid` keeps
its value. -/
theorem create_new_pid_selection_rule (cfg : sched_config) (s : sched_state)
    (nodes : List task_info)
    (hgate : s.disable_preemption_count ≠ 0)
    (hnodes : deref_all s.mem s.tree_by_tid_root = some nodes) :
    let ctx := (bintree_in_order_visit nodes create_new_pid_visit_cb
      ⟨0, wrap_int (s.current_max_pid + 1)⟩).1
    let r := if ctx.lowest_after_current_max ≤ cfg.MAX_PID then ctx.lowest_after_current_max
      else if ctx.lowest_available ≤ cfg.MAX_PID then ctx.lowest_available
      else -1
    ∃ s', create_new_pid cfg s = some (r, s') ∧
      (0 ≤ r → s'.current_max_pid = r) ∧
      (r = -1 → s'.current_max_pid = s.current_max_pid) := by
  intro ctx r
  have hr : r = select_pid cfg.MAX_PID
      ⟨pid_scan 0 nodes, pid_scan (wrap_int (s.current_max_pid + 1)) nodes⟩ := by
    simp only [r, ctx, visit_eq_scan, select_pid]
  rw [create_new_pid_eq cfg s nodes hgate hnodes, ← hr]
  by_cases h : r ≥ 0
  · refine ⟨{ s with current_max_pid := r }, by simp [h], fun _ => rfl, fun h1 => ?_⟩
    omega
  · refine ⟨s, by simp [h], fun h0 => absurd h0 h, fun _ => rfl⟩

/-- C1, the two scenarios of the specification: live identifiers {0,1,2} with
`current_max_pid = 2` give 3, and `current_max_pid` becomes 3; with
`MAX_PID = 5`, live identifiers {0,2,3,5} and `current_max_pid = 5` give 1. -/
theorem create_new_pid_selection_rule_witness :
    (∃ s', create_new_pid cfg5 (index_state [0, 1, 2] 2) = some (3, s') ∧
      s'.current_max_pid = 3) ∧
    (∃ s', create_new_pid cfg5 (index_state [0, 2, 3, 5] 5) = some (1, s') ∧
      s'.current_max_pid = 1) := by
  constructor
  · obtain ⟨s', h, h1, _⟩ := create_new_pid_selection_rule cfg5 (index_state [0, 1, 2] 2)
      [mk_task 0 0 TASK_STATE_SLEEPING 0, mk_task 1 1 TASK_STATE_SLEEPING 0,
       mk_task 2 2 TASK_STATE_SLEEPING 0] (by decide) (by decide)
    exact ⟨s', h, h1 (by decide)⟩
  · obtain ⟨s', h, h1, _⟩ := create_new_pid_selection_rule cfg5 (index_state [0, 2, 3, 5] 5)
      [mk_task 0 0 TASK_STATE_SLEEPING 0, mk_task 2 2 TASK_STATE_SLEEPING 0,
       mk_task 3 3 TASK_STATE_SLEEPING 0, mk_task 5 5 TASK_STATE_SLEEPING 0]
      (by decide) (by decide)
    exact ⟨s', h, h1 (by decide)⟩

theorem pid_scan_fixed (x : Int) (nodes : List task_info)
    (h : ∀ t ∈ nodes, is_main_thread t = true → t.tid ≠ x) : pid_scan x nodes = x := by
  induction nodes with
  | nil => rfl
  | cons t rest ih =>
    have ht : ¬ (is_main_thread t = true ∧ x = t.tid) := fun hc =>
      h t (List.mem_cons_self _ _) hc.1 hc.2.symm
    simp only [pid_scan, ht, if_false]
    exact ih (fun u hu => h u (List.mem_cons_of_mem _ hu))

/-- C3: when `current_max_pid + 1 ≤ MAX_PID` and no main thread of the index
has the `tid` `current_max_pid + 1`, `create_new_pid` returns exactly
`current_max_pid + 1`, whatever smaller identifiers are unused. -/
theorem create_new_pid_monotonic_preference (cfg : sched_config) (s : sched_state)
    (nodes : List task_info)
    (hgate : s.disable_preemption_count ≠ 0)
    (hnodes : deref_all s.mem s.tree_by_tid_root = some nodes)
    (hcur : -2147483648 ≤ s.current_max_pid)
    (hmax : cfg.MAX_PID < 2147483648)
    (hle : s.current_max_pid + 1 ≤ cfg.MAX_PID)
    (hfree : ∀ t ∈ nodes, is_main_thread t = true → t.tid ≠ s.current_max_pid + 1) :
    ∃ s', create_new_pid cfg s = some (s.current_max_pid + 1, s') := by
  have hw : wrap_int (s.current_max_pid + 1) = s.current_max_pid + 1 :=
    wrap_int_eq _ (by omega) (by omega)
  rw [create_new_pid_eq cfg s nodes hgate hnodes, hw,
    pid_scan_fixed (s.current_max_pid + 1) nodes hfree]
  simp only [select_pid, hle, if_true]
  by_cases h : s.current_max_pid + 1 ≥ 0
  · exact ⟨{ s with current_max_pid := s.current_max_pid + 1 }, by simp [h]⟩
  · exact ⟨s, by simp [h]⟩

/-- C3 at live identifiers {0,2} with `current_max_pid = 2` and `MAX_PID = 5`:
the result is 3 although the identifier 1 is unused. -/
theorem create_new_pid_monotonic_preference_witness :
    ∃ s', create_new_pid cfg5 (index_state [0, 2] 2) = some (3, s') :=
  create_new_pid_monotonic_preference cfg5 (index_state [0, 2] 2)
    [mk_task 0 0 TASK_STATE_SLEEPING 0, mk_task 2 2 TASK_STATE_SLEEPING 0]
    (by decide) (by decide) (by decide) (by decide) (by decide) (by decide)

/-! ## `need_reschedule` -/

/-- C4 as stated fails: when the ready tasklet runner is the current task,
`need_reschedule` returns false although the current task has reached the
quantum `TIME_SLOT_TICKS`. -/
theorem need_reschedule_runner_is_current :
    runner_is_current.current = some 9 ∧
    runner_is_current.mem 9 =
      some { mk_task 9 0 TASK_STATE_RUNNING 50 with time_slot_ticks := 20 } ∧
    need_reschedule cfg5 runner_is_current (some 9) = some false ∧
    ¬ (need_reschedule cfg5 runner_is_current (some 9) = some true ↔
        ((∃ r, (some 9 : Option TaskPtr) = some r ∧ r ≠ 9) ∨
          cfg5.TIME_SLOT_TICKS ≤ 20 ∨
          TASK_STATE_RUNNING ≠ TASK_STATE_RUNNING)) := by
  refine ⟨rfl, rfl, rfl, ?_⟩
  intro h
  have h2 := h.mpr (Or.inr (Or.inl (by decide)))
  have h3 : need_reschedule cfg5 runner_is_current (some 9) = some false := rfl
  rw [h3] at h2
  exact absurd h2 (by decide)

/-- C4, amended: `need_reschedule` returns true if and only if a high-priority
tasklet runner is ready and is not the current task, or no high-priority
tasklet runner is ready and the current task has `time_slot_ticks ≥
TIME_SLOT_TICKS` or a state other than running; otherwise it returns false. -/
theorem need_reschedule_iff (cfg : sched_config) (s : sched_state)
    (tasklet_runner : Option TaskPtr) (curr : TaskPtr) (c : task_info)
    (hcur : s.current = some curr) (hmem : s.mem curr = some c) :
    ∃ b, need_reschedule cfg s tasklet_runner = some b ∧
      (b = true ↔
        ((∃ r, tasklet_runner = some r ∧ r ≠ curr) ∨
          (tasklet_runner = none ∧
            (cfg.TIME_SLOT_TICKS ≤ c.time_slot_ticks ∨ c.state ≠ TASK_STATE_RUNNING)))) := by
  cases tasklet_runner with
  | some r =>
    by_cases hr : r = curr
    · refine ⟨false, by simp [need_reschedule, hcur, hr], ?_⟩
      simp [hr]
    · refine ⟨true, by simp [need_reschedule, hcur, hr], ?_⟩
      simp [hr]
  | none =>
    by_cases hq : c.time_slot_ticks < cfg.TIME_SLOT_TICKS ∧ c.state = TASK_STATE_RUNNING
    · refine ⟨false, by simp [need_reschedule, hcur, hmem, hq], ?_⟩
      simp only [Bool.false_eq_true, false_iff, not_or, not_exists, not_and]
      refine ⟨fun r hr => by simp at hr, fun _ => ⟨by omega, by simp [hq.2]⟩⟩
    · refine ⟨true, by simp [need_reschedule, hcur, hmem, hq], ?_⟩
      simp only [true_iff]
      right
      refine ⟨trivial, ?_⟩
      by_cases h1 : c.time_slot_ticks < cfg.TIME_SLOT_TICKS
      · exact Or.inr (fun h2 => hq ⟨h1, h2⟩)
      · exact Or.inl (by omega)

/-- C4, amended, at the state in which the ready tasklet runner is the current
task: the answer is false. -/
theorem need_reschedule_iff_witness :
    ∃ b, need_reschedule cfg5 runner_is_current (some 9) = some b ∧
      (b = true ↔
        ((∃ r, (some 9 : Option TaskPtr) = some r ∧ r ≠ 9) ∨
          ((some 9 : Option TaskPtr) = none ∧
            (cfg5.TIME_SLOT_TICKS ≤
                ({ mk_task 9 0 TASK_STATE_RUNNING 50 with time_slot_ticks := 20 } :
                  task_info).time_slot_ticks ∨
              ({ mk_task 9 0 TASK_STATE_RUNNING 50 with time_slot_ticks := 20 } :
                  task_info).state ≠ TASK_STATE_RUNNING)))) :=
  need_reschedule_iff cfg5 runner_is_current (some 9) 9
    { mk_task 9 0 TASK_STATE_RUNNING 50 with time_slot_ticks := 20 } rfl rfl

/-! ## Freshness of the allocated identifier -/

theorem pid_scan_ge_or_wrap (x : Int) (nodes : List task_info)
    (hb : ∀ t ∈ nodes, is_main_thread t = true → 0 ≤ t.tid ∧ t.tid < 2147483648) :
    x ≤ pid_scan x nodes ∨ pid_scan x nodes = -2147483648 := by
  induction nodes generalizing x with
  | nil => exact Or.inl (le_refl _)
  | cons t rest ih =>
    have hrest : ∀ u ∈ rest, is_main_thread u = true → 0 ≤ u.tid ∧ u.tid < 2147483648 :=
      fun u hu => hb u (List.mem_cons_of_mem _ hu)
    by_cases ht : is_main_thread t = true ∧ x = t.tid
    · simp only [pid_scan, ht, and_self, if_true]
      have hbt := hb t (List.mem_cons_self _ _) ht.1
      by_cases hmax : t.tid = 2147483647
      · right
        have hw : wrap_int (t.tid + 1) = -2147483648 := by
          rw [hmax]; decide
        rw [hw]
        exact pid_scan_fixed _ rest (fun u hu hm => by
          have := hrest u hu hm
          omega)
      · have hw : wrap_int (t.tid + 1) = t.tid + 1 := wrap_int_eq _ (by omega) (by omega)
        rw [hw]
        rcases ih (t.tid + 1) hrest with h | h
        · left; omega
        · right; exact h
    · simp only [pid_scan, ht, if_false]
      exact ih x hrest

theorem pid_scan_not_mem (x : Int) (nodes : List task_info)
    (hs : nodes.Pairwise (fun a b => a.tid < b.tid))
    (hb : ∀ t ∈ nodes, is_main_thread t = true → 0 ≤ t.tid ∧ t.tid < 2147483648) :
    ∀ t ∈ nodes, is_main_thread t = true → t.tid ≠ pid_scan x nodes := by
  induction nodes generalizing x with
  | nil => intro t ht; simp at ht
  | cons t rest ih =>
    have hrest : ∀ u ∈ rest, is_main_thread u = true → 0 ≤ u.tid ∧ u.tid < 2147483648 :=
      fun u hu => hb u (List.mem_cons_of_mem _ hu)
    rw [List.pairwise_cons] at hs
    intro u hu hmu
    rcases List.mem_cons.mp hu with rfl | hu'
    · -- the head itself
      have hbu := hb u (List.mem_cons_self _ _) hmu
      by_cases hx : x = u.tid
      · simp only [pid_scan, hmu, hx, and_self, if_true]
        by_cases hmax : u.tid = 2147483647
        · have hw : wrap_int (u.tid + 1) = -2147483648 := by
            rw [hmax]; decide
          rw [hw, pid_scan_fixed _ rest (fun v hv hm => by
            have := hrest v hv hm
            omega)]
          omega
        · have hw : wrap_int (u.tid + 1) = u.tid + 1 := wrap_int_eq _ (by omega) (by omega)
          rw [hw]
          rcases pid_scan_ge_or_wrap (u.tid + 1) rest hrest with h | h <;> omega
      · have hne : ¬ (is_main_thread u = true ∧ x = u.tid) := fun hc => hx hc.2
        simp only [pid_scan, hne, if_false]
        by_cases hlt : x < u.tid
        · rw [pid_scan_fixed x rest (fun v hv _ => by
            have := hs.1 v hv
            omega)]
          omega
        · rcases pid_scan_ge_or_wrap x rest hrest with h | h <;> omega
    · simp only [pid_scan]
      exact ih _ hs.2 hrest u hu' hmu

theorem select_pid_le (MAX_PID : Int) (ctx : create_pid_visit_ctx)
    (h : 0 ≤ select_pid MAX_PID ctx) : select_pid MAX_PID ctx ≤ MAX_PID := by
  unfold select_pid at *
  split_ifs at * <;> omega

theorem select_pid_cases (MAX_PID : Int) (ctx : create_pid_visit_ctx)
    (h : 0 ≤ select_pid MAX_PID ctx) :
    select_pid MAX_PID ctx = ctx.lowest_after_current_max ∨
      select_pid MAX_PID ctx = ctx.lowest_available := by
  unfold select_pid at *
  split_ifs at * <;> simp at * 

/-! ## Frame lemmas for the list helpers and the operations -/

theorem task_add_to_state_list_frame (cfg : sched_config) (s s' : sched_state) (ti : TaskPtr)
    (h : task_add_to_state_list cfg s ti = some s') :
    s'.mem = s.mem ∧ s'.tree_by_tid_root = s.tree_by_tid_root ∧
      s'.current_max_pid = s.current_max_pid ∧ s'.current = s.current ∧
      s'.idle_task = s.idle_task ∧
      s'.disable_preemption_count = s.disable_preemption_count := by
  unfold task_add_to_state_list at h
  split at h
  · cases h; simp
  · split at h
    · exact absurd h (by simp)
    · split at h <;> first | (cases h; simp) | exact absurd h (by simp)

theorem task_remove_from_state_list_frame (cfg : sched_config) (s s' : sched_state)
    (ti : TaskPtr) (h : task_remove_from_state_list cfg s ti = some s') :
    s'.mem = s.mem ∧ s'.tree_by_tid_root = s.tree_by_tid_root ∧
      s'.current_max_pid = s.current_max_pid ∧ s'.current = s.current ∧
      s'.idle_task = s.idle_task ∧
      s'.disable_preemption_count = s.disable_preemption_count := by
  unfold task_remove_from_state_list at h
  split at h
  · cases h; simp
  · split at h
    · exact absurd h (by simp)
    · split at h
      · split at h
        · cases h; simp
        · exact absurd h (by simp)
      all_goals first | (cases h; simp) | exact absurd h (by simp)

theorem task_change_state_frame (cfg : sched_config) (s s' : sched_state) (ti : TaskPtr)
    (st : task_state) (h : task_change_state cfg s ti st = some s') :
    ∃ t, s.mem ti = some t ∧ t.state ≠ st ∧ t.state ≠ TASK_STATE_ZOMBIE ∧
      s'.mem = (s.write ti { t with state := st }).mem ∧
      s'.tree_by_tid_root = s.tree_by_tid_root ∧
      s'.current_max_pid = s.current_max_pid ∧ s'.current = s.current ∧
      s'.idle_task = s.idle_task := by
  unfold task_change_state at h
  split at h
  · exact absurd h (by simp)
  · rename_i t ht
    split at h
    · exact absurd h (by simp)
    · split at h
      · exact absurd h (by simp)
      · split at h
        · exact absurd h (by simp)
        · rename_i s2 hs2
          have f2 := task_remove_from_state_list_frame _ _ _ _ hs2
          split at h
          · exact absurd h (by simp)
          · rename_i t2 ht2
            split at h
            · exact absurd h (by simp)
            · rename_i s4 hs4
              have f4 := task_add_to_state_list_frame _ _ _ _ hs4
              cases h
              have ht2' : t2 = t := by
                rw [f2.1] at ht2
                simp only [disable_preemption] at ht2
                rw [ht] at ht2
                exact (Option.some.inj ht2).symm
              subst ht2'
              refine ⟨t2, ht, by assumption, by assumption, ?_, ?_, ?_, ?_, ?_⟩
              · simp only [enable_preemption, f4.1, sched_state.write, f2.1, disable_preemption]
              · simp only [enable_preemption, f4.2.1, sched_state.write, f2.2.1,
                  disable_preemption]
              · simp only [enable_preemption, f4.2.2.1, sched_state.write, f2.2.2.1,
                  disable_preemption]
              · simp only [enable_preemption, f4.2.2.2.1, sched_state.write, f2.2.2.2.1,
                  disable_preemption]
              · simp only [enable_preemption, f4.2.2.2.2.1, sched_state.write, f2.2.2.2.2.1,
                  disable_preemption]

theorem add_task_frame (cfg : sched_config) (s s' : sched_state) (ti : TaskPtr)
    (h : add_task cfg s ti = some s') :
    ∃ t root ok, s.mem ti = some t ∧
      bintree_insert s.mem s.tree_by_tid_root ti t = some (root, ok) ∧
      s'.tree_by_tid_root = root ∧ s'.mem = s.mem ∧
      s'.current_max_pid = s.current_max_pid ∧ s'.current = s.current ∧
      s'.idle_task = s.idle_task := by
  unfold add_task at h
  split at h
  · exact absurd h (by simp)
  · rename_i s2 hs2
    have f2 := task_add_to_state_list_frame _ _ _ _ hs2
    simp only [disable_preemption] at f2
    split at h
    · exact absurd h (by simp)
    · rename_i t ht
      split at h
      · exact absurd h (by simp)
      · rename_i root ok hins
        cases h
        rw [f2.1] at ht hins
        rw [f2.2.1] at hins
        exact ⟨t, root, ok, ht, hins, rfl, by simp [enable_preemption, f2.1],
          by simp [enable_preemption, f2.2.2.1], by simp [enable_preemption, f2.2.2.2.1],
          by simp [enable_preemption, f2.2.2.2.2.1]⟩

theorem remove_task_frame (cfg : sched_config) (s s' : sched_state) (ti : TaskPtr)
    (h : remove_task cfg s ti = some s') :
    ∃ t root, s.mem ti = some t ∧ t.state = TASK_STATE_ZOMBIE ∧
      bintree_remove s.mem s.tree_by_tid_root t = some root ∧
      s'.tree_by_tid_root = root ∧ s'.mem = (s.release ti).mem ∧
      s'.current_max_pid = s.current_max_pid ∧ s'.current = s.current ∧
      s'.idle_task = s.idle_task := by
  unfold remove_task at h
  split at h
  · exact absurd h (by simp)
  · rename_i t ht
    split at h
    · exact absurd h (by simp)
    · rename_i hz
      split at h
      · exact absurd h (by simp)
      · rename_i s2 hs2
        have f2 := task_remove_from_state_list_frame _ _ _ _ hs2
        simp only [disable_preemption] at f2
        split at h
        · exact absurd h (by simp)
        · rename_i root hrem
          cases h
          rw [f2.1, f2.2.1] at hrem
          exact ⟨t, root, ht, by simpa using hz, hrem, rfl,
            by simp [enable_preemption, sched_state.release, f2.1],
            by simp [enable_preemption, sched_state.release, f2.2.2.1],
            by simp [enable_preemption, sched_state.release, f2.2.2.2.1],
            by simp [enable_preemption, sched_state.release, f2.2.2.2.2.1]⟩

/-! ## The task index -/

theorem deref_all_forall₂ (mem : TaskPtr → Option task_info) (root : List TaskPtr)
    (nodes : List task_info) (h : deref_all mem root = some nodes) :
    List.Forall₂ (fun p t => mem p = some t) root nodes := by
  induction root generalizing nodes with
  | nil =>
    simp only [deref_all, Option.some.injEq] at h
    subst h
    exact List.Forall₂.nil
  | cons p ps ih =>
    unfold deref_all at h
    split at h
    · rename_i t ts hp hps
      cases h
      exact List.Forall₂.cons hp (ih ts hps)
    · exact absurd h (by simp)

theorem deref_all_total (mem : TaskPtr → Option task_info) (root : List TaskPtr)
    (h : ∀ p ∈ root, ∃ t, mem p = some t) : ∃ nodes, deref_all mem root = some nodes := by
  induction root with
  | nil => exact ⟨[], rfl⟩
  | cons p ps ih =>
    obtain ⟨t, ht⟩ := h p (List.mem_cons_self _ _)
    obtain ⟨ts, hts⟩ := ih (fun q hq => h q (List.mem_cons_of_mem _ hq))
    exact ⟨t :: ts, by simp [deref_all, ht, hts]⟩

theorem forall₂_mem_right (mem : TaskPtr → Option task_info) (root : List TaskPtr)
    (nodes : List task_info) (h : List.Forall₂ (fun p t => mem p = some t) root nodes) :
    ∀ t ∈ nodes, ∃ p ∈ root, mem p = some t := by
  induction h with
  | nil => intro t ht; simp at ht
  | cons hp _ ih =>
    intro t ht
    rcases List.mem_cons.mp ht with rfl | ht'
    · exact ⟨_, List.mem_cons_self _ _, hp⟩
    · obtain ⟨p, hp1, hp2⟩ := ih t ht'
      exact ⟨p, List.mem_cons_of_mem _ hp1, hp2⟩

theorem forall₂_mem_left (mem : TaskPtr → Option task_info) (root : List TaskPtr)
    (nodes : List task_info) (h : List.Forall₂ (fun p t => mem p = some t) root nodes) :
    ∀ p ∈ root, ∃ t ∈ nodes, mem p = some t := by
  induction h with
  | nil => intro p hp; simp at hp
  | cons hp _ ih =>
    intro q hq
    rcases List.mem_cons.mp hq with rfl | hq'
    · exact ⟨_, List.mem_cons_self _ _, hp⟩
    · obtain ⟨t, ht1, ht2⟩ := ih q hq'
      exact ⟨t, List.mem_cons_of_mem _ ht1, ht2⟩

theorem forall₂_sorted (mem : TaskPtr → Option task_info) (root : List TaskPtr)
    (nodes : List task_info) (h : List.Forall₂ (fun p t => mem p = some t) root nodes)
    (hs : index_sorted mem root) : nodes.Pairwise (fun a b => a.tid < b.tid) := by
  induction h with
  | nil => exact List.Pairwise.nil
  | cons hp hrest ih =>
    unfold index_sorted at hs
    rw [List.pairwise_cons] at hs
    rw [List.pairwise_cons]
    refine ⟨fun u hu => ?_, ih hs.2⟩
    obtain ⟨q, hq1, hq2⟩ := forall₂_mem_right mem _ _ hrest u hu
    exact hs.1 q hq1 _ _ hp hq2

theorem cmp_zero_iff (t u : task_info) (ht : 0 ≤ t.tid ∧ t.tid < 2147483648)
    (hu : 0 ≤ u.tid ∧ u.tid < 2147483648) :
    (ti_insert_remove_cmp t u = 0 ↔ t.tid = u.tid) ∧
      (ti_insert_remove_cmp t u < 0 ↔ t.tid < u.tid) := by
  unfold ti_insert_remove_cmp
  rw [wrap_int_eq _ (by omega) (by omega)]
  constructor <;> constructor <;> intro h <;> omega

theorem bintree_insert_sorted (mem : TaskPtr → Option task_info) (root root' : List TaskPtr)
    (p : TaskPtr) (t : task_info) (ok : Bool)
    (hv : index_valid mem root) (hs : index_sorted mem root)
    (hp : mem p = some t) (ht : 0 ≤ t.tid ∧ t.tid < 2147483648)
    (h : bintree_insert mem root p t = some (root', ok)) :
    (∀ q ∈ root', q = p ∨ q ∈ root) ∧ index_sorted mem root' := by
  induction root generalizing root' ok with
  | nil =>
    simp only [bintree_insert, Option.some.injEq, Prod.mk.injEq] at h
    obtain ⟨rfl, _⟩ := h
    exact ⟨fun q hq => Or.inl (by simpa using hq), List.pairwise_singleton _ _⟩
  | cons q rest ih =>
    obtain ⟨u, hq, hu⟩ := hv q (List.mem_cons_self _ _)
    have hvrest : index_valid mem rest := fun x hx => hv x (List.mem_cons_of_mem _ hx)
    have hs' := hs
    unfold index_sorted at hs'
    rw [List.pairwise_cons] at hs'
    have hc := cmp_zero_iff t u ht hu
    unfold bintree_insert at h
    rw [hq] at h
    simp only at h
    split at h
    · simp only [Option.some.injEq, Prod.mk.injEq] at h
      obtain ⟨rfl, _⟩ := h
      exact ⟨fun x hx => Or.inr hx, hs⟩
    · rename_i hne
      split at h
      · rename_i hlt
        simp only [Option.some.injEq, Prod.mk.injEq] at h
        obtain ⟨rfl, _⟩ := h
        refine ⟨fun x hx => ?_, ?_⟩
        · rcases List.mem_cons.mp hx with rfl | hx'
          · exact Or.inl rfl
          · exact Or.inr hx'
        · unfold index_sorted
          rw [List.pairwise_cons]
          refine ⟨fun x hx a b ha hb => ?_, hs⟩
          have hat : a = t := (Option.some.inj (hp.symm.trans ha)).symm
          rw [hat]
          have h1 : t.tid < u.tid := hc.2.mp hlt
          rcases List.mem_cons.mp hx with hx' | hx'
          · have hbu : b = u := by
              rw [hx'] at hb
              exact (Option.some.inj (hq.symm.trans hb)).symm
            rw [hbu]
            exact h1
          · have := hs'.1 x hx' u b hq hb
            omega
      · rename_i hge
        split at h
        · exact absurd h (by simp)
        · rename_i r ok' hrec
          simp only [Option.some.injEq, Prod.mk.injEq] at h
          obtain ⟨rfl, _⟩ := h
          obtain ⟨ih1, ih2⟩ := ih r ok' hvrest hs'.2 hrec
          refine ⟨fun x hx => ?_, ?_⟩
          · rcases List.mem_cons.mp hx with rfl | hx'
            · exact Or.inr (List.mem_cons_self _ _)
            · rcases ih1 x hx' with h1 | h1
              · exact Or.inl h1
              · exact Or.inr (List.mem_cons_of_mem _ h1)
          · unfold index_sorted
            rw [List.pairwise_cons]
            refine ⟨fun x hx a b ha hb => ?_, ih2⟩
            have hau : a = u := (Option.some.inj (hq.symm.trans ha)).symm
            rw [hau]
            rcases ih1 x hx with h1 | h1
            · have hbt : b = t := by
                rw [h1] at hb
                exact (Option.some.inj (hp.symm.trans hb)).symm
              rw [hbt]
              have h2 : ¬ t.tid = u.tid := fun e => hne (hc.1.mpr e)
              have h3 : ¬ t.tid < u.tid := fun e => hge (hc.2.mpr e)
              omega
            · exact hs'.1 x h1 u b hq hb

theorem bintree_remove_sublist (mem : TaskPtr → Option task_info) (root root' : List TaskPtr)
    (t : task_info) (h : bintree_remove mem root t = some root') :
    root'.Sublist root := by
  induction root generalizing root' with
  | nil =>
    simp only [bintree_remove, Option.some.injEq] at h
    subst h
    exact List.Sublist.refl _
  | cons q rest ih =>
    unfold bintree_remove at h
    split at h
    · exact absurd h (by simp)
    · split at h
      · cases h
        exact List.sublist_cons_self _ _
      · split at h
        · exact absurd h (by simp)
        · rename_i r hrec
          cases h
          exact (ih r hrec).cons₂ _

theorem bintree_remove_not_mem (mem : TaskPtr → Option task_info) (root root' : List TaskPtr)
    (p : TaskPtr) (t : task_info)
    (hv : index_valid mem root) (hs : index_sorted mem root)
    (hp : mem p = some t) (hmem : p ∈ root)
    (h : bintree_remove mem root t = some root') : p ∉ root' := by
  induction root generalizing root' with
  | nil => simp at hmem
  | cons q rest ih =>
    obtain ⟨u, hq, hu⟩ := hv q (List.mem_cons_self _ _)
    obtain ⟨t', hp', ht⟩ := hv p hmem
    rw [hp] at hp'
    cases hp'
    have hvrest : index_valid mem rest := fun x hx => hv x (List.mem_cons_of_mem _ hx)
    have hs' := hs
    unfold index_sorted at hs'
    rw [List.pairwise_cons] at hs'
    have hc := cmp_zero_iff t u ht hu
    unfold bintree_remove at h
    rw [hq] at h
    simp only at h
    split at h
    · rename_i heq
      cases h
      intro hin
      have h1 := hs'.1 p hin u t hq hp
      have h2 := hc.1.mp heq
      omega
    · rename_i hne
      split at h
      · exact absurd h (by simp)
      · rename_i r hrec
        cases h
        have hpq : p ≠ q := by
          rintro rfl
          rw [hp] at hq
          cases hq
          exact hne (hc.1.mpr rfl)
        have hin : p ∈ rest := by
          rcases List.mem_cons.mp hmem with h1 | h1
          · exact absurd h1 hpq
          · exact h1
        intro hcon
        rcases List.mem_cons.mp hcon with h1 | h1
        · exact hpq h1
        · exact ih r hvrest hs'.2 hin hrec h1

/-! ## The allocator along allocations and removals -/

theorem index_sorted_congr (mem mem' : TaskPtr → Option task_info) (root : List TaskPtr)
    (h : ∀ p t', mem' p = some t' → ∃ t0, mem p = some t0 ∧ t0.tid = t'.tid)
    (hs : index_sorted mem root) : index_sorted mem' root := by
  unfold index_sorted at *
  refine hs.imp ?_
  intro p q hpq t u ht hu
  obtain ⟨t0, ht0, e1⟩ := h p t ht
  obtain ⟨u0, hu0, e2⟩ := h q u hu
  have := hpq t0 u0 ht0 hu0
  omega

theorem index_valid_congr (mem mem' : TaskPtr → Option task_info) (root : List TaskPtr)
    (h : ∀ p ∈ root, ∀ t0, mem p = some t0 → ∃ t', mem' p = some t' ∧ t'.tid = t0.tid)
    (hv : index_valid mem root) : index_valid mem' root := by
  intro p hp
  obtain ⟨t0, ht0, hb⟩ := hv p hp
  obtain ⟨t', ht', e⟩ := h p hp t0 ht0
  exact ⟨t', ht', by omega, by omega⟩

theorem pid_scan_lt (x : Int) (nodes : List task_info) (hx : x < 2147483648) :
    pid_scan x nodes < 2147483648 := by
  induction nodes generalizing x with
  | nil => exact hx
  | cons t rest ih =>
    simp only [pid_scan]
    split
    · exact ih _ (wrap_int_range _).2
    · exact ih _ hx

theorem create_new_pid_total (cfg : sched_config) (s : sched_state)
    (hgate : s.disable_preemption_count ≠ 0)
    (hv : index_valid s.mem s.tree_by_tid_root) :
    ∃ r s', create_new_pid cfg s = some (r, s') := by
  obtain ⟨nodes, hn⟩ := deref_all_total s.mem s.tree_by_tid_root (fun p hp => by
    obtain ⟨t, ht, _⟩ := hv p hp
    exact ⟨t, ht⟩)
  rw [create_new_pid_eq cfg s nodes hgate hn]
  simp only
  split
  · exact ⟨_, _, rfl⟩
  · exact ⟨_, _, rfl⟩

theorem create_new_pid_fresh (cfg : sched_config) (s s' : sched_state) (r : Int)
    (hinv : pid_inv s) (h : create_new_pid cfg s = some (r, s')) :
    s'.mem = s.mem ∧ s'.tree_by_tid_root = s.tree_by_tid_root ∧
      (r < 0 → s' = s) ∧
      (0 ≤ r → s'.current_max_pid = r ∧ r ≤ cfg.MAX_PID ∧ r < 2147483648 ∧
        ∀ p ∈ s.tree_by_tid_root, ∀ t, s.mem p = some t → is_main_thread t = true →
          t.tid ≠ r) := by
  obtain ⟨hv, hs, hlo, hhi⟩ := hinv
  have hgate : s.disable_preemption_count ≠ 0 := by
    intro h0
    simp [create_new_pid, is_preemption_enabled, h0] at h
  obtain ⟨nodes, hn⟩ := deref_all_total s.mem s.tree_by_tid_root (fun p hp => by
    obtain ⟨t, ht, _⟩ := hv p hp
    exact ⟨t, ht⟩)
  have hf := deref_all_forall₂ _ _ _ hn
  have hsorted := forall₂_sorted _ _ _ hf hs
  have hbound : ∀ t ∈ nodes, is_main_thread t = true → 0 ≤ t.tid ∧ t.tid < 2147483648 := by
    intro t ht _
    obtain ⟨p, hp1, hp2⟩ := forall₂_mem_right _ _ _ hf t ht
    obtain ⟨t', ht', hb⟩ := hv p hp1
    rw [hp2] at ht'
    cases ht'
    exact hb
  have hr : r = select_pid cfg.MAX_PID
      ⟨pid_scan 0 nodes, pid_scan (wrap_int (s.current_max_pid + 1)) nodes⟩ ∧
      s' = (if r ≥ 0 then { s with current_max_pid := r } else s) := by
    rw [create_new_pid_eq cfg s nodes hgate hn] at h
    simp only at h
    split at h
    · rename_i hge
      simp only [Option.some.injEq, Prod.mk.injEq] at h
      obtain ⟨h1, h2⟩ := h
      subst h1
      exact ⟨rfl, by rw [if_pos hge]; exact h2.symm⟩
    · rename_i hge
      simp only [Option.some.injEq, Prod.mk.injEq] at h
      obtain ⟨h1, h2⟩ := h
      subst h1
      exact ⟨rfl, by rw [if_neg hge]; exact h2.symm⟩
  obtain ⟨hr1, hr2⟩ := hr
  refine ⟨?_, ?_, ?_, ?_⟩
  · rw [hr2]; split <;> rfl
  · rw [hr2]; split <;> rfl
  · intro hneg
    rw [hr2, if_neg (by omega)]
  · intro hpos
    refine ⟨by rw [hr2, if_pos hpos], ?_, ?_, ?_⟩
    · rw [hr1] at hpos ⊢
      exact select_pid_le _ _ hpos
    · rw [hr1] at hpos ⊢
      rcases select_pid_cases _ _ hpos with e | e
      · rw [e]; exact pid_scan_lt _ _ (wrap_int_range _).2
      · rw [e]; exact pid_scan_lt _ _ (by decide)
    · intro p hp t ht hm
      obtain ⟨t', ht', hpt⟩ := forall₂_mem_left _ _ _ hf p hp
      rw [ht] at hpt
      cases hpt
      rw [hr1] at hpos ⊢
      rcases select_pid_cases _ _ hpos with e | e
      · rw [e]; exact pid_scan_not_mem _ nodes hsorted hbound t ht' hm
      · rw [e]; exact pid_scan_not_mem _ nodes hsorted hbound t ht' hm

theorem pid_inv_change (cfg : sched_config) (s s1 : sched_state) (p : TaskPtr)
    (st : task_state) (hinv : pid_inv s)
    (hcall : task_change_state cfg s p st = some s1) : pid_inv s1 := by
  obtain ⟨hv, hs, hlo, hhi⟩ := hinv
  obtain ⟨t, ht, _, _, hmem, hroot, hmax, _, _⟩ := task_change_state_frame _ _ _ _ _ hcall
  refine ⟨?_, ?_, by rw [hmax]; exact hlo, by rw [hmax]; exact hhi⟩
  · rw [hroot, hmem]
    refine index_valid_congr s.mem _ _ (fun q _ t0 ht0 => ?_) hv
    by_cases hq : q = p
    · subst hq
      have e : t0 = t := (Option.some.inj (ht.symm.trans ht0)).symm
      rw [e]
      exact ⟨{ t with state := st }, by simp [sched_state.write], rfl⟩
    · exact ⟨t0, by simp [sched_state.write, hq, ht0], rfl⟩
  · rw [hroot, hmem]
    refine index_sorted_congr s.mem _ _ (fun q t' ht' => ?_) hs
    by_cases hq : q = p
    · subst hq
      simp only [sched_state.write, if_true, Option.some.injEq] at ht'
      subst ht'
      exact ⟨t, ht, rfl⟩
    · simp only [sched_state.write, hq, if_false] at ht'
      exact ⟨t', ht', rfl⟩

theorem pid_inv_remove (cfg : sched_config) (s s1 : sched_state) (p : TaskPtr)
    (hinv : pid_inv s) (hp : p ∈ s.tree_by_tid_root)
    (hcall : remove_task cfg s p = some s1) : pid_inv s1 := by
  obtain ⟨hv, hs, hlo, hhi⟩ := hinv
  obtain ⟨t, root, ht, _, hrem, hroot, hmem, hmax, _, _⟩ := remove_task_frame _ _ _ _ hcall
  have hsub := bintree_remove_sublist _ _ _ _ hrem
  have hnot := bintree_remove_not_mem _ _ _ p t hv hs ht hp hrem
  refine ⟨?_, ?_, by rw [hmax]; exact hlo, by rw [hmax]; exact hhi⟩
  · rw [hroot, hmem]
    intro q hq
    have hqp : q ≠ p := fun e => hnot (e ▸ hq)
    obtain ⟨u, hu, hb⟩ := hv q (hsub.subset hq)
    exact ⟨u, by simp [sched_state.release, hqp, hu], hb⟩
  · rw [hroot, hmem]
    have h1 : index_sorted s.mem root := List.Pairwise.sublist hsub hs
    refine index_sorted_congr s.mem _ _ (fun q t' ht' => ?_) h1
    by_cases hq : q = p
    · simp [sched_state.release, hq] at ht'
    · simp only [sched_state.release, hq, if_false] at ht'
      exact ⟨t', ht', rfl⟩

theorem pid_inv_alloc (cfg : sched_config) (s s1 s2 : sched_state) (r : Int) (p : TaskPtr)
    (t : task_info) (hinv : pid_inv s)
    (hcall : create_new_pid cfg s = some (r, s1)) (hr : 0 ≤ r)
    (hnew : s1.mem p = none) (htid : t.tid = r)
    (hadd : add_task cfg (s1.write p t) p = some s2) : pid_inv s2 := by
  obtain ⟨hmem1, hroot1, _, hpos⟩ := create_new_pid_fresh cfg s s1 r hinv hcall
  obtain ⟨hmax1, _, hlt, _⟩ := hpos hr
  obtain ⟨hv, hs, hlo, hhi⟩ := hinv
  obtain ⟨t', root, ok, ht', hins, hroot2, hmem2, hmax2, _, _⟩ := add_task_frame _ _ _ _ hadd
  have htt : t' = t := by
    simp [sched_state.write] at ht'
    exact ht'.symm
  subst htt
  have hfresh : ∀ q ∈ s.tree_by_tid_root, q ≠ p := by
    intro q hq e
    obtain ⟨u, hu, _⟩ := hv q hq
    rw [e, ← hmem1, hnew] at hu
    exact absurd hu (by simp)
  have hv1 : index_valid (s1.write p t').mem s.tree_by_tid_root := by
    refine index_valid_congr s.mem _ _ (fun q hq t0 ht0 => ?_) hv
    exact ⟨t0, by simp [sched_state.write, hfresh q hq, hmem1, ht0], rfl⟩
  have hs1 : index_sorted (s1.write p t').mem s.tree_by_tid_root := by
    unfold index_sorted at *
    rw [List.pairwise_iff_forall_sublist] at *
    intro a b hab u v hu hv'
    have ha : a ∈ s.tree_by_tid_root := hab.subset (by simp)
    have hb : b ∈ s.tree_by_tid_root := hab.subset (by simp)
    simp only [sched_state.write, hfresh a ha, hfresh b hb, if_false, hmem1] at hu hv'
    exact hs hab u v hu hv'
  have hwp : (s1.write p t').mem p = some t' := by simp [sched_state.write]
  have hpt : 0 ≤ t'.tid ∧ t'.tid < 2147483648 := by omega
  have hwroot : (s1.write p t').tree_by_tid_root = s.tree_by_tid_root := by
    simp [sched_state.write, hroot1]
  rw [hwroot] at hins
  obtain ⟨hsub, hsorted⟩ := bintree_insert_sorted _ _ _ _ _ _ hv1 hs1 hwp hpt hins
  refine ⟨?_, ?_, ?_, ?_⟩
  · rw [hroot2, hmem2]
    intro q hq
    rcases hsub q hq with e | hq'
    · exact ⟨t', by rw [e]; exact hwp, hpt⟩
    · exact hv1 q hq'
  · rw [hroot2, hmem2]
    exact hsorted
  · rw [hmax2]
    simp only [sched_state.write, hmax1]
    omega
  · rw [hmax2]
    simp only [sched_state.write, hmax1]
    exact hlt

theorem pid_reachable_inv (cfg : sched_config) (s : sched_state)
    (h : pid_reachable cfg s) : pid_inv s := by
  induction h with
  | start s hroot hmax =>
    refine ⟨?_, ?_, by omega, by omega⟩
    · rw [hroot]; intro p hp; simp at hp
    · rw [hroot]; exact List.Pairwise.nil
  | alloc s s1 s2 r p t _ hcall hr hnew htid _ hadd ih =>
    exact pid_inv_alloc cfg s s1 s2 r p t ih hcall hr hnew htid hadd
  | change s s1 p st _ _ hcall ih => exact pid_inv_change cfg s s1 p st ih hcall
  | remove s s1 p _ hp hcall ih => exact pid_inv_remove cfg s s1 p ih hp hcall

/-- C2: in every state reached from the empty index with `current_max_pid = -1`
by allocations, state changes and removals, `create_new_pid` (called with the
gate closed) returns, and a result `r ≥ 0` satisfies `r ≤ MAX_PID` and is not the
`tid` of any main thread that is in the index at the time of the call. -/
theorem create_new_pid_never_reuses_live (cfg : sched_config) (s : sched_state)
    (hreach : pid_reachable cfg s) (hgate : s.disable_preemption_count ≠ 0) :
    ∃ r s', create_new_pid cfg s = some (r, s') ∧
      (0 ≤ r → r ≤ cfg.MAX_PID ∧
        ∀ p ∈ s.tree_by_tid_root, ∀ t, s.mem p = some t → is_main_thread t = true →
          t.tid ≠ r) := by
  have hinv := pid_reachable_inv cfg s hreach
  obtain ⟨r, s', h⟩ := create_new_pid_total cfg s hgate hinv.1
  obtain ⟨_, _, _, hpos⟩ := create_new_pid_fresh cfg s s' r hinv h
  exact ⟨r, s', h, fun hr => ⟨(hpos hr).2.1, (hpos hr).2.2.2⟩⟩

/-- C2 after two allocations and the removal of identifier 0, with
`current_max_pid = 1` and identifier 1 live: the next result is 2. -/
theorem create_new_pid_never_reuses_live_witness :
    pid_reachable cfg5 alloc_alloc_remove ∧
    alloc_alloc_remove.tree_by_tid_root = [2] ∧
    ∃ r s', create_new_pid cfg5 alloc_alloc_remove = some (r, s') ∧
      (0 ≤ r → r ≤ cfg5.MAX_PID ∧
        ∀ p ∈ alloc_alloc_remove.tree_by_tid_root, ∀ t,
          alloc_alloc_remove.mem p = some t → is_main_thread t = true → t.tid ≠ r) := by
  have h0 : pid_reachable cfg5 boot_state := pid_reachable.start _ rfl rfl
  have h1 : pid_reachable cfg5 (after_alloc boot_state 0 1 TASK_STATE_ZOMBIE) :=
    pid_reachable.alloc boot_state { boot_state with current_max_pid := 0 } _ 0 1
      (mk_task 0 0 TASK_STATE_ZOMBIE 0) h0 rfl (by decide) rfl rfl rfl rfl
  have h2 : pid_reachable cfg5
      (after_alloc (after_alloc boot_state 0 1 TASK_STATE_ZOMBIE) 1 2 TASK_STATE_SLEEPING) :=
    pid_reachable.alloc (after_alloc boot_state 0 1 TASK_STATE_ZOMBIE)
      { after_alloc boot_state 0 1 TASK_STATE_ZOMBIE with current_max_pid := 1 } _ 1 2
      (mk_task 1 1 TASK_STATE_SLEEPING 0) h1 rfl (by decide) rfl rfl rfl rfl
  have h3 : pid_reachable cfg5 alloc_alloc_remove :=
    pid_reachable.remove _ _ 1 h2 (by decide) rfl
  exact ⟨h3, rfl, create_new_pid_never_reuses_live cfg5 alloc_alloc_remove h3 (by decide)⟩

/-! ## `task_change_state`, written out -/

theorem task_change_state_eq (cfg : sched_config) (s : sched_state) (ti : TaskPtr)
    (t : task_info) (new_state : task_state) (hmem : s.mem ti = some t)
    (hret : change_state_returns cfg s ti t new_state) :
    task_change_state cfg s ti new_state =
      some (change_state_result cfg s ti t new_state) := by
  obtain ⟨h1, h2, h3⟩ := hret
  cases htr : cfg.is_tasklet_runner ti
  · rw [htr] at h3
    simp only [Bool.false_eq_true, false_or] at h3
    obtain ⟨h4, h5, h6⟩ := h3
    cases hst : t.state <;> cases new_state <;>
      simp_all [task_change_state, task_remove_from_state_list, task_add_to_state_list,
        change_state_result, disable_preemption, enable_preemption, sched_state.write,
        list_remove, list_add_tail, hmem, htr]
  · simp [task_change_state, task_remove_from_state_list, task_add_to_state_list,
      change_state_result, disable_preemption, enable_preemption, sched_state.write,
      hmem, htr, h1, h2]

theorem task_change_state_some (cfg : sched_config) (s s' : sched_state) (ti : TaskPtr)
    (new_state : task_state) (h : task_change_state cfg s ti new_state = some s') :
    ∃ t, s.mem ti = some t ∧ change_state_returns cfg s ti t new_state ∧
      s' = change_state_result cfg s ti t new_state := by
  cases hmem : s.mem ti with
  | none => simp [task_change_state, hmem] at h
  | some t =>
    by_cases hret : change_state_returns cfg s ti t new_state
    · rw [task_change_state_eq cfg s ti t new_state hmem hret] at h
      exact ⟨t, rfl, hret, (Option.some.inj h).symm⟩
    · exfalso
      apply hret
      unfold change_state_returns
      cases htr : cfg.is_tasklet_runner ti
      · by_cases hc : 0 ≤ wrap_int (s.runnable_tasks_count - 1)
        · cases hst : t.state <;> cases new_state <;>
            simp_all [task_change_state, task_remove_from_state_list, task_add_to_state_list,
              disable_preemption, enable_preemption, sched_state.write]
        · cases hst : t.state <;> cases new_state <;>
            simp [task_change_state, task_remove_from_state_list, task_add_to_state_list,
              disable_preemption, enable_preemption, sched_state.write, hmem, htr, hst, hc] at h ⊢
      · cases hst : t.state <;> cases new_state <;>
          simp_all [task_change_state, task_remove_from_state_list, task_add_to_state_list,
            disable_preemption, enable_preemption, sched_state.write]

/-! ## `schedule` -/

theorem demotion_eq (cfg : sched_config) (s : sched_state) (curr : TaskPtr) (c : task_info)
    (hmem : s.mem curr = some c) :
    (if c.state = TASK_STATE_RUNNING then
        task_change_state cfg s curr TASK_STATE_RUNNABLE
      else some s) = some (after_demotion cfg s curr c) := by
  unfold after_demotion
  by_cases h : c.state = TASK_STATE_RUNNING
  · rw [if_pos h, if_pos h]
    apply task_change_state_eq cfg s curr c _ hmem
    refine ⟨by rw [h]; decide, by rw [h]; decide, Or.inr ⟨by rw [h]; decide, by decide, ?_⟩⟩
    intro h2
    rw [h] at h2
    exact absurd h2 (by decide)
  · rw [if_neg h, if_neg h]

theorem after_demotion_mem (cfg : sched_config) (s : sched_state) (curr : TaskPtr)
    (c : task_info) (hmem : s.mem curr = some c) (q : TaskPtr) :
    (after_demotion cfg s curr c).mem q =
      if q = curr then
        some (if c.state = TASK_STATE_RUNNING then { c with state := TASK_STATE_RUNNABLE } else c)
      else s.mem q := by
  unfold after_demotion
  by_cases h : c.state = TASK_STATE_RUNNING
  · simp only [if_pos h, change_state_result]
  · simp only [if_neg h]
    by_cases hq : q = curr
    · rw [if_pos hq, hq, hmem]
    · rw [if_neg hq]

/-- C7: when a high-priority tasklet runner `R` is ready and is not the current
task, `schedule curr_irq` ends with the call `switch_to_task(R, curr_irq)`,
whatever the `total_ticks` of `R` and of the runnable tasks are; on the way the
current task has been demoted to runnable by `task_change_state` when its state
on entry was running, and nothing has changed otherwise. -/
theorem schedule_switches_to_tasklet_runner (cfg : sched_config) (s : sched_state)
    (R : TaskPtr) (curr_irq : Int) (curr : TaskPtr) (c : task_info)
    (hgate : s.disable_preemption_count ≠ 0)
    (hcur : s.current = some curr) (hmem : s.mem curr = some c) (hR : R ≠ curr) :
    ∃ s1, schedule cfg s (some R) curr_irq = some (.switched s1 (some R) curr_irq) ∧
      (c.state = TASK_STATE_RUNNING →
        task_change_state cfg s curr TASK_STATE_RUNNABLE = some s1 ∧
        s1.mem curr = some { c with state := TASK_STATE_RUNNABLE }) ∧
      (c.state ≠ TASK_STATE_RUNNING → s1 = s) := by
  have hg : is_preemption_enabled s = false := by simp [is_preemption_enabled, hgate]
  have hd := demotion_eq cfg s curr c hmem
  refine ⟨after_demotion cfg s curr c, ?_, ?_, ?_⟩
  · unfold schedule
    have hne : ¬ (some R = some curr) := fun h => hR (Option.some.inj h)
    simp only [hg, Bool.false_eq_true, if_false, hne, hcur, hmem, hd]
  · intro h
    rw [if_pos h] at hd
    refine ⟨hd, ?_⟩
    rw [after_demotion_mem cfg s curr c hmem, if_pos rfl, if_pos h]
  · intro h
    unfold after_demotion
    rw [if_neg h]

/-- C7 at a state in which the ready tasklet runner has 500 ticks, the running
current task 3 and a runnable task 1: the switch goes to the runner. -/
theorem schedule_switches_to_tasklet_runner_witness :
    ∃ s1, schedule cfg5 runner_ready_state (some 9) 0 = some (.switched s1 (some 9) 0) ∧
      ((mk_task 1 1 TASK_STATE_RUNNING 3).state = TASK_STATE_RUNNING →
        task_change_state cfg5 runner_ready_state 1 TASK_STATE_RUNNABLE = some s1 ∧
        s1.mem 1 = some { mk_task 1 1 TASK_STATE_RUNNING 3 with state := TASK_STATE_RUNNABLE }) ∧
      ((mk_task 1 1 TASK_STATE_RUNNING 3).state ≠ TASK_STATE_RUNNING →
        s1 = runner_ready_state) :=
  schedule_switches_to_tasklet_runner cfg5 runner_ready_state 9 0 1
    (mk_task 1 1 TASK_STATE_RUNNING 3) (by decide) rfl rfl (by decide)

theorem after_demotion_fields (cfg : sched_config) (s : sched_state) (curr : TaskPtr)
    (c : task_info) :
    (after_demotion cfg s curr c).current = s.current ∧
    (after_demotion cfg s curr c).idle_task = s.idle_task ∧
    (after_demotion cfg s curr c).runnable_tasks_list =
      (if c.state = TASK_STATE_RUNNING ∧ cfg.is_tasklet_runner curr = false then
        s.runnable_tasks_list ++ [curr] else s.runnable_tasks_list) ∧
    (after_demotion cfg s curr c).runnable_tasks_count =
      (if c.state = TASK_STATE_RUNNING ∧ cfg.is_tasklet_runner curr = false then
        wrap_int (s.runnable_tasks_count + 1) else s.runnable_tasks_count) := by
  unfold after_demotion
  by_cases h : c.state = TASK_STATE_RUNNING
  · cases htr : cfg.is_tasklet_runner curr <;> simp [h, htr, change_state_result]
  · simp [h]

theorem total_ticks_of_after_demotion (cfg : sched_config) (s : sched_state) (curr : TaskPtr)
    (c : task_info) (hmem : s.mem curr = some c) :
    total_ticks_of (after_demotion cfg s curr c) = total_ticks_of s := by
  funext q
  unfold total_ticks_of
  rw [after_demotion_mem cfg s curr c hmem]
  by_cases hq : q = curr
  · rw [if_pos hq, hq, hmem]
    by_cases h : c.state = TASK_STATE_RUNNING
    · simp only [if_pos h]
    · simp only [if_neg h]
  · rw [if_neg hq]

theorem schedule_loop_eq (s1 : sched_state) (l : List TaskPtr) (selected : Option TaskPtr)
    (hl : ∀ p ∈ l, ∃ t, s1.mem p = some t ∧ t.state = TASK_STATE_RUNNABLE)
    (hsel : ∀ q, selected = some q → ∃ u, s1.mem q = some u) :
    schedule_loop s1 l selected =
      some (pick_least (total_ticks_of s1)
        (l.filter (fun p => !(decide (some p = s1.idle_task ∨ some p = s1.current))))
        selected) := by
  induction l generalizing selected with
  | nil => rfl
  | cons p rest ih =>
    obtain ⟨t, ht, hst⟩ := hl p (List.mem_cons_self _ _)
    have hrest : ∀ q ∈ rest, ∃ t, s1.mem q = some t ∧ t.state = TASK_STATE_RUNNABLE :=
      fun q hq => hl q (List.mem_cons_of_mem _ hq)
    unfold schedule_loop
    simp only [ht, hst, ne_eq, not_true_eq_false, if_false]
    by_cases hskip : some p = s1.idle_task ∨ some p = s1.current
    · rw [if_pos hskip, ih selected hrest hsel, List.filter_cons_of_neg (by simp [hskip])]
    · rw [if_neg hskip]
      have hkeep : (p :: rest).filter
          (fun p => !(decide (some p = s1.idle_task ∨ some p = s1.current))) =
          p :: rest.filter
            (fun p => !(decide (some p = s1.idle_task ∨ some p = s1.current))) :=
        List.filter_cons_of_pos (by simp [hskip])
      rw [hkeep]
      cases selected with
      | none =>
        simp only [pick_least]
        exact ih (some p) hrest (fun q hq => by
          cases hq
          exact ⟨t, ht⟩)
      | some q =>
        obtain ⟨u, hu⟩ := hsel q rfl
        have hp : total_ticks_of s1 p = t.total_ticks := by simp [total_ticks_of, ht]
        have hq : total_ticks_of s1 q = u.total_ticks := by simp [total_ticks_of, hu]
        simp only [hu, pick_least, hp, hq]
        by_cases hlt : t.total_ticks < u.total_ticks
        · rw [if_pos hlt, if_pos hlt]
          exact ih (some p) hrest (fun q hq => by
            cases hq
            exact ⟨t, ht⟩)
        · rw [if_neg hlt, if_neg hlt]
          exact ih (some q) hrest hsel

theorem pick_least_some (f : TaskPtr → Nat) (l : List TaskPtr) (a : TaskPtr) :
    ∃ t pre post, pick_least f l (some a) = some t ∧ a :: l = pre ++ t :: post ∧
      (∀ q ∈ pre, f t < f q) ∧ (∀ q ∈ post, f t ≤ f q) := by
  induction l generalizing a with
  | nil => exact ⟨a, [], [], rfl, rfl, by simp, by simp⟩
  | cons p rest ih =>
    by_cases hlt : f p < f a
    · obtain ⟨t, pre, post, h1, h2, h3, h4⟩ := ih p
      refine ⟨t, a :: pre, post, by simp [pick_least, hlt, h1], by simp [h2], ?_, h4⟩
      have htp : f t ≤ f p := by
        cases pre with
        | nil =>
          simp only [List.nil_append, List.cons.injEq] at h2
          rw [h2.1]
        | cons x xs =>
          simp only [List.cons_append, List.cons.injEq] at h2
          have := h3 p (by rw [h2.1]; exact List.mem_cons_self _ _)
          omega
      intro q hq
      rcases List.mem_cons.mp hq with rfl | hq'
      · omega
      · exact h3 q hq'
    · obtain ⟨t, pre, post, h1, h2, h3, h4⟩ := ih a
      cases pre with
      | nil =>
        simp only [List.nil_append, List.cons.injEq] at h2
        obtain ⟨e1, e2⟩ := h2
        refine ⟨t, [], p :: post, by simp [pick_least, hlt, h1], by simp [e1, e2], by simp, ?_⟩
        intro q hq
        rcases List.mem_cons.mp hq with rfl | hq'
        · rw [← e1]; omega
        · exact h4 q hq'
      | cons x xs =>
        simp only [List.cons_append, List.cons.injEq] at h2
        obtain ⟨e1, e2⟩ := h2
        refine ⟨t, a :: p :: xs, post, by simp [pick_least, hlt, h1], by simp [e2], ?_, h4⟩
        have hta : f t < f a := by
          have := h3 x (List.mem_cons_self _ _)
          rw [← e1] at this
          exact this
        intro q hq
        rcases List.mem_cons.mp hq with rfl | hq'
        · exact hta
        · rcases List.mem_cons.mp hq' with rfl | hq''
          · omega
          · exact h3 q (List.mem_cons_of_mem _ hq'')

theorem pick_least_none (f : TaskPtr → Nat) (l : List TaskPtr) (hl : l ≠ []) :
    ∃ t pre post, pick_least f l none = some t ∧ l = pre ++ t :: post ∧
      (∀ q ∈ pre, f t < f q) ∧ (∀ q ∈ post, f t ≤ f q) := by
  cases l with
  | nil => exact absurd rfl hl
  | cons p rest =>
    obtain ⟨t, pre, post, h1, h2, h3, h4⟩ := pick_least_some f rest p
    exact ⟨t, pre, post, by simpa [pick_least] using h1, h2, h3, h4⟩

theorem after_demotion_entries (cfg : sched_config) (s : sched_state) (curr : TaskPtr)
    (c : task_info) (hmem : s.mem curr = some c)
    (hrun : ∀ p ∈ s.runnable_tasks_list, ∃ t, s.mem p = some t ∧ t.state = TASK_STATE_RUNNABLE) :
    ∀ p ∈ (after_demotion cfg s curr c).runnable_tasks_list,
      ∃ t, (after_demotion cfg s curr c).mem p = some t ∧ t.state = TASK_STATE_RUNNABLE := by
  have hold : ∀ p ∈ s.runnable_tasks_list,
      ∃ t, (after_demotion cfg s curr c).mem p = some t ∧ t.state = TASK_STATE_RUNNABLE := by
    intro p hp
    obtain ⟨t, ht, hst⟩ := hrun p hp
    rw [after_demotion_mem cfg s curr c hmem]
    by_cases hq : p = curr
    · rw [if_pos hq]
      rw [hq, hmem] at ht
      have e : c = t := Option.some.inj ht
      have hc : ¬ c.state = TASK_STATE_RUNNING := by
        rw [e, hst]
        decide
      exact ⟨c, by rw [if_neg hc], by rw [e]; exact hst⟩
    · rw [if_neg hq]
      exact ⟨t, ht, hst⟩
  intro p hp
  rw [(after_demotion_fields cfg s curr c).2.2.1] at hp
  by_cases hcase : c.state = TASK_STATE_RUNNING ∧ cfg.is_tasklet_runner curr = false
  · rw [if_pos hcase] at hp
    rcases List.mem_append.mp hp with h | h
    · exact hold p h
    · have e : p = curr := by simpa using h
      rw [after_demotion_mem cfg s curr c hmem, if_pos e, if_pos hcase.1]
      exact ⟨_, rfl, rfl⟩
  · rw [if_neg hcase] at hp
    exact hold p hp

theorem after_demotion_candidates (cfg : sched_config) (s : sched_state) (curr : TaskPtr)
    (c : task_info) (hcur : s.current = some curr) :
    sched_candidates (after_demotion cfg s curr c) = sched_candidates s := by
  obtain ⟨f1, f2, f3, _⟩ := after_demotion_fields cfg s curr c
  unfold sched_candidates
  rw [f1, f2, f3]
  split
  · rw [List.filter_append]
    have : List.filter (fun p => !decide (some p = s.idle_task ∨ some p = s.current)) [curr]
        = [] := by
      simp [hcur]
    rw [this, List.append_nil]
  · rfl

theorem schedule_no_runner_eq (cfg : sched_config) (s : sched_state) (curr_irq : Int)
    (curr : TaskPtr) (c : task_info)
    (hgate : s.disable_preemption_count ≠ 0)
    (hcur : s.current = some curr) (hmem : s.mem curr = some c)
    (hrun : ∀ p ∈ s.runnable_tasks_list, ∃ t, s.mem p = some t ∧ t.state = TASK_STATE_RUNNABLE) :
    schedule cfg s none curr_irq =
      match pick_least (total_ticks_of s) (sched_candidates s) none with
      | some sel => some (.switched (after_demotion cfg s curr c) (some sel) curr_irq)
      | none =>
        match (after_demotion cfg s curr c).mem curr with
        | none => none
        | some c1 =>
          if c1.state = TASK_STATE_RUNNABLE then
            match task_change_state cfg (after_demotion cfg s curr c) curr
                TASK_STATE_RUNNING with
            | none => none
            | some s2 =>
              match s2.mem curr with
              | none => none
              | some c2 => some (.returned (s2.write curr { c2 with time_slot_ticks := 0 }))
          else some (.switched (after_demotion cfg s curr c)
            (after_demotion cfg s curr c).idle_task curr_irq) := by
  have hg : is_preemption_enabled s = false := by simp [is_preemption_enabled, hgate]
  have hd := demotion_eq cfg s curr c hmem
  have hloop : schedule_loop (after_demotion cfg s curr c)
      (after_demotion cfg s curr c).runnable_tasks_list none =
      some (pick_least (total_ticks_of s) (sched_candidates s) none) := by
    rw [schedule_loop_eq _ _ none (after_demotion_entries cfg s curr c hmem hrun)
      (fun q hq => by simp at hq)]
    rw [total_ticks_of_after_demotion cfg s curr c hmem,
      ← after_demotion_candidates cfg s curr c hcur]
    rfl
  unfold schedule
  simp only [hg, Bool.false_eq_true, if_false, hcur, reduceCtorEq, hmem, hd, hloop]
  cases pick_least (total_ticks_of s) (sched_candidates s) none <;> rfl

/-- C5: when no high-priority tasklet runner is ready and the runnable list
holds a task that is neither the idle task nor the current task,
`schedule curr_irq` ends with the call `switch_to_task(t, curr_irq)`, where `t`
is the first task of smallest `total_ticks` among the tasks of the runnable list
other than idle and current: the candidates before `t` in list order have
strictly more `total_ticks`, those after `t` at least as many. -/
theorem schedule_selects_least_total_ticks (cfg : sched_config) (s : sched_state)
    (curr_irq : Int) (curr : TaskPtr) (c : task_info)
    (hgate : s.disable_preemption_count ≠ 0)
    (hcur : s.current = some curr) (hmem : s.mem curr = some c)
    (hrun : ∀ p ∈ s.runnable_tasks_list, ∃ t, s.mem p = some t ∧ t.state = TASK_STATE_RUNNABLE)
    (hcand : ∃ p ∈ s.runnable_tasks_list, some p ≠ s.idle_task ∧ some p ≠ s.current) :
    ∃ s1 t pre post,
      schedule cfg s none curr_irq = some (.switched s1 (some t) curr_irq) ∧
      s.runnable_tasks_list.filter
        (fun p => !(decide (some p = s.idle_task ∨ some p = s.current))) = pre ++ t :: post ∧
      (∀ q ∈ pre, total_ticks_of s t < total_ticks_of s q) ∧
      (∀ q ∈ post, total_ticks_of s t ≤ total_ticks_of s q) := by
  have hne : sched_candidates s ≠ [] := by
    obtain ⟨p, hp, h1, h2⟩ := hcand
    intro h
    have : p ∈ sched_candidates s := by
      unfold sched_candidates
      rw [List.mem_filter]
      exact ⟨hp, by simp [h1, h2]⟩
    rw [h] at this
    simp at this
  obtain ⟨t, pre, post, h1, h2, h3, h4⟩ :=
    pick_least_none (total_ticks_of s) (sched_candidates s) hne
  refine ⟨after_demotion cfg s curr c, t, pre, post, ?_, h2, h3, h4⟩
  rw [schedule_no_runner_eq cfg s curr_irq curr c hgate hcur hmem hrun, h1]

/-- C5 at a runnable list holding the idle task (0 ticks) and the tasks 2, 3, 4
with 5, 2 and 2 ticks: the switch goes to task 3, the first of the two tasks
with 2 ticks, and not to the idle task. -/
theorem schedule_selects_least_total_ticks_witness :
    ∃ s1, schedule cfg5 three_candidates_state none 0 = some (.switched s1 (some 3) 0) := by
  obtain ⟨s1, t, pre, post, h1, h2, h3, h4⟩ :=
    schedule_selects_least_total_ticks cfg5 three_candidates_state 0 1
      (mk_task 1 1 TASK_STATE_RUNNING 1) (by decide) rfl rfl (by decide) (by decide)
  have hl : List.filter (fun p => !(decide (some p = three_candidates_state.idle_task ∨
      some p = three_candidates_state.current))) three_candidates_state.runnable_tasks_list
      = [2, 3, 4] := by decide
  rw [hl] at h2
  have ht : t = 3 := by
    rcases pre with _ | ⟨a, _ | ⟨b, _ | ⟨d, pre⟩⟩⟩
    · simp only [List.nil_append, List.cons.injEq] at h2
      have := h4 3 (by rw [← h2.2]; simp)
      rw [← h2.1] at this
      exact absurd this (by decide)
    · simp only [List.cons_append, List.nil_append, List.cons.injEq] at h2
      exact h2.2.1.symm
    · simp only [List.cons_append, List.nil_append, List.cons.injEq] at h2
      have := h3 3 (by rw [← h2.2.1]; simp)
      rw [← h2.2.2.1] at this
      exact absurd this (by decide)
    · simp at h2
  rw [ht] at h1
  exact ⟨s1, h1⟩

/-- C6: when no high-priority tasklet runner is ready, the runnable list holds
no task other than the idle task and the current task, and the current task is
running or runnable on entry, `schedule` returns without calling
`switch_to_task`; on return the current task is the same, its state is running,
its `time_slot_ticks` is 0, it is not in the runnable list, and the runnable
list and `runnable_tasks_count` are the entry values with the current task
removed (the entry values themselves when the current task was running). -/
theorem schedule_keeps_current (cfg : sched_config) (s : sched_state)
    (curr_irq : Int) (curr : TaskPtr) (c : task_info)
    (hgate : s.disable_preemption_count ≠ 0)
    (hcur : s.current = some curr) (hmem : s.mem curr = some c)
    (hrun : ∀ p ∈ s.runnable_tasks_list, ∃ t, s.mem p = some t ∧ t.state = TASK_STATE_RUNNABLE)
    (honly : ∀ p ∈ s.runnable_tasks_list, some p = s.idle_task ∨ p = curr)
    (hstate : c.state = TASK_STATE_RUNNING ∨ c.state = TASK_STATE_RUNNABLE)
    (hnodup : s.runnable_tasks_list.Nodup)
    (hcount : s.runnable_tasks_count = s.runnable_tasks_list.length)
    (hlen : s.runnable_tasks_list.length < 2147483647)
    (htr : cfg.is_tasklet_runner curr = true → curr ∉ s.runnable_tasks_list)
    (hin : cfg.is_tasklet_runner curr = false → c.state = TASK_STATE_RUNNABLE →
      curr ∈ s.runnable_tasks_list) :
    ∃ s', schedule cfg s none curr_irq = some (.returned s') ∧
      s'.current = some curr ∧
      s'.mem curr = some { c with state := TASK_STATE_RUNNING, time_slot_ticks := 0 } ∧
      curr ∉ s'.runnable_tasks_list ∧
      s'.runnable_tasks_list = s.runnable_tasks_list.erase curr ∧
      s'.runnable_tasks_count =
        s.runnable_tasks_count - (if curr ∈ s.runnable_tasks_list then 1 else 0) ∧
      (c.state = TASK_STATE_RUNNING →
        s'.runnable_tasks_list = s.runnable_tasks_list ∧
        s'.runnable_tasks_count = s.runnable_tasks_count) := by
  have hpick : pick_least (total_ticks_of s) (sched_candidates s) none = none := by
    have : sched_candidates s = [] := by
      unfold sched_candidates
      rw [List.filter_eq_nil_iff]
      intro p hp
      rcases honly p hp with h | h
      · simp [h]
      · simp [h, hcur]
    rw [this]
    rfl
  obtain ⟨_, _, f3, f4⟩ := after_demotion_fields cfg s curr c
  have hrunning_notin : c.state = TASK_STATE_RUNNING → curr ∉ s.runnable_tasks_list := by
    intro h hmemb
    obtain ⟨t, ht, hst⟩ := hrun curr hmemb
    rw [hmem] at ht
    rw [Option.some.inj ht, hst] at h
    exact absurd h (by decide)
  have hm1 := after_demotion_mem cfg s curr c hmem curr
  rw [if_pos rfl] at hm1
  have hsched := schedule_no_runner_eq cfg s curr_irq curr c hgate hcur hmem hrun
  rw [hpick] at hsched
  simp only at hsched
  rcases hstate with h | h
  · -- running on entry: demoted, then promoted again
    have hni := hrunning_notin h
    simp only [if_pos h] at hm1
    have hret : change_state_returns cfg (after_demotion cfg s curr c) curr
        { c with state := TASK_STATE_RUNNABLE } TASK_STATE_RUNNING := by
      refine ⟨by simp, by simp, ?_⟩
      cases htrc : cfg.is_tasklet_runner curr
      · right
        refine ⟨by simp, by decide, fun _ => ?_⟩
        rw [f4, if_pos ⟨h, htrc⟩, hcount]
        have e1 : wrap_int ((s.runnable_tasks_list.length : Int) + 1) =
            (s.runnable_tasks_list.length : Int) + 1 := wrap_int_eq _ (by omega) (by omega)
        rw [e1, wrap_int_eq _ (by omega) (by omega)]
        omega
      · left; rfl
    have hcs := task_change_state_eq cfg (after_demotion cfg s curr c) curr _
      TASK_STATE_RUNNING hm1 hret
    have hm2 : (change_state_result cfg (after_demotion cfg s curr c) curr
        { c with state := TASK_STATE_RUNNABLE } TASK_STATE_RUNNING).mem curr =
        some { c with state := TASK_STATE_RUNNING } := by
      simp [change_state_result]
    simp only [hm1, if_true, hcs, hm2] at hsched
    refine ⟨_, hsched, ?_, ?_, ?_, ?_, ?_, ?_⟩
    all_goals simp only [sched_state.write, change_state_result, if_true, f3, f4]
    · simpa [after_demotion, h, change_state_result] using hcur
    · cases htrc : cfg.is_tasklet_runner curr
      · simp only [Bool.false_eq_true, if_false, reduceCtorEq, if_true, and_true, h, and_self]
        rw [List.erase_append_right _ hni]
        simpa using hni
      · simpa [h] using hni
    · cases htrc : cfg.is_tasklet_runner curr
      · simp only [Bool.false_eq_true, if_false, reduceCtorEq, if_true, and_true, h, and_self]
        rw [List.erase_append_right _ hni, List.erase_of_not_mem hni]
        simp
      · simp only [if_true, h, Bool.true_eq_false, and_false, if_false]
        rw [List.erase_of_not_mem hni]
    · cases htrc : cfg.is_tasklet_runner curr
      · simp only [Bool.false_eq_true, if_false, reduceCtorEq, if_true, and_true, h, and_self]
        rw [if_neg hni, hcount]
        have e1 : wrap_int ((s.runnable_tasks_list.length : Int) + 1) =
            (s.runnable_tasks_list.length : Int) + 1 := wrap_int_eq _ (by omega) (by omega)
        rw [e1, wrap_int_eq _ (by omega) (by omega)]
        omega
      · simp only [if_true, h, Bool.true_eq_false, and_false, if_false]
        rw [if_neg hni]
        omega
    · intro _
      cases htrc : cfg.is_tasklet_runner curr
      · simp only [Bool.false_eq_true, if_false, reduceCtorEq, if_true, and_true, h, and_self]
        rw [List.erase_append_right _ hni, hcount]
        have e1 : wrap_int ((s.runnable_tasks_list.length : Int) + 1) =
            (s.runnable_tasks_list.length : Int) + 1 := wrap_int_eq _ (by omega) (by omega)
        rw [e1, wrap_int_eq _ (by omega) (by omega)]
        simp
      · simp only [if_true, h, Bool.true_eq_false, and_false, if_false, and_self]
  · -- runnable on entry: promoted
    have hnr : ¬ c.state = TASK_STATE_RUNNING := by rw [h]; decide
    have hs1 : after_demotion cfg s curr c = s := by
      unfold after_demotion
      rw [if_neg hnr]
    rw [hs1] at hsched
    have hret : change_state_returns cfg s curr c TASK_STATE_RUNNING := by
      refine ⟨by rw [h]; decide, by rw [h]; decide, ?_⟩
      cases htrc : cfg.is_tasklet_runner curr
      · right
        refine ⟨by rw [h]; decide, by decide, fun _ => ?_⟩
        have := List.length_pos_of_mem (hin htrc h)
        rw [hcount, wrap_int_eq _ (by omega) (by omega)]
        omega
      · left; rfl
    have hcs := task_change_state_eq cfg s curr c TASK_STATE_RUNNING hmem hret
    have hm2 : (change_state_result cfg s curr c TASK_STATE_RUNNING).mem curr =
        some { c with state := TASK_STATE_RUNNING } := by
      simp [change_state_result]
    simp only [hmem, h, if_true, hcs, hm2] at hsched
    refine ⟨_, hsched, ?_, ?_, ?_, ?_, ?_, ?_⟩
    all_goals simp only [sched_state.write, change_state_result, if_true, h]
    · exact hcur
    · cases htrc : cfg.is_tasklet_runner curr
      · simp only [Bool.false_eq_true, if_false, reduceCtorEq, if_true]
        exact fun hm => ((List.Nodup.mem_erase_iff hnodup).mp hm).1 rfl
      · simpa using htr htrc
    · cases htrc : cfg.is_tasklet_runner curr
      · simp only [Bool.false_eq_true, if_false, reduceCtorEq, if_true]
      · simp only [if_true]
        rw [List.erase_of_not_mem (htr htrc)]
    · cases htrc : cfg.is_tasklet_runner curr
      · simp only [Bool.false_eq_true, if_false, reduceCtorEq, if_true]
        have := List.length_pos_of_mem (hin htrc h)
        rw [if_pos (hin htrc h), hcount, wrap_int_eq _ (by omega) (by omega)]
      · simp only [if_true]
        rw [if_neg (htr htrc)]
        omega
    · intro hcontra
      exact absurd hcontra (by decide)

/-- C6 at the scenario of the specification: a single task with
`total_ticks = 100` whose quantum of 20 ticks has expired; `schedule` returns,
the task is still the current task, running, with `time_slot_ticks = 0`. -/
theorem schedule_keeps_current_witness :
    ∃ s', schedule cfg5 quantum_expired_state none 0 = some (.returned s') ∧
      s'.current = some 1 ∧
      s'.mem 1 = some (mk_task 1 1 TASK_STATE_RUNNING 100) ∧
      s'.runnable_tasks_list = [7] ∧ s'.runnable_tasks_count = 1 := by
  obtain ⟨s', h1, h2, h3, _, _, _, h7⟩ :=
    schedule_keeps_current cfg5 quantum_expired_state 0 1
      { mk_task 1 1 TASK_STATE_RUNNING 100 with time_slot_ticks := 20 }
      (by decide) rfl rfl (by decide) (by decide) (by decide) (by decide) (by decide)
      (by decide) (by decide) (by decide)
  exact ⟨s', h1, h2, h3, (h7 rfl).1, (h7 rfl).2⟩

/-! ## State transitions and the state lists -/

theorem linked_by_state_mem (s : sched_state) (p : TaskPtr) (st : task_state)
    (h : linked_by_state s p st) :
    (p ∈ s.runnable_tasks_list ↔ st = TASK_STATE_RUNNABLE) ∧
    (p ∈ s.sleeping_tasks_list ↔ st = TASK_STATE_SLEEPING) ∧
    (p ∈ s.zombie_tasks_list ↔ st = TASK_STATE_ZOMBIE) := by
  obtain ⟨h1, h2, h3⟩ := h
  refine ⟨?_, ?_, ?_⟩
  · rw [← List.one_le_count_iff, h1]
    split <;> simp_all
  · rw [← List.one_le_count_iff, h2]
    split <;> simp_all
  · rw [← List.one_le_count_iff, h3]
    split <;> simp_all

/-- C8: for a task `T` that is not a tasklet runner, in state runnable, running
or sleeping and linked as its state says, and a target state `S` among
runnable, running and sleeping other than its state: after
`task_change_state(T, S)` returns, `T.state = S`, `T` is in the list of `S` (in
no list when `S` is running) and in no other state list, and it has been
appended at the tail of its new list.  For a tasklet runner only the state
field changes and no list changes.  The call does return when
`runnable_tasks_count` mirrors the runnable list (always for a tasklet
runner). -/
theorem task_change_state_moves_task (cfg : sched_config) (s : sched_state)
    (T : TaskPtr) (t : task_info) (S : task_state)
    (hmem : s.mem T = some t)
    (hT : t.state = TASK_STATE_RUNNABLE ∨ t.state = TASK_STATE_RUNNING ∨
      t.state = TASK_STATE_SLEEPING)
    (hS : S = TASK_STATE_RUNNABLE ∨ S = TASK_STATE_RUNNING ∨ S = TASK_STATE_SLEEPING)
    (hne : t.state ≠ S)
    (hlinked : cfg.is_tasklet_runner T = false → linked_by_state s T t.state) :
    (∀ s', task_change_state cfg s T S = some s' →
      s'.mem T = some { t with state := S } ∧
      (cfg.is_tasklet_runner T = false →
        linked_by_state s' T S ∧
        (T ∈ s'.runnable_tasks_list ↔ S = TASK_STATE_RUNNABLE) ∧
        (T ∈ s'.sleeping_tasks_list ↔ S = TASK_STATE_SLEEPING) ∧
        T ∉ s'.zombie_tasks_list ∧
        (S = TASK_STATE_RUNNABLE → s'.runnable_tasks_list = s.runnable_tasks_list ++ [T]) ∧
        (S = TASK_STATE_SLEEPING → s'.sleeping_tasks_list = s.sleeping_tasks_list ++ [T])) ∧
      (cfg.is_tasklet_runner T = true →
        s'.runnable_tasks_list = s.runnable_tasks_list ∧
        s'.sleeping_tasks_list = s.sleeping_tasks_list ∧
        s'.zombie_tasks_list = s.zombie_tasks_list ∧
        s'.runnable_tasks_count = s.runnable_tasks_count ∧
        ∀ q, q ≠ T → s'.mem q = s.mem q)) ∧
    ((cfg.is_tasklet_runner T = false →
        s.runnable_tasks_count = s.runnable_tasks_list.length ∧
        s.runnable_tasks_list.length < 2147483648) →
      ∃ s', task_change_state cfg s T S = some s') := by
  have hz : t.state ≠ TASK_STATE_ZOMBIE := by
    rcases hT with h | h | h <;> rw [h] <;> decide
  have hi : t.state ≠ TASK_STATE_INVALID := by
    rcases hT with h | h | h <;> rw [h] <;> decide
  have hSi : S ≠ TASK_STATE_INVALID := by
    rcases hS with h | h | h <;> rw [h] <;> decide
  have hSz : S ≠ TASK_STATE_ZOMBIE := by
    rcases hS with h | h | h <;> rw [h] <;> decide
  constructor
  · intro s' hcall
    obtain ⟨t', ht', _, hs'⟩ := task_change_state_some cfg s s' T S hcall
    have e : t' = t := Option.some.inj (ht'.symm.trans hmem)
    rw [e] at hs'
    rw [hs']
    refine ⟨by simp [change_state_result], ?_, ?_⟩
    · intro htr
      have hl := hlinked htr
      have hl' : linked_by_state (change_state_result cfg s T t S) T S := by
        obtain ⟨c1, c2, c3⟩ := hl
        unfold linked_by_state
        simp only [change_state_result, htr, Bool.false_eq_true, if_false]
        rcases hT with h | h | h <;> rcases hS with h' | h' | h' <;>
          simp_all [List.count_erase_self]
      obtain ⟨m1, m2, m3⟩ := linked_by_state_mem _ T S hl'
      refine ⟨hl', m1, m2, fun hc3 => hSz (m3.mp hc3), ?_, ?_⟩
      · intro hr
        have : ¬ t.state = TASK_STATE_RUNNABLE := fun e => hne (e.trans hr.symm)
        simp [change_state_result, htr, hr, this]
      · intro hr
        have : ¬ t.state = TASK_STATE_SLEEPING := fun e => hne (e.trans hr.symm)
        simp [change_state_result, htr, hr, this]
    · intro htr
      refine ⟨by simp [change_state_result, htr], by simp [change_state_result, htr],
        by simp [change_state_result, htr], by simp [change_state_result, htr], ?_⟩
      intro q hq
      simp [change_state_result, hq]
  · intro hmirror
    have hret : change_state_returns cfg s T t S := by
      refine ⟨hne, hz, ?_⟩
      cases htr : cfg.is_tasklet_runner T
      · right
        refine ⟨hi, hSi, fun hr => ?_⟩
        obtain ⟨hc, hlen⟩ := hmirror htr
        have hin : T ∈ s.runnable_tasks_list :=
          ((linked_by_state_mem s T _ (hlinked htr)).1).mpr hr
        have := List.length_pos_of_mem hin
        rw [hc, wrap_int_eq _ (by omega) (by omega)]
        omega
      · left; rfl
    exact ⟨_, task_change_state_eq cfg s T t S hmem hret⟩

/-- C8 at the runnable task 2 of a runnable list `[7, 2, 3, 4]`, put to sleep:
it leaves the runnable list and becomes the tail of the sleeping list. -/
theorem task_change_state_moves_task_witness :
    ∃ s', task_change_state cfg5 three_candidates_state 2 TASK_STATE_SLEEPING = some s' ∧
      s'.mem 2 = some (mk_task 2 2 TASK_STATE_SLEEPING 5) ∧
      2 ∉ s'.runnable_tasks_list ∧
      s'.sleeping_tasks_list = three_candidates_state.sleeping_tasks_list ++ [2] := by
  obtain ⟨hpost, hret⟩ :=
    task_change_state_moves_task cfg5 three_candidates_state 2
      (mk_task 2 2 TASK_STATE_RUNNABLE 5) TASK_STATE_SLEEPING rfl (by decide) (by decide)
      (by decide) (fun _ => by unfold linked_by_state; decide)
  obtain ⟨s', h1⟩ := hret (fun _ => ⟨by decide, by decide⟩)
  obtain ⟨h2, h3, _⟩ := hpost s' h1
  obtain ⟨_, m1, _, _, _, m5⟩ := h3 rfl
  exact ⟨s', h1, h2, fun h => absurd (m1.mp h) (by decide), m5 rfl⟩

/-! ## `add_task` and `remove_task`, written out -/

theorem add_task_some (cfg : sched_config) (s s' : sched_state) (ti : TaskPtr)
    (h : add_task cfg s ti = some s') :
    ∃ t root ok, s.mem ti = some t ∧
      bintree_insert s.mem s.tree_by_tid_root ti t = some (root, ok) ∧
      (cfg.is_tasklet_runner ti = false → t.state ≠ TASK_STATE_INVALID) ∧
      s' = add_task_result cfg s ti t root := by
  cases hmem : s.mem ti with
  | none =>
    cases htr : cfg.is_tasklet_runner ti <;>
      simp [add_task, task_add_to_state_list, disable_preemption, hmem, htr] at h
  | some t =>
    cases htr : cfg.is_tasklet_runner ti <;> cases hst : t.state <;>
      simp only [add_task, task_add_to_state_list, disable_preemption, hmem, htr, hst,
        Bool.false_eq_true, if_false, if_true, reduceCtorEq] at h
    all_goals
      split at h
      · exact absurd h (by simp)
      · rename_i root ok hins
        refine ⟨t, root, ok, rfl, hins, by simp [hst], ?_⟩
        rw [← Option.some.inj h]
        simp [add_task_result, enable_preemption, htr, hst, list_add_tail]

theorem remove_task_some (cfg : sched_config) (s s' : sched_state) (ti : TaskPtr)
    (h : remove_task cfg s ti = some s') :
    ∃ t root, s.mem ti = some t ∧ t.state = TASK_STATE_ZOMBIE ∧
      bintree_remove s.mem s.tree_by_tid_root t = some root ∧
      s' = remove_task_result cfg s ti root := by
  cases hmem : s.mem ti with
  | none => simp [remove_task, hmem] at h
  | some t =>
    by_cases hst : t.state = TASK_STATE_ZOMBIE
    · cases htr : cfg.is_tasklet_runner ti <;>
        simp only [remove_task, task_remove_from_state_list, disable_preemption, hmem, htr,
          hst, Bool.false_eq_true, if_false, if_true, ne_eq, not_true_eq_false] at h
      all_goals
        split at h
        · exact absurd h (by simp)
        · rename_i root hrem
          refine ⟨t, root, rfl, hst, hrem, ?_⟩
          rw [← Option.some.inj h]
          simp [remove_task_result, enable_preemption, sched_state.release, htr, list_remove]
    · simp [remove_task, hmem, hst] at h

/-! ## `runnable_tasks_count` mirrors the runnable list -/

theorem create_kernel_process_unfold (cfg : sched_config) (k : TaskPtr) :
    create_kernel_process cfg boot_state k =
      match create_new_pid cfg boot_state with
      | none => none
      | some (r, s2) =>
        if r ≠ 0 then none
        else
          match add_task cfg (s2.write k
            { kernel_proc_buf with running_in_kernel := true, state := TASK_STATE_SLEEPING })
            k with
          | none => none
          | some s4 => some { s4 with current := some k } := rfl

theorem create_new_pid_boot (cfg : sched_config) :
    create_new_pid cfg boot_state =
      if 0 ≤ cfg.MAX_PID then some (0, { boot_state with current_max_pid := 0 })
      else some (-1, boot_state) := by
  rw [create_new_pid_eq cfg boot_state [] (by decide) rfl]
  have h0 : wrap_int 0 = 0 := by decide
  by_cases hmax : 0 ≤ cfg.MAX_PID
  · simp [pid_scan, select_pid, boot_state, h0, hmax]
  · simp [pid_scan, select_pid, boot_state, h0, hmax]

theorem create_kernel_process_eq (cfg : sched_config) (k : TaskPtr) (hmax : 0 ≤ cfg.MAX_PID) :
    create_kernel_process cfg boot_state k =
      some { add_task_result cfg
          ({ boot_state with current_max_pid := 0 }.write k
            { kernel_proc_buf with running_in_kernel := true, state := TASK_STATE_SLEEPING })
          k { kernel_proc_buf with running_in_kernel := true, state := TASK_STATE_SLEEPING } [k]
        with current := some k } := by
  rw [create_kernel_process_unfold, create_new_pid_boot, if_pos hmax]
  simp only [ne_eq, not_true_eq_false, if_false]
  cases htr : cfg.is_tasklet_runner k <;>
    simp [add_task, task_add_to_state_list, disable_preemption, enable_preemption,
      sched_state.write, boot_state, kernel_proc_buf, bintree_insert, add_task_result, htr,
      list_add_tail]

theorem create_kernel_process_some (cfg : sched_config) (k : TaskPtr) (s : sched_state)
    (h : create_kernel_process cfg boot_state k = some s) :
    0 ≤ cfg.MAX_PID := by
  by_contra hneg
  rw [create_kernel_process_unfold, create_new_pid_boot, if_neg hneg] at h
  simp at h

theorem schedule_returned (cfg : sched_config) (s s' : sched_state)
    (tasklet_runner : Option TaskPtr) (curr_irq : Int)
    (h : schedule cfg s tasklet_runner curr_irq = some (.returned s')) :
    s' = s ∨
    ∃ curr c c1, s.current = some curr ∧ s.mem curr = some c ∧
      (after_demotion cfg s curr c).mem curr = some c1 ∧
      c1.state = TASK_STATE_RUNNABLE ∧
      change_state_returns cfg (after_demotion cfg s curr c) curr c1 TASK_STATE_RUNNING ∧
      s' = (change_state_result cfg (after_demotion cfg s curr c) curr c1
        TASK_STATE_RUNNING).write curr
          { c1 with state := TASK_STATE_RUNNING, time_slot_ticks := 0 } := by
  unfold schedule at h
  split at h
  · exact absurd h (by simp)
  · split at h
    · left
      simp only [Option.some.injEq, sched_exit.returned.injEq] at h
      exact h.symm
    · right
      split at h
      · exact absurd h (by simp)
      · rename_i curr hcur
        split at h
        · exact absurd h (by simp)
        · rename_i c hmem
          rw [demotion_eq cfg s curr c hmem] at h
          simp only at h
          split at h
          · exact absurd h (by simp)
          · split at h
            · exact absurd h (by simp)
            · exact absurd h (by simp)
            · split at h
              · exact absurd h (by simp)
              · rename_i c1 hm1
                split at h
                · rename_i hc1
                  split at h
                  · exact absurd h (by simp)
                  · rename_i s2 hs2
                    obtain ⟨c1', hm1', hret, hs2'⟩ := task_change_state_some _ _ _ _ _ hs2
                    have e : c1' = c1 := Option.some.inj (hm1'.symm.trans hm1)
                    rw [e] at hret hs2'
                    have hm2 : s2.mem curr = some { c1 with state := TASK_STATE_RUNNING } := by
                      rw [hs2']
                      simp [change_state_result]
                    rw [hm2] at h
                    simp only [Option.some.injEq, sched_exit.returned.injEq] at h
                    refine ⟨curr, c, c1, hcur, hmem, hm1, hc1, hret, ?_⟩
                    rw [← h, hs2']
                · exact absurd h (by simp)

theorem add_task_count (cfg : sched_config) (s s' : sched_state) (ti : TaskPtr)
    (hc : s.runnable_tasks_count = s.runnable_tasks_list.length)
    (hlen : s.runnable_tasks_list.length < 2147483647)
    (h : add_task cfg s ti = some s') :
    s'.runnable_tasks_count = s'.runnable_tasks_list.length := by
  obtain ⟨t, root, ok, _, _, _, hs'⟩ := add_task_some cfg s s' ti h
  rw [hs']
  simp only [add_task_result]
  split
  · rw [hc, wrap_int_eq _ (by omega) (by omega)]
    simp
  · exact hc

theorem task_change_state_count (cfg : sched_config) (s s' : sched_state) (ti : TaskPtr)
    (t : task_info) (st : task_state)
    (hc : s.runnable_tasks_count = s.runnable_tasks_list.length)
    (hlen : s.runnable_tasks_list.length < 2147483647)
    (hmem : s.mem ti = some t)
    (hin : cfg.is_tasklet_runner ti = false → t.state = TASK_STATE_RUNNABLE →
      ti ∈ s.runnable_tasks_list)
    (h : task_change_state cfg s ti st = some s') :
    s'.runnable_tasks_count = s'.runnable_tasks_list.length := by
  obtain ⟨t', ht', hret, hs'⟩ := task_change_state_some cfg s s' ti st h
  have e : t' = t := Option.some.inj (ht'.symm.trans hmem)
  rw [e] at hs' hret
  rw [hs']
  simp only [change_state_result]
  cases htr : cfg.is_tasklet_runner ti
  · simp only [Bool.false_eq_true, if_false]
    by_cases h1 : st = TASK_STATE_RUNNABLE
    · have h2 : ¬ t.state = TASK_STATE_RUNNABLE := fun e2 => hret.1 (e2.trans h1.symm)
      rw [if_pos h1, if_pos h1, if_neg h2, if_neg h2, hc, wrap_int_eq _ (by omega) (by omega)]
      simp
    · rw [if_neg h1, if_neg h1]
      by_cases h2 : t.state = TASK_STATE_RUNNABLE
      · have hmemb := hin htr h2
        have hpos := List.length_pos_of_mem hmemb
        rw [if_pos h2, if_pos h2, hc, wrap_int_eq _ (by omega) (by omega),
          List.length_erase_of_mem hmemb]
        omega
      · rw [if_neg h2, if_neg h2]
        exact hc
  · simp only [if_true]
    exact hc

theorem remove_task_count (cfg : sched_config) (s s' : sched_state) (ti : TaskPtr)
    (hc : s.runnable_tasks_count = s.runnable_tasks_list.length)
    (h : remove_task cfg s ti = some s') :
    s'.runnable_tasks_count = s'.runnable_tasks_list.length := by
  obtain ⟨t, root, _, _, _, hs'⟩ := remove_task_some cfg s s' ti h
  rw [hs']
  exact hc

theorem schedule_returned_count (cfg : sched_config) (s s' : sched_state)
    (tasklet_runner : Option TaskPtr) (curr_irq : Int) (curr : TaskPtr) (c : task_info)
    (hc : s.runnable_tasks_count = s.runnable_tasks_list.length)
    (hlen : s.runnable_tasks_list.length < 2147483647)
    (hcur : s.current = some curr) (hmem : s.mem curr = some c)
    (hin : cfg.is_tasklet_runner curr = false → c.state = TASK_STATE_RUNNABLE →
      curr ∈ s.runnable_tasks_list)
    (h : schedule cfg s tasklet_runner curr_irq = some (.returned s')) :
    s'.runnable_tasks_count = s'.runnable_tasks_list.length := by
  rcases schedule_returned cfg s s' tasklet_runner curr_irq h with e | hre
  · rw [e]
    exact hc
  · obtain ⟨curr', c', c1, hcur', hmem', hm1, hc1, _, hs'⟩ := hre
    have e1 : curr' = curr := Option.some.inj (hcur'.symm.trans hcur)
    rw [e1] at hmem' hm1 hs'
    have e2 : c' = c := Option.some.inj (hmem'.symm.trans hmem)
    rw [e2] at hm1 hs'
    obtain ⟨_, _, f3, f4⟩ := after_demotion_fields cfg s curr c
    rw [after_demotion_mem cfg s curr c hmem, if_pos rfl] at hm1
    have hc1' : c1 = if c.state = TASK_STATE_RUNNING then
        { c with state := TASK_STATE_RUNNABLE } else c := (Option.some.inj hm1).symm
    rw [hs']
    simp only [sched_state.write, change_state_result, f3, f4, hc1]
    cases htr : cfg.is_tasklet_runner curr
    · simp only [Bool.false_eq_true, if_false, reduceCtorEq, if_true, and_true]
      by_cases hr : c.state = TASK_STATE_RUNNING
      · rw [if_pos hr, if_pos hr, hc]
        have e3 : wrap_int ((s.runnable_tasks_list.length : Int) + 1) =
            (s.runnable_tasks_list.length : Int) + 1 := wrap_int_eq _ (by omega) (by omega)
        rw [e3, wrap_int_eq _ (by omega) (by omega),
          List.length_erase_of_mem (by simp : curr ∈ s.runnable_tasks_list ++ [curr])]
        simp
      · rw [if_neg hr, if_neg hr]
        rw [hc1', if_neg hr] at hc1
        have hmemb := hin htr hc1
        have hpos := List.length_pos_of_mem hmemb
        rw [hc, wrap_int_eq _ (by omega) (by omega), List.length_erase_of_mem hmemb]
        omega
    · simp only [if_true, Bool.true_eq_false, and_false, if_false]
      exact hc

/-- C9: `runnable_tasks_count` equals the length of `runnable_tasks_list` in
the state produced by `create_kernel_process` (which returns when
`MAX_PID ≥ 0`), and the equality is preserved by every call of `add_task`,
`task_change_state` and `remove_task` that returns and by `schedule` when it
returns, provided a task that is runnable on entry is in the runnable list
(tasklet runners apart) and the list is shorter than the largest `int`. -/
theorem runnable_tasks_count_mirrors_list (cfg : sched_config) :
    (∀ k, 0 ≤ cfg.MAX_PID → ∃ s, create_kernel_process cfg boot_state k = some s) ∧
    (∀ k s, create_kernel_process cfg boot_state k = some s →
      s.runnable_tasks_count = s.runnable_tasks_list.length) ∧
    (∀ s s' ti, s.runnable_tasks_count = s.runnable_tasks_list.length →
      s.runnable_tasks_list.length < 2147483647 →
      add_task cfg s ti = some s' →
      s'.runnable_tasks_count = s'.runnable_tasks_list.length) ∧
    (∀ s s' ti t st, s.runnable_tasks_count = s.runnable_tasks_list.length →
      s.runnable_tasks_list.length < 2147483647 →
      s.mem ti = some t →
      (cfg.is_tasklet_runner ti = false → t.state = TASK_STATE_RUNNABLE →
        ti ∈ s.runnable_tasks_list) →
      task_change_state cfg s ti st = some s' →
      s'.runnable_tasks_count = s'.runnable_tasks_list.length) ∧
    (∀ s s' ti, s.runnable_tasks_count = s.runnable_tasks_list.length →
      remove_task cfg s ti = some s' →
      s'.runnable_tasks_count = s'.runnable_tasks_list.length) ∧
    (∀ s s' tasklet_runner curr_irq curr c,
      s.runnable_tasks_count = s.runnable_tasks_list.length →
      s.runnable_tasks_list.length < 2147483647 →
      s.current = some curr → s.mem curr = some c →
      (cfg.is_tasklet_runner curr = false → c.state = TASK_STATE_RUNNABLE →
        curr ∈ s.runnable_tasks_list) →
      schedule cfg s tasklet_runner curr_irq = some (.returned s') →
      s'.runnable_tasks_count = s'.runnable_tasks_list.length) := by
  refine ⟨fun k hmax => ⟨_, create_kernel_process_eq cfg k hmax⟩, ?_, ?_, ?_, ?_, ?_⟩
  · intro k s h
    have hmax := create_kernel_process_some cfg k s h
    rw [create_kernel_process_eq cfg k hmax] at h
    rw [← Option.some.inj h]
    simp [add_task_result, sched_state.write, boot_state]
  · intro s s' ti hc hlen h
    exact add_task_count cfg s s' ti hc hlen h
  · intro s s' ti t st hc hlen hmem hin h
    exact task_change_state_count cfg s s' ti t st hc hlen hmem hin h
  · intro s s' ti hc h
    exact remove_task_count cfg s s' ti hc h
  · intro s s' r irq curr c hc hlen hcur hmem hin h
    exact schedule_returned_count cfg s s' r irq curr c hc hlen hcur hmem hin h

/-- C9 at the boot sequence and at the re-selection of a task whose quantum
has expired: the kernel process is created with count 0 and an empty runnable
list, and `schedule` returns with count 1 and the runnable list `[7]`. -/
theorem runnable_tasks_count_mirrors_list_witness :
    (∃ s, create_kernel_process cfg5 boot_state 1 = some s ∧
      s.runnable_tasks_count = s.runnable_tasks_list.length) ∧
    (∃ s', schedule cfg5 quantum_expired_state none 0 = some (.returned s') ∧
      s'.runnable_tasks_count = s'.runnable_tasks_list.length) := by
  obtain ⟨h1, h2, _, _, _, h6⟩ := runnable_tasks_count_mirrors_list cfg5
  constructor
  · obtain ⟨s, hs⟩ := h1 1 (by decide)
    exact ⟨s, hs, h2 1 s hs⟩
  · obtain ⟨s', hs'⟩ : ∃ s', schedule cfg5 quantum_expired_state none 0 =
        some (.returned s') := ⟨_, rfl⟩
    exact ⟨s', hs', h6 quantum_expired_state s' none 0 1 _ (by decide) (by decide) rfl rfl
      (by decide) hs'⟩

/-! ## Agreement of the state lists with the state fields -/

theorem count_moved (l : List TaskPtr) (p q : TaskPtr) (hq : q ≠ p) (a b : Prop)
    [Decidable a] [Decidable b] :
    List.count q (if a then (if b then l.erase p else l) ++ [p]
      else if b then l.erase p else l) = List.count q l := by
  split_ifs <;> simp [List.count_erase_of_ne hq, List.count_singleton, hq.symm]

theorem mem_moved (l : List TaskPtr) (p x : TaskPtr) (a b : Prop)
    [Decidable a] [Decidable b]
    (h : x ∈ (if a then (if b then l.erase p else l) ++ [p]
      else if b then l.erase p else l)) : x ∈ l ∨ x = p := by
  split_ifs at h
  · rcases List.mem_append.mp h with h1 | h1
    · exact Or.inl (List.mem_of_mem_erase h1)
    · exact Or.inr (by simpa using h1)
  · rcases List.mem_append.mp h with h1 | h1
    · exact Or.inl h1
    · exact Or.inr (by simpa using h1)
  · exact Or.inl (List.mem_of_mem_erase h)
  · exact Or.inl h

theorem sched_inv_change (cfg : sched_config) (s s1 : sched_state) (p : TaskPtr)
    (st : task_state) (hinv : sched_inv cfg s)
    (hcall : task_change_state cfg s p st = some s1) : sched_inv cfg s1 := by
  obtain ⟨hv, hs, hl, he⟩ := hinv
  obtain ⟨t, ht, hret, hs1⟩ := task_change_state_some cfg s s1 p st hcall
  have hmem1 : ∀ q, s1.mem q = if q = p then some { t with state := st } else s.mem q := by
    intro q
    rw [hs1]
    rfl
  have hroot1 : s1.tree_by_tid_root = s.tree_by_tid_root := by rw [hs1]; rfl
  refine ⟨?_, ?_, ?_, ?_⟩
  · rw [hroot1]
    refine index_valid_congr s.mem _ _ (fun q _ t0 ht0 => ?_) hv
    rw [hmem1]
    by_cases hq : q = p
    · have e : t0 = t := by
        rw [hq, ht] at ht0
        exact (Option.some.inj ht0).symm
      rw [if_pos hq, e]
      exact ⟨{ t with state := st }, rfl, rfl⟩
    · rw [if_neg hq]
      exact ⟨t0, ht0, rfl⟩
  · rw [hroot1]
    refine index_sorted_congr s.mem _ _ (fun q t' ht' => ?_) hs
    rw [hmem1] at ht'
    by_cases hq : q = p
    · rw [if_pos hq] at ht'
      rw [hq, ← Option.some.inj ht']
      exact ⟨t, ht, rfl⟩
    · rw [if_neg hq] at ht'
      exact ⟨t', ht', rfl⟩
  · rw [hroot1]
    intro q hq
    obtain ⟨u, hu, hlu⟩ := hl q hq
    by_cases hqp : q = p
    · subst hqp
      have e : u = t := Option.some.inj (hu.symm.trans ht)
      rw [e] at hlu
      refine ⟨{ t with state := st }, by rw [hmem1, if_pos rfl], ?_⟩
      obtain ⟨c1, c2, c3⟩ := hlu
      obtain ⟨r1, r2, r3⟩ := hret
      unfold linked_by_state listed_state at *
      rw [hs1]
      cases htr : cfg.is_tasklet_runner q
      · rw [htr] at c1 c2 c3 r3
        simp only [Bool.false_eq_true, if_false, false_or] at c1 c2 c3 r3
        simp only [change_state_result, htr, Bool.false_eq_true, if_false]
        cases hst : t.state <;> cases st <;> simp_all [List.count_erase_self]
      · rw [htr] at c1 c2 c3
        simp only [change_state_result, htr, if_true]
        exact ⟨c1, c2, c3⟩
    · refine ⟨u, by rw [hmem1, if_neg hqp]; exact hu, ?_⟩
      obtain ⟨c1, c2, c3⟩ := hlu
      unfold linked_by_state at *
      rw [hs1]
      simp only [change_state_result]
      cases htr : cfg.is_tasklet_runner p
      · simp only [Bool.false_eq_true, if_false]
        rw [count_moved _ p q hqp, count_moved _ p q hqp, count_moved _ p q hqp]
        exact ⟨c1, c2, c3⟩
      · simp only [if_true]
        exact ⟨c1, c2, c3⟩
  · intro x hx
    rw [hmem1]
    by_cases hxp : x = p
    · rw [if_pos hxp]
      simp
    · rw [if_neg hxp]
      apply he x
      rw [hs1] at hx
      simp only [change_state_result] at hx
      cases htr : cfg.is_tasklet_runner p
      · rw [htr] at hx
        simp only [Bool.false_eq_true, if_false] at hx
        rcases hx with h | h | h
        · exact Or.inl ((mem_moved _ p x _ _ h).resolve_right hxp)
        · exact Or.inr (Or.inl ((mem_moved _ p x _ _ h).resolve_right hxp))
        · exact Or.inr (Or.inr ((mem_moved _ p x _ _ h).resolve_right hxp))
      · rw [htr] at hx
        simpa using hx

theorem sched_inv_remove (cfg : sched_config) (s s1 : sched_state) (p : TaskPtr)
    (hinv : sched_inv cfg s) (hp : p ∈ s.tree_by_tid_root)
    (hcall : remove_task cfg s p = some s1) : sched_inv cfg s1 := by
  obtain ⟨hv, hs, hl, he⟩ := hinv
  obtain ⟨t, root, ht, hz, hrem, hs1⟩ := remove_task_some cfg s s1 p hcall
  have hsub := bintree_remove_sublist _ _ _ _ hrem
  have hnot := bintree_remove_not_mem _ _ _ p t hv hs ht hp hrem
  have hmem1 : ∀ q, s1.mem q = if q = p then none else s.mem q := by
    intro q
    rw [hs1]
    rfl
  have hroot1 : s1.tree_by_tid_root = root := by rw [hs1]; rfl
  -- the removed task was linked in the zombie list only, or in no list
  obtain ⟨t', ht', hlp⟩ := hl p hp
  have e : t' = t := Option.some.inj (ht'.symm.trans ht)
  rw [e] at hlp
  have hp1 : p ∉ s1.runnable_tasks_list ∧ p ∉ s1.sleeping_tasks_list ∧
      p ∉ s1.zombie_tasks_list := by
    obtain ⟨c1, c2, c3⟩ := hlp
    unfold listed_state at c1 c2 c3
    rw [hs1]
    simp only [remove_task_result]
    cases htr : cfg.is_tasklet_runner p
    · rw [htr, hz] at c1 c2 c3
      simp only [Bool.false_eq_true, if_false, reduceCtorEq, if_true] at c1 c2 c3
      refine ⟨List.count_eq_zero.mp c1, List.count_eq_zero.mp c2, ?_⟩
      simp only [if_true]
      rw [← List.count_eq_zero, List.count_erase_self, c3]
    · rw [htr] at c1 c2 c3
      simp only [if_true, reduceCtorEq, if_false] at c1 c2 c3
      exact ⟨List.count_eq_zero.mp c1, List.count_eq_zero.mp c2,
        by simpa using List.count_eq_zero.mp c3⟩
  refine ⟨?_, ?_, ?_, ?_⟩
  · rw [hroot1]
    intro q hq
    have hqp : q ≠ p := fun e => hnot (e ▸ hq)
    obtain ⟨u, hu, hb⟩ := hv q (hsub.subset hq)
    exact ⟨u, by rw [hmem1, if_neg hqp]; exact hu, hb⟩
  · rw [hroot1]
    have h1 : index_sorted s.mem root := List.Pairwise.sublist hsub hs
    refine index_sorted_congr s.mem _ _ (fun q t' ht' => ?_) h1
    rw [hmem1] at ht'
    by_cases hq : q = p
    · rw [if_pos hq] at ht'
      exact absurd ht' (by simp)
    · rw [if_neg hq] at ht'
      exact ⟨t', ht', rfl⟩
  · rw [hroot1]
    intro q hq
    have hqp : q ≠ p := fun e => hnot (e ▸ hq)
    obtain ⟨u, hu, c1, c2, c3⟩ := hl q (hsub.subset hq)
    refine ⟨u, by rw [hmem1, if_neg hqp]; exact hu, ?_⟩
    unfold linked_by_state at *
    rw [hs1]
    simp only [remove_task_result]
    refine ⟨c1, c2, ?_⟩
    split
    · rw [List.count_erase_of_ne hqp]
      exact c3
    · exact c3
  · intro x hx
    have hxp : x ≠ p := by
      rintro rfl
      rcases hx with h | h | h
      · exact hp1.1 h
      · exact hp1.2.1 h
      · exact hp1.2.2 h
    rw [hmem1, if_neg hxp]
    apply he x
    rw [hs1] at hx
    simp only [remove_task_result] at hx
    rcases hx with h | h | h
    · exact Or.inl h
    · exact Or.inr (Or.inl h)
    · right; right
      split at h
      · exact List.mem_of_mem_erase h
      · exact h

theorem index_insert_fresh (mem : TaskPtr → Option task_info) (root root' : List TaskPtr)
    (p : TaskPtr) (t : task_info) (ok : Bool)
    (hv : index_valid mem root) (hs : index_sorted mem root)
    (hnew : mem p = none) (ht : 0 ≤ t.tid ∧ t.tid < 2147483648)
    (hins : bintree_insert (fun q => if q = p then some t else mem q) root p t =
      some (root', ok)) :
    index_valid (fun q => if q = p then some t else mem q) root' ∧
    index_sorted (fun q => if q = p then some t else mem q) root' ∧
    (∀ q ∈ root', q = p ∨ q ∈ root) ∧ p ∉ root := by
  have hfresh : ∀ q ∈ root, q ≠ p := by
    intro q hq e
    obtain ⟨u, hu, _⟩ := hv q hq
    rw [e, hnew] at hu
    exact absurd hu (by simp)
  have hv1 : index_valid (fun q => if q = p then some t else mem q) root := by
    refine index_valid_congr mem _ _ (fun q hq t0 ht0 => ?_) hv
    exact ⟨t0, by simp [hfresh q hq, ht0], rfl⟩
  have hs1 : index_sorted (fun q => if q = p then some t else mem q) root := by
    unfold index_sorted at *
    rw [List.pairwise_iff_forall_sublist] at *
    intro a b hab u v hu hv'
    have ha : a ∈ root := hab.subset (by simp)
    have hb : b ∈ root := hab.subset (by simp)
    simp only [hfresh a ha, hfresh b hb, if_false] at hu hv'
    exact hs hab u v hu hv'
  obtain ⟨hsub, hsorted⟩ := bintree_insert_sorted _ _ _ _ _ _ hv1 hs1 (by simp) ht hins
  refine ⟨?_, hsorted, hsub, fun h => hfresh p h rfl⟩
  intro q hq
  rcases hsub q hq with e | hq'
  · exact ⟨t, by simp [e], ht⟩
  · exact hv1 q hq'

theorem count_appended (l : List TaskPtr) (p q : TaskPtr) (hq : q ≠ p) (a : Prop)
    [Decidable a] : List.count q (if a then l ++ [p] else l) = List.count q l := by
  split_ifs <;> simp [List.count_singleton, hq.symm]

theorem mem_appended (l : List TaskPtr) (p x : TaskPtr) (a : Prop) [Decidable a]
    (h : x ∈ (if a then l ++ [p] else l)) : x ∈ l ∨ x = p := by
  split_ifs at h
  · rcases List.mem_append.mp h with h1 | h1
    · exact Or.inl h1
    · exact Or.inr (by simpa using h1)
  · exact Or.inl h

theorem sched_inv_add (cfg : sched_config) (s s1 : sched_state) (p : TaskPtr)
    (t : task_info) (hinv : sched_inv cfg s) (hnew : s.mem p = none)
    (htid : 0 ≤ t.tid ∧ t.tid < 2147483648)
    (hcall : add_task cfg (s.write p t) p = some s1) : sched_inv cfg s1 := by
  obtain ⟨hv, hs, hl, he⟩ := hinv
  obtain ⟨t', root, ok, ht', hins, hvalid, hs1⟩ := add_task_some cfg _ s1 p hcall
  have e : t' = t := by
    simp only [sched_state.write, if_true, Option.some.injEq] at ht'
    exact ht'.symm
  rw [e] at hins hvalid hs1
  have hmem1 : ∀ q, s1.mem q = if q = p then some t else s.mem q := by
    intro q
    rw [hs1]
    rfl
  have hroot1 : s1.tree_by_tid_root = root := by rw [hs1]; rfl
  obtain ⟨iv, is, isub, hpr⟩ := index_insert_fresh s.mem s.tree_by_tid_root root p t ok
    hv hs hnew htid hins
  have hpl : p ∉ s.runnable_tasks_list ∧ p ∉ s.sleeping_tasks_list ∧
      p ∉ s.zombie_tasks_list := by
    refine ⟨fun h => he p (Or.inl h) hnew, fun h => he p (Or.inr (Or.inl h)) hnew,
      fun h => he p (Or.inr (Or.inr h)) hnew⟩
  have hmemf : s1.mem = fun q => if q = p then some t else s.mem q := funext hmem1
  refine ⟨?_, ?_, ?_, ?_⟩
  · rw [hroot1, hmemf]
    exact iv
  · rw [hroot1, hmemf]
    exact is
  · rw [hroot1]
    intro q hq
    rcases isub q hq with hqp | hq'
    · subst hqp
      refine ⟨t, by rw [hmem1, if_pos rfl], ?_⟩
      have c1 := List.count_eq_zero_of_not_mem hpl.1
      have c2 := List.count_eq_zero_of_not_mem hpl.2.1
      have c3 := List.count_eq_zero_of_not_mem hpl.2.2
      unfold linked_by_state listed_state
      rw [hs1]
      simp only [add_task_result, sched_state.write]
      cases htr : cfg.is_tasklet_runner q
      · have hni := hvalid htr
        cases hst : t.state <;> simp_all
      · simp [c1, c2, c3]
    · have hqp : q ≠ p := fun e => hpr (e ▸ hq')
      obtain ⟨u, hu, c1, c2, c3⟩ := hl q hq'
      refine ⟨u, by rw [hmem1, if_neg hqp]; exact hu, ?_⟩
      unfold linked_by_state at *
      rw [hs1]
      simp only [add_task_result, sched_state.write]
      rw [count_appended _ p q hqp, count_appended _ p q hqp, count_appended _ p q hqp]
      exact ⟨c1, c2, c3⟩
  · intro x hx
    rw [hmem1]
    by_cases hxp : x = p
    · rw [if_pos hxp]
      simp
    · rw [if_neg hxp]
      apply he x
      rw [hs1] at hx
      simp only [add_task_result, sched_state.write] at hx
      rcases hx with h | h | h
      · exact Or.inl ((mem_appended _ p x _ h).resolve_right hxp)
      · exact Or.inr (Or.inl ((mem_appended _ p x _ h).resolve_right hxp))
      · exact Or.inr (Or.inr ((mem_appended _ p x _ h).resolve_right hxp))

theorem sched_inv_init (cfg : sched_config) (k : TaskPtr) (s : sched_state)
    (hcall : create_kernel_process cfg boot_state k = some s) : sched_inv cfg s := by
  have hmax := create_kernel_process_some cfg k s hcall
  rw [create_kernel_process_eq cfg k hmax] at hcall
  have hs := (Option.some.inj hcall).symm
  have hroot : s.tree_by_tid_root = [k] := by rw [hs]; rfl
  have hmem : ∀ q, s.mem q = if q = k then
      some { kernel_proc_buf with running_in_kernel := true, state := TASK_STATE_SLEEPING }
      else none := by
    intro q
    rw [hs]
    rfl
  refine ⟨?_, ?_, ?_, ?_⟩
  · rw [hroot]
    intro q hq
    have e : q = k := by simpa using hq
    exact ⟨_, by rw [hmem, if_pos e], by simp [kernel_proc_buf], by simp [kernel_proc_buf]⟩
  · rw [hroot]
    exact List.pairwise_singleton _ _
  · rw [hroot]
    intro q hq
    have e : q = k := by simpa using hq
    refine ⟨_, by rw [hmem, if_pos e], ?_⟩
    unfold linked_by_state listed_state
    rw [hs, e]
    cases htr : cfg.is_tasklet_runner k <;>
      simp [add_task_result, sched_state.write, boot_state, kernel_proc_buf, htr]
  · intro x hx
    have e : x = k := by
      rw [hs] at hx
      simp only [add_task_result, sched_state.write, boot_state, kernel_proc_buf] at hx
      rcases hx with h | h | h
      · simp at h
      · split at h
        · simpa using h
        · simp at h
      · simp at h
    rw [hmem, if_pos e]
    simp

theorem sched_reachable_inv (cfg : sched_config) (k : TaskPtr) (s : sched_state)
    (h : sched_reachable cfg k s) : sched_inv cfg s := by
  induction h with
  | init s hcall => exact sched_inv_init cfg k s hcall
  | add s s1 p t _ hnew htid hcall ih => exact sched_inv_add cfg s s1 p t ih hnew htid hcall
  | change s s1 p st _ hcall ih => exact sched_inv_change cfg s s1 p st ih hcall
  | remove s s1 p _ hp hcall ih => exact sched_inv_remove cfg s s1 p ih hp hcall

/-- C10: in every state reached from `create_kernel_process` by `add_task`,
`task_change_state` and `remove_task`, every task `T` of the index has a
record; if `T` is not a tasklet runner it is, exactly once, in the state list
of `T.state` (runnable, sleeping or zombie; in none when `T.state` has no list)
and in no other state list; if `T` is a tasklet runner it is in no state list. -/
theorem state_lists_agree_with_state (cfg : sched_config) (k : TaskPtr) (s : sched_state)
    (hreach : sched_reachable cfg k s) :
    ∀ T ∈ s.tree_by_tid_root, ∃ t, s.mem T = some t ∧
      (cfg.is_tasklet_runner T = false →
        (T ∈ s.runnable_tasks_list ↔ t.state = TASK_STATE_RUNNABLE) ∧
        (T ∈ s.sleeping_tasks_list ↔ t.state = TASK_STATE_SLEEPING) ∧
        (T ∈ s.zombie_tasks_list ↔ t.state = TASK_STATE_ZOMBIE) ∧
        linked_by_state s T t.state) ∧
      (cfg.is_tasklet_runner T = true →
        T ∉ s.runnable_tasks_list ∧ T ∉ s.sleeping_tasks_list ∧
        T ∉ s.zombie_tasks_list) := by
  obtain ⟨_, _, hl, _⟩ := sched_reachable_inv cfg k s hreach
  intro T hT
  obtain ⟨t, ht, hlt⟩ := hl T hT
  refine ⟨t, ht, ?_, ?_⟩
  · intro htr
    have hlt' : linked_by_state s T t.state := by
      unfold listed_state at hlt
      rw [htr] at hlt
      exact hlt
    obtain ⟨m1, m2, m3⟩ := linked_by_state_mem s T t.state hlt'
    exact ⟨m1, m2, m3, hlt'⟩
  · intro htr
    have hlt' : linked_by_state s T TASK_STATE_RUNNING := by
      unfold listed_state at hlt
      rw [htr] at hlt
      exact hlt
    obtain ⟨m1, m2, m3⟩ := linked_by_state_mem s T _ hlt'
    exact ⟨fun h => absurd (m1.mp h) (by decide), fun h => absurd (m2.mp h) (by decide),
      fun h => absurd (m3.mp h) (by decide)⟩

/-- C10 after the boot sequence, the creation of a runnable task at address 2
and its transition to sleeping: the task is in the sleeping list and in no
other state list. -/
theorem state_lists_agree_with_state_witness :
    sched_reachable cfg5 1 boot_add_sleep ∧
    boot_add_sleep.tree_by_tid_root = [1, 2] ∧
    boot_add_sleep.mem 2 = some (mk_task 1 1 TASK_STATE_SLEEPING 0) ∧
    2 ∈ boot_add_sleep.sleeping_tasks_list ∧ 2 ∉ boot_add_sleep.runnable_tasks_list ∧
    2 ∉ boot_add_sleep.zombie_tasks_list := by
  have h0 : sched_reachable cfg5 1 ((create_kernel_process cfg5 boot_state 1).getD boot_state) :=
    sched_reachable.init _ rfl
  have h1 := sched_reachable.add _
    ((add_task cfg5 (((create_kernel_process cfg5 boot_state 1).getD boot_state).write 2
      (mk_task 1 1 TASK_STATE_RUNNABLE 0)) 2).getD boot_state)
    2 (mk_task 1 1 TASK_STATE_RUNNABLE 0) h0 rfl (by decide) rfl
  have h2 : sched_reachable cfg5 1 boot_add_sleep :=
    sched_reachable.change _ _ 2 TASK_STATE_SLEEPING h1 rfl
  obtain ⟨t, ht, hno, _⟩ := state_lists_agree_with_state cfg5 1 boot_add_sleep h2 2
    (by decide)
  have e : t = mk_task 1 1 TASK_STATE_SLEEPING 0 := by
    have h3 : boot_add_sleep.mem 2 = some (mk_task 1 1 TASK_STATE_SLEEPING 0) := rfl
    exact Option.some.inj (ht.symm.trans h3)
  obtain ⟨m1, m2, m3, _⟩ := hno rfl
  rw [e] at m1 m2 m3
  exact ⟨h2, rfl, rfl, m2.mpr rfl, fun h => absurd (m1.mp h) (by decide),
    fun h => absurd (m3.mp h) (by decide)⟩

/-! ## `schedule`: the fast path and the idle fallback -/

/-- C14: when the ready high-priority tasklet runner is the current task,
`schedule` returns without calling `switch_to_task` and leaves the whole
scheduler state as it was, whatever the `time_slot_ticks` of the current task. -/
theorem schedule_runner_is_current (cfg : sched_config) (s : sched_state)
    (curr : TaskPtr) (curr_irq : Int)
    (hgate : s.disable_preemption_count ≠ 0) (hcur : s.current = some curr) :
    schedule cfg s (some curr) curr_irq = some (.returned s) := by
  have hg : is_preemption_enabled s = false := by simp [is_preemption_enabled, hgate]
  unfold schedule
  rw [hg, hcur]
  simp

/-- C14 at a tasklet runner that is the current task and has used up its
quantum (`time_slot_ticks = TIME_SLOT_TICKS = 20`). -/
theorem schedule_runner_is_current_witness :
    cfg5.TIME_SLOT_TICKS ≤ 20 ∧
    runner_is_current.mem 9 =
      some { mk_task 9 0 TASK_STATE_RUNNING 50 with time_slot_ticks := 20 } ∧
    schedule cfg5 runner_is_current (some 9) 0 = some (.returned runner_is_current) :=
  ⟨by decide, rfl, schedule_runner_is_current cfg5 runner_is_current 9 0 (by decide) rfl⟩

/-- C15: when no high-priority tasklet runner is ready, the state of the current
task is neither running nor runnable, and the runnable list holds no task other
than the idle task, `schedule curr_irq` ends with the call
`switch_to_task(idle_task, curr_irq)`, the scheduler state being as on entry. -/
theorem schedule_falls_back_to_idle (cfg : sched_config) (s : sched_state)
    (curr_irq : Int) (curr : TaskPtr) (c : task_info)
    (hgate : s.disable_preemption_count ≠ 0)
    (hcur : s.current = some curr) (hmem : s.mem curr = some c)
    (hrun : ∀ p ∈ s.runnable_tasks_list, ∃ t, s.mem p = some t ∧ t.state = TASK_STATE_RUNNABLE)
    (hstate : c.state ≠ TASK_STATE_RUNNING ∧ c.state ≠ TASK_STATE_RUNNABLE)
    (honly : ∀ p ∈ s.runnable_tasks_list, some p = s.idle_task) :
    schedule cfg s none curr_irq = some (.switched s s.idle_task curr_irq) := by
  have hpick : pick_least (total_ticks_of s) (sched_candidates s) none = none := by
    have : sched_candidates s = [] := by
      unfold sched_candidates
      rw [List.filter_eq_nil_iff]
      intro p hp
      simp [honly p hp]
    rw [this]
    rfl
  have hs1 : after_demotion cfg s curr c = s := by
    unfold after_demotion
    rw [if_neg hstate.1]
  rw [schedule_no_runner_eq cfg s curr_irq curr c hgate hcur hmem hrun, hpick, hs1]
  simp only [hmem, hstate.2, if_false]

/-- C15 at the scenario of the specification: the current task has just gone to
sleep and only the idle task (address 7) is runnable. -/
theorem schedule_falls_back_to_idle_witness :
    schedule cfg5 blocked_current_state none 0 =
      some (.switched blocked_current_state (some 7) 0) :=
  schedule_falls_back_to_idle cfg5 blocked_current_state 0 1
    (mk_task 1 1 TASK_STATE_SLEEPING 4) (by decide) rfl rfl (by decide) (by decide)
    (by decide)

/-! ## The kernel bootstrap task -/

/-- C12: from the initial state (empty index, `current_max_pid = -1`), with
`MAX_PID ≥ 0` and a kernel task that is not a tasklet runner, the call of
`create_new_pid` made by `create_kernel_process` returns 0, and after
`create_kernel_process` the kernel task has `tid = 0`, `pid = 0`, state
sleeping and `running_in_kernel = true`, is the current task, is in the
sleeping list and in no other state list, and is in the task index. -/
theorem create_kernel_process_bootstrap (cfg : sched_config) (k : TaskPtr)
    (hmax : 0 ≤ cfg.MAX_PID) (htr : cfg.is_tasklet_runner k = false) :
    (∃ s1, create_new_pid cfg boot_state = some (0, s1)) ∧
    ∃ s t, create_kernel_process cfg boot_state k = some s ∧
      s.mem k = some t ∧ t.tid = 0 ∧ t.pid = 0 ∧ t.state = TASK_STATE_SLEEPING ∧
      t.running_in_kernel = true ∧
      s.current = some k ∧
      k ∈ s.sleeping_tasks_list ∧ k ∉ s.runnable_tasks_list ∧ k ∉ s.zombie_tasks_list ∧
      k ∈ s.tree_by_tid_root := by
  constructor
  · rw [create_new_pid_boot, if_pos hmax]
    exact ⟨_, rfl⟩
  · refine ⟨_, { kernel_proc_buf with running_in_kernel := true, state := TASK_STATE_SLEEPING },
      create_kernel_process_eq cfg k hmax, ?_, rfl, rfl, rfl, rfl, rfl, ?_, ?_, ?_, ?_⟩
    · simp [add_task_result, sched_state.write]
    · simp [add_task_result, sched_state.write, htr, boot_state]
    · simp [add_task_result, sched_state.write, htr, boot_state]
    · simp [add_task_result, sched_state.write, htr, boot_state]
    · simp [add_task_result]

/-- C12 with `MAX_PID = 5` and the kernel task at address 1: the state after
`create_kernel_process`, field by field. -/
theorem create_kernel_process_bootstrap_witness :
    (∃ s1, create_new_pid cfg5 boot_state = some (0, s1)) ∧
    ∃ s t, create_kernel_process cfg5 boot_state 1 = some s ∧
      s.mem 1 = some t ∧ t.tid = 0 ∧ t.pid = 0 ∧ t.state = TASK_STATE_SLEEPING ∧
      t.running_in_kernel = true ∧
      s.current = some 1 ∧
      1 ∈ s.sleeping_tasks_list ∧ 1 ∉ s.runnable_tasks_list ∧ 1 ∉ s.zombie_tasks_list ∧
      1 ∈ s.tree_by_tid_root :=
  create_kernel_process_bootstrap cfg5 1 (by decide) (by decide)

/-! ## Tick accounting -/

/-- C13: for a current task whose counters are below the maxima of their
types, `account_ticks` increases `time_slot_ticks` and `total_ticks` by exactly
1, increases `total_kernel_ticks` by exactly 1 if `running_in_kernel` is true
and leaves it otherwise, and changes no other field of the current task, no
other task, no state list, not the current-task pointer and no other variable
of the scheduler; `total_kernel_ticks ≤ total_ticks` is preserved. -/
theorem account_ticks_effect (w : tick_widths) (s : sched_state) (curr : TaskPtr)
    (c : task_info)
    (hcur : s.current = some curr) (hmem : s.mem curr = some c)
    (h1 : c.time_slot_ticks + 1 < 2 ^ w.time_slot_ticks_bits)
    (h2 : c.total_ticks + 1 < 2 ^ w.total_ticks_bits)
    (h3 : c.running_in_kernel = true →
      c.total_kernel_ticks + 1 < 2 ^ w.total_kernel_ticks_bits) :
    ∃ s', account_ticks w s = some s' ∧
      s'.mem curr = some { c with
        time_slot_ticks := c.time_slot_ticks + 1
        total_ticks := c.total_ticks + 1
        total_kernel_ticks :=
          if c.running_in_kernel then c.total_kernel_ticks + 1 else c.total_kernel_ticks } ∧
      (∀ q, q ≠ curr → s'.mem q = s.mem q) ∧
      s'.runnable_tasks_list = s.runnable_tasks_list ∧
      s'.sleeping_tasks_list = s.sleeping_tasks_list ∧
      s'.zombie_tasks_list = s.zombie_tasks_list ∧
      s'.current = s.current ∧
      s'.tree_by_tid_root = s.tree_by_tid_root ∧
      s'.runnable_tasks_count = s.runnable_tasks_count ∧
      s'.current_max_pid = s.current_max_pid ∧
      s'.idle_task = s.idle_task ∧
      s'.disable_preemption_count = s.disable_preemption_count ∧
      (c.total_kernel_ticks ≤ c.total_ticks →
        (if c.running_in_kernel then c.total_kernel_ticks + 1 else c.total_kernel_ticks) ≤
          c.total_ticks + 1) := by
  have hcall : account_ticks w s = some (s.write curr { c with
      time_slot_ticks := c.time_slot_ticks + 1
      total_ticks := c.total_ticks + 1
      total_kernel_ticks :=
        if c.running_in_kernel then c.total_kernel_ticks + 1 else c.total_kernel_ticks }) := by
    simp only [account_ticks, hcur, hmem, Nat.mod_eq_of_lt h1, Nat.mod_eq_of_lt h2]
    cases hk : c.running_in_kernel
    · simp
    · simp [Nat.mod_eq_of_lt (h3 hk)]
  refine ⟨_, hcall, ?_, ?_, rfl, rfl, rfl, rfl, rfl, rfl, rfl, rfl, rfl, ?_⟩
  · simp [sched_state.write]
  · intro q hq
    simp [sched_state.write, hq]
  · intro hle
    split <;> omega

/-- C13 at a current task in kernel mode with 3, 100 and 40 ticks: after
`account_ticks` it has 4, 101 and 41, and the runnable task 2 is untouched. -/
theorem account_ticks_effect_witness :
    ∃ s', account_ticks widths_32_64 in_kernel_state = some s' ∧
      s'.mem 1 = some { mk_task 1 1 TASK_STATE_RUNNING 101 with
        time_slot_ticks := 4, total_kernel_ticks := 41, running_in_kernel := true } ∧
      s'.mem 2 = in_kernel_state.mem 2 ∧
      s'.runnable_tasks_list = [2] ∧ s'.current = some 1 := by
  obtain ⟨s', h, hm, ho, hr, _, _, hc, _⟩ :=
    account_ticks_effect widths_32_64 in_kernel_state 1
      { mk_task 1 1 TASK_STATE_RUNNING 100 with
        time_slot_ticks := 3, total_kernel_ticks := 40, running_in_kernel := true }
      rfl rfl (by decide) (by decide) (fun _ => by decide)
  exact ⟨s', h, hm, ho 2 (by decide), hr, hc⟩

/-! ## The target states of `task_change_state` -/

/-- C17 as stated fails: `task_change_state(T, zombie)` on the running task 1
passes both entry assertions, returns, and puts the task into the zombie
list. -/
theorem task_change_state_accepts_zombie :
    three_candidates_state.mem 1 = some (mk_task 1 1 TASK_STATE_RUNNING 1) ∧
    ∃ s', task_change_state cfg5 three_candidates_state 1 TASK_STATE_ZOMBIE = some s' ∧
      s'.mem 1 = some (mk_task 1 1 TASK_STATE_ZOMBIE 1) ∧
      1 ∈ s'.zombie_tasks_list :=
  ⟨rfl, _, rfl, rfl, by decide⟩

/-- C17, amended: `task_change_state` fails an entry assertion when the target
state equals the state of the task or when the task is a zombie.  A call with
the target state zombie on a task that is not a zombie is accepted (its
assertions hold; for a task that is not a tasklet runner the state must be a
valid one and the assertion on `runnable_tasks_count` must hold): it sets the
state to zombie and, unless the task is a tasklet runner, appends the task to
the zombie list. -/
theorem task_change_state_target_states (cfg : sched_config) (s : sched_state)
    (ti : TaskPtr) (t : task_info) (new_state : task_state)
    (hmem : s.mem ti = some t) :
    ((t.state = new_state ∨ t.state = TASK_STATE_ZOMBIE) →
      task_change_state cfg s ti new_state = none) ∧
    (t.state ≠ TASK_STATE_ZOMBIE →
      (cfg.is_tasklet_runner ti = false →
        t.state ≠ TASK_STATE_INVALID ∧
        (t.state = TASK_STATE_RUNNABLE → 0 ≤ wrap_int (s.runnable_tasks_count - 1))) →
      ∃ s', task_change_state cfg s ti TASK_STATE_ZOMBIE = some s' ∧
        s'.mem ti = some { t with state := TASK_STATE_ZOMBIE } ∧
        (cfg.is_tasklet_runner ti = false →
          s'.zombie_tasks_list = s.zombie_tasks_list ++ [ti]) ∧
        (cfg.is_tasklet_runner ti = true →
          s'.zombie_tasks_list = s.zombie_tasks_list)) := by
  constructor
  · intro h
    unfold task_change_state
    rw [hmem]
    rcases h with h | h
    · simp [h]
    · simp [h]
  · intro hz hok
    have hret : change_state_returns cfg s ti t TASK_STATE_ZOMBIE := by
      refine ⟨hz, hz, ?_⟩
      cases htr : cfg.is_tasklet_runner ti
      · right
        exact ⟨(hok htr).1, by decide, (hok htr).2⟩
      · left; rfl
    refine ⟨_, task_change_state_eq cfg s ti t _ hmem hret, by simp [change_state_result],
      ?_, ?_⟩
    · intro htr
      simp [change_state_result, htr, hz]
    · intro htr
      simp [change_state_result, htr]

/-- C17, amended, at the running task 1: the call with target zombie is
accepted, and the call with target running (its own state) is refused. -/
theorem task_change_state_target_states_witness :
    task_change_state cfg5 three_candidates_state 1 TASK_STATE_RUNNING = none ∧
    ∃ s', task_change_state cfg5 three_candidates_state 1 TASK_STATE_ZOMBIE = some s' ∧
      s'.zombie_tasks_list = three_candidates_state.zombie_tasks_list ++ [1] := by
  obtain ⟨h1, _⟩ := task_change_state_target_states cfg5 three_candidates_state 1
    (mk_task 1 1 TASK_STATE_RUNNING 1) TASK_STATE_RUNNING rfl
  obtain ⟨_, h2⟩ := task_change_state_target_states cfg5 three_candidates_state 1
    (mk_task 1 1 TASK_STATE_RUNNING 1) TASK_STATE_ZOMBIE rfl
  obtain ⟨s', h3, _, h4, _⟩ := h2 (by decide) (fun _ => ⟨by decide, by decide⟩)
  exact ⟨h1 (Or.inl rfl), s', h3, h4 rfl⟩

/-! ## The allocated identifier and the additional threads -/

/-- C19 as stated fails: with the main thread 0 and an additional thread with
`tid` 1 in the index, `create_new_pid` returns 1, the `tid` of the thread. -/
theorem create_new_pid_returns_thread_tid :
    thread_in_index_state.tree_by_tid_root = [1, 2] ∧
    thread_in_index_state.mem 2 = some (mk_task 1 0 TASK_STATE_SLEEPING 0) ∧
    is_main_thread (mk_task 1 0 TASK_STATE_SLEEPING 0) = false ∧
    ∃ s', create_new_pid cfg5 thread_in_index_state = some (1, s') :=
  ⟨rfl, rfl, rfl, _, rfl⟩

theorem create_new_pid_avoids_main (cfg : sched_config) (s : sched_state)
    (hgate : s.disable_preemption_count ≠ 0)
    (hv : index_valid s.mem s.tree_by_tid_root)
    (hs : index_sorted s.mem s.tree_by_tid_root) :
    ∃ r s', create_new_pid cfg s = some (r, s') ∧
      (0 ≤ r → r ≤ cfg.MAX_PID ∧
        ∀ p ∈ s.tree_by_tid_root, ∀ t, s.mem p = some t → is_main_thread t = true →
          t.tid ≠ r) := by
  obtain ⟨nodes, hn⟩ := deref_all_total s.mem s.tree_by_tid_root (fun p hp => by
    obtain ⟨t, ht, _⟩ := hv p hp
    exact ⟨t, ht⟩)
  have hf := deref_all_forall₂ _ _ _ hn
  have hsorted := forall₂_sorted _ _ _ hf hs
  have hbound : ∀ t ∈ nodes, is_main_thread t = true → 0 ≤ t.tid ∧ t.tid < 2147483648 := by
    intro t ht _
    obtain ⟨p, hp1, hp2⟩ := forall₂_mem_right _ _ _ hf t ht
    obtain ⟨t', ht', hb⟩ := hv p hp1
    have e : t' = t := Option.some.inj (ht'.symm.trans hp2)
    rw [← e]
    exact hb
  have hcall := create_new_pid_eq cfg s nodes hgate hn
  simp only at hcall
  have hprop : ∀ r, r = select_pid cfg.MAX_PID
      ⟨pid_scan 0 nodes, pid_scan (wrap_int (s.current_max_pid + 1)) nodes⟩ → 0 ≤ r →
      r ≤ cfg.MAX_PID ∧
        ∀ p ∈ s.tree_by_tid_root, ∀ t, s.mem p = some t → is_main_thread t = true →
          t.tid ≠ r := by
    intro r hr hpos
    rw [hr] at hpos ⊢
    refine ⟨select_pid_le _ _ hpos, ?_⟩
    intro p hp t ht hm
    obtain ⟨t', ht', hpt⟩ := forall₂_mem_left _ _ _ hf p hp
    have e : t' = t := Option.some.inj (hpt.symm.trans ht)
    rw [e] at ht'
    rcases select_pid_cases _ _ hpos with e2 | e2
    · rw [e2]; exact pid_scan_not_mem _ nodes hsorted hbound t ht' hm
    · rw [e2]; exact pid_scan_not_mem _ nodes hsorted hbound t ht' hm
  split at hcall
  · exact ⟨_, _, hcall, hprop _ rfl⟩
  · exact ⟨_, _, hcall, hprop _ rfl⟩

/-- C19, amended: for an index in strictly ascending order of non-negative
`tid`s and every `current_max_pid`, `create_new_pid` (gate closed) returns, and a
result `r ≥ 0` is at most `MAX_PID` and is not the `tid` of any main thread of
the index; it is the `tid` of no task of the index at all when every additional
thread of the index has a `tid` above `MAX_PID`. -/
theorem create_new_pid_fresh_among_main_threads (cfg : sched_config) (s : sched_state)
    (hgate : s.disable_preemption_count ≠ 0)
    (hv : index_valid s.mem s.tree_by_tid_root)
    (hs : index_sorted s.mem s.tree_by_tid_root) :
    ∃ r s', create_new_pid cfg s = some (r, s') ∧
      (0 ≤ r →
        r ≤ cfg.MAX_PID ∧
        (∀ p ∈ s.tree_by_tid_root, ∀ t, s.mem p = some t → is_main_thread t = true →
          t.tid ≠ r) ∧
        ((∀ p ∈ s.tree_by_tid_root, ∀ t, s.mem p = some t → is_main_thread t = false →
            cfg.MAX_PID < t.tid) →
          ∀ p ∈ s.tree_by_tid_root, ∀ t, s.mem p = some t → t.tid ≠ r)) := by
  obtain ⟨r, s', hcall, hfresh⟩ := create_new_pid_avoids_main cfg s hgate hv hs
  refine ⟨r, s', hcall, fun hr => ⟨(hfresh hr).1, (hfresh hr).2, ?_⟩⟩
  intro hthreads p hp t ht
  cases hm : is_main_thread t
  · have := hthreads p hp t ht hm
    have := (hfresh hr).1
    omega
  · exact (hfresh hr).2 p hp t ht hm

/-- C19, amended, at the index with the main thread 0 and the additional
thread 1: the result 1 differs from the `tid` of the main thread. -/
theorem create_new_pid_fresh_among_main_threads_witness :
    ∃ r s', create_new_pid cfg5 thread_in_index_state = some (r, s') ∧
      (0 ≤ r →
        r ≤ cfg5.MAX_PID ∧
        (∀ p ∈ thread_in_index_state.tree_by_tid_root, ∀ t,
          thread_in_index_state.mem p = some t → is_main_thread t = true → t.tid ≠ r) ∧
        ((∀ p ∈ thread_in_index_state.tree_by_tid_root, ∀ t,
            thread_in_index_state.mem p = some t → is_main_thread t = false →
            cfg5.MAX_PID < t.tid) →
          ∀ p ∈ thread_in_index_state.tree_by_tid_root, ∀ t,
            thread_in_index_state.mem p = some t → t.tid ≠ r)) :=
  create_new_pid_fresh_among_main_threads cfg5 thread_in_index_state (by decide)
    (by
      intro p hp
      have hp' : p = 1 ∨ p = 2 := by simpa [thread_in_index_state, table_state] using hp
      rcases hp' with rfl | rfl
      · exact ⟨_, rfl, by decide, by decide⟩
      · exact ⟨_, rfl, by decide, by decide⟩)
    (by
      unfold index_sorted
      show List.Pairwise _ [1, 2]
      rw [List.pairwise_pair]
      intro t u ht hu
      have e1 : t = mk_task 0 0 TASK_STATE_SLEEPING 0 := (Option.some.inj ht).symm
      have e2 : u = mk_task 1 0 TASK_STATE_SLEEPING 0 := (Option.some.inj hu).symm
      rw [e1, e2]
      decide)

/-! ## `add_task`, `get_task` and the task index -/

theorem add_task_eq (cfg : sched_config) (s : sched_state) (ti : TaskPtr) (t : task_info)
    (root : List TaskPtr) (ok : Bool) (hmem : s.mem ti = some t)
    (hins : bintree_insert s.mem s.tree_by_tid_root ti t = some (root, ok))
    (hst : cfg.is_tasklet_runner ti = true ∨ t.state ≠ TASK_STATE_INVALID) :
    add_task cfg s ti = some (add_task_result cfg s ti t root) := by
  cases htr : cfg.is_tasklet_runner ti
  · rw [htr] at hst
    simp only [Bool.false_eq_true, false_or] at hst
    cases hstate : t.state <;>
      simp_all [add_task, task_add_to_state_list, disable_preemption, enable_preemption,
        add_task_result, list_add_tail]
  · simp [add_task, task_add_to_state_list, disable_preemption, enable_preemption,
      add_task_result, hmem, htr, hins]

theorem bintree_insert_fresh (mem : TaskPtr → Option task_info) (root : List TaskPtr)
    (p : TaskPtr) (t : task_info)
    (hv : index_valid mem root) (ht : 0 ≤ t.tid ∧ t.tid < 2147483648)
    (hfresh : ∀ q ∈ root, ∀ u, mem q = some u → u.tid ≠ t.tid) :
    ∃ root', bintree_insert mem root p t = some (root', true) ∧ p ∈ root' := by
  induction root with
  | nil => exact ⟨[p], rfl, List.mem_cons_self _ _⟩
  | cons q rest ih =>
    obtain ⟨u, hq, hu⟩ := hv q (List.mem_cons_self _ _)
    have hc := cmp_zero_iff t u ht hu
    have hne : ¬ ti_insert_remove_cmp t u = 0 := fun h =>
      hfresh q (List.mem_cons_self _ _) u hq (hc.1.mp h).symm
    unfold bintree_insert
    simp only [hq, hne, if_false]
    by_cases hlt : ti_insert_remove_cmp t u < 0
    · rw [if_pos hlt]
      exact ⟨_, rfl, List.mem_cons_self _ _⟩
    · rw [if_neg hlt]
      obtain ⟨r, hr, hpr⟩ := ih (fun x hx => hv x (List.mem_cons_of_mem _ hx))
        (fun x hx => hfresh x (List.mem_cons_of_mem _ hx))
      rw [hr]
      exact ⟨_, rfl, List.mem_cons_of_mem _ hpr⟩

theorem bintree_insert_total (mem : TaskPtr → Option task_info) (root : List TaskPtr)
    (p : TaskPtr) (t : task_info) (hv : index_valid mem root) :
    ∃ root' ok, bintree_insert mem root p t = some (root', ok) := by
  induction root with
  | nil => exact ⟨[p], true, rfl⟩
  | cons q rest ih =>
    obtain ⟨u, hq, _⟩ := hv q (List.mem_cons_self _ _)
    obtain ⟨r, ok, hr⟩ := ih (fun x hx => hv x (List.mem_cons_of_mem _ hx))
    unfold bintree_insert
    simp only [hq, hr]
    split
    · exact ⟨_, _, rfl⟩
    · split
      · exact ⟨_, _, rfl⟩
      · exact ⟨_, _, rfl⟩

theorem bintree_find_mem (mem : TaskPtr → Option task_info) (root : List TaskPtr)
    (p : TaskPtr) (t : task_info)
    (hv : index_valid mem root) (hs : index_sorted mem root)
    (hp : mem p = some t) (hmem : p ∈ root) :
    bintree_find mem root t.tid = some (some p) := by
  induction root with
  | nil => simp at hmem
  | cons q rest ih =>
    obtain ⟨u, hq, hu⟩ := hv q (List.mem_cons_self _ _)
    obtain ⟨t', hp', ht⟩ := hv p hmem
    have e : t' = t := Option.some.inj (hp'.symm.trans hp)
    rw [e] at ht
    have hs' := hs
    unfold index_sorted at hs'
    rw [List.pairwise_cons] at hs'
    unfold bintree_find
    simp only [hq]
    by_cases hpq : p = q
    · have e2 : u = t := by
        rw [hpq] at hp
        exact Option.some.inj (hq.symm.trans hp)
      have h0 : ti_find_cmp u t.tid = 0 := by
        rw [e2]
        unfold ti_find_cmp
        rw [sub_self]
        decide
      rw [if_pos h0, hpq]
    · have hin : p ∈ rest := by
        rcases List.mem_cons.mp hmem with h | h
        · exact absurd h hpq
        · exact h
      have hlt := hs'.1 p hin u t hq hp
      have h0 : ¬ ti_find_cmp u t.tid = 0 := by
        unfold ti_find_cmp
        rw [wrap_int_eq _ (by omega) (by omega)]
        omega
      rw [if_neg h0]
      exact ih (fun x hx => hv x (List.mem_cons_of_mem _ hx)) hs'.2 hin

theorem index_sorted_distinct (mem : TaskPtr → Option task_info) (root : List TaskPtr)
    (hs : index_sorted mem root) :
    root.Pairwise (fun p q => ∀ a b, mem p = some a → mem q = some b → a.tid ≠ b.tid) := by
  unfold index_sorted at hs
  refine hs.imp ?_
  intro p q h a b ha hb
  have := h a b ha hb
  omega

/-- C11 as stated fails: when the index already holds a task with `tid` 0,
`add_task` of a second record with `tid` 0 returns, the new task is linked in
the runnable list but is not in the index, and `get_task(0)` returns the
task that was there before. -/
theorem add_task_duplicate_tid_not_indexed :
    duplicate_tid_state.mem 5 = some (mk_task 0 0 TASK_STATE_RUNNABLE 0) ∧
    ∃ s', add_task cfg5 duplicate_tid_state 5 = some s' ∧
      5 ∉ s'.tree_by_tid_root ∧
      (get_task s' 0).map Prod.fst = some (some 1) ∧
      5 ∈ s'.runnable_tasks_list :=
  ⟨rfl, _, rfl, by decide, rfl, by decide⟩

/-- C11, amended: for an index in strictly ascending order of non-negative
`tid`s and a record `ti` with a non-negative `tid` (in a valid state unless it
is a tasklet runner), `add_task(ti)` returns and the `tid`s of the index stay
pairwise distinct, in ascending order; when no task of the index has the `tid`
of `ti`, then after `add_task(ti)` the task `ti` is in the index and
`get_task(ti.tid)` returns `ti`. -/
theorem add_task_indexes_new_tid (cfg : sched_config) (s : sched_state) (ti : TaskPtr)
    (t : task_info)
    (hv : index_valid s.mem s.tree_by_tid_root)
    (hs : index_sorted s.mem s.tree_by_tid_root)
    (hmem : s.mem ti = some t) (ht : 0 ≤ t.tid ∧ t.tid < 2147483648)
    (hst : cfg.is_tasklet_runner ti = true ∨ t.state ≠ TASK_STATE_INVALID) :
    ∃ s', add_task cfg s ti = some s' ∧
      index_valid s'.mem s'.tree_by_tid_root ∧
      index_sorted s'.mem s'.tree_by_tid_root ∧
      s'.tree_by_tid_root.Pairwise
        (fun p q => ∀ a b, s'.mem p = some a → s'.mem q = some b → a.tid ≠ b.tid) ∧
      ((∀ q ∈ s.tree_by_tid_root, ∀ u, s.mem q = some u → u.tid ≠ t.tid) →
        ti ∈ s'.tree_by_tid_root ∧
        ∃ s'', get_task s' t.tid = some (some ti, s'')) := by
  obtain ⟨root, ok, hins⟩ := bintree_insert_total s.mem s.tree_by_tid_root ti t hv
  obtain ⟨hsub, hsorted⟩ := bintree_insert_sorted _ _ _ _ _ _ hv hs hmem ht hins
  have hvalid : index_valid s.mem root := by
    intro q hq
    rcases hsub q hq with e | hq'
    · exact ⟨t, by rw [e]; exact hmem, ht⟩
    · exact hv q hq'
  refine ⟨add_task_result cfg s ti t root, add_task_eq cfg s ti t root ok hmem hins hst,
    hvalid, hsorted, index_sorted_distinct _ _ hsorted, ?_⟩
  intro hfresh
  obtain ⟨root', hins', hin⟩ := bintree_insert_fresh s.mem s.tree_by_tid_root ti t hv ht hfresh
  have e : root = root' := by
    rw [hins] at hins'
    simp only [Option.some.injEq, Prod.mk.injEq] at hins'
    exact hins'.1
  rw [← e] at hin
  refine ⟨hin, ?_⟩
  have hfind : bintree_find s.mem root t.tid = some (some ti) :=
    bintree_find_mem s.mem root ti t hvalid hsorted hmem hin
  have hfind' : bintree_find (add_task_result cfg s ti t root).mem
      (add_task_result cfg s ti t root).tree_by_tid_root t.tid = some (some ti) := hfind
  exact ⟨enable_preemption (disable_preemption (add_task_result cfg s ti t root)), by
    simp only [get_task, hfind']⟩

/-- C11, amended, at an index holding `tid` 0 and a new record with `tid` 1 at
address 5: after `add_task` the index is `[1, 5]` and `get_task(1)` returns the
new task. -/
theorem add_task_indexes_new_tid_witness :
    ∃ s', add_task cfg5 new_tid_state 5 = some s' ∧
      5 ∈ s'.tree_by_tid_root ∧
      ∃ s'', get_task s' 1 = some (some 5, s'') := by
  obtain ⟨s', h1, _, _, _, h5⟩ := add_task_indexes_new_tid cfg5 new_tid_state 5
    (mk_task 1 1 TASK_STATE_RUNNABLE 0)
    (by
      intro p hp
      have hp' : p = 1 := by simpa [new_tid_state, index_state, sched_state.write] using hp
      rw [hp']
      exact ⟨_, rfl, by decide, by decide⟩)
    (by
      unfold index_sorted
      show List.Pairwise _ [1]
      exact List.pairwise_singleton _ _)
    rfl (by decide) (Or.inr (by decide))
  have hfresh : ∀ q ∈ new_tid_state.tree_by_tid_root, ∀ u, new_tid_state.mem q = some u →
      u.tid ≠ (mk_task 1 1 TASK_STATE_RUNNABLE 0).tid := by
    intro q hq u hu
    have hq' : q = 1 := by simpa [new_tid_state, index_state, sched_state.write] using hq
    rw [hq'] at hu
    have e : u = mk_task 0 0 TASK_STATE_SLEEPING 0 := (Option.some.inj hu).symm
    rw [e]
    decide
  exact ⟨s', h1, (h5 hfresh).1, (h5 hfresh).2⟩

/-! ## The preemption gate -/

theorem wrap_u32_succ (n : Nat) (h : n < 4294967295) :
    wrap_u32 ((n : Int) + 1) = n + 1 := by
  unfold wrap_u32
  omega

theorem wrap_u32_pred_succ (n : Nat) (h : n < 4294967296) :
    wrap_u32 ((wrap_u32 ((n : Int) + 1) : Int) - 1) = n := by
  unfold wrap_u32
  omega

theorem task_change_state_steps_snd (cfg : sched_config) (s : sched_state) (ti : TaskPtr)
    (new_state : task_state) :
    (task_change_state_steps cfg s ti new_state).map Prod.snd =
      task_change_state cfg s ti new_state := by
  unfold task_change_state_steps task_change_state
  split
  · rfl
  · split
    · rfl
    · split
      · rfl
      · split
        · rfl
        · split
          · rfl
          · split
            · rfl
            · rfl

theorem task_change_state_steps_gate (cfg : sched_config) (s s' : sched_state)
    (ti : TaskPtr) (new_state : task_state) (l : List sched_state)
    (hn : s.disable_preemption_count < 4294967295)
    (h : task_change_state_steps cfg s ti new_state = some (l, s')) :
    (∀ x ∈ l, x.disable_preemption_count = s.disable_preemption_count + 1 ∨
      x.disable_preemption_count = s.disable_preemption_count) ∧
    s'.disable_preemption_count = s.disable_preemption_count := by
  unfold task_change_state_steps at h
  split at h
  · exact absurd h (by simp)
  · split at h
    · exact absurd h (by simp)
    · split at h
      · exact absurd h (by simp)
      · split at h
        · exact absurd h (by simp)
        · rename_i s2 hs2
          split at h
          · exact absurd h (by simp)
          · rename_i t2 ht2
            split at h
            · exact absurd h (by simp)
            · rename_i s4 hs4
              have f2 := (task_remove_from_state_list_frame _ _ _ _ hs2).2.2.2.2.2
              have f4 := (task_add_to_state_list_frame _ _ _ _ hs4).2.2.2.2.2
              have hd : (disable_preemption s).disable_preemption_count =
                  s.disable_preemption_count + 1 := by
                simp only [disable_preemption]
                exact wrap_u32_succ _ hn
              have h3 : (s2.write ti { t2 with state := new_state }).disable_preemption_count =
                  s.disable_preemption_count + 1 := by
                simp only [sched_state.write]
                rw [f2, hd]
              have h4 : s4.disable_preemption_count = s.disable_preemption_count + 1 := by
                rw [f4, h3]
              have h5 : (enable_preemption s4).disable_preemption_count =
                  s.disable_preemption_count := by
                simp only [enable_preemption, h4]
                unfold wrap_u32
                omega
              simp only [Option.some.injEq, Prod.mk.injEq] at h
              obtain ⟨hl, hs'⟩ := h
              rw [← hl, ← hs']
              refine ⟨?_, h5⟩
              intro x hx
              simp only [List.mem_cons, List.mem_singleton, List.not_mem_nil, or_false] at hx
              rcases hx with e | e | e | e | e
              · rw [e]; exact Or.inl hd
              · rw [e, f2]; exact Or.inl hd
              · rw [e]; exact Or.inl h3
              · rw [e]; exact Or.inl h4
              · rw [e]; exact Or.inr h5

theorem schedule_steps_snd (cfg : sched_config) (s : sched_state)
    (tasklet_runner : Option TaskPtr) (curr_irq : Int) :
    (schedule_steps cfg s tasklet_runner curr_irq).map Prod.snd =
      schedule cfg s tasklet_runner curr_irq := by
  unfold schedule_steps schedule
  split
  · rfl
  · split
    · rfl
    · split
      · rfl
      · rename_i curr hcur
        split
        · rfl
        · rename_i c hmem
          have hY : (if c.state = TASK_STATE_RUNNING then
                task_change_state cfg s curr TASK_STATE_RUNNABLE else some s) =
              (if c.state = TASK_STATE_RUNNING then
                task_change_state_steps cfg s curr TASK_STATE_RUNNABLE
               else some ([], s)).map Prod.snd := by
            split
            · exact (task_change_state_steps_snd _ _ _ _).symm
            · rfl
          rw [hY]
          generalize (if c.state = TASK_STATE_RUNNING then
                task_change_state_steps cfg s curr TASK_STATE_RUNNABLE
               else some ([], s)) = X
          cases X with
          | none => rfl
          | some pr =>
            obtain ⟨l1, s1⟩ := pr
            simp only [Option.map_some']
            cases tasklet_runner with
            | some r => rfl
            | none =>
              simp only
              cases schedule_loop s1 s1.runnable_tasks_list none with
              | none => rfl
              | some sel =>
                cases sel with
                | some q => rfl
                | none =>
                  simp only
                  cases s1.mem curr with
                  | none => rfl
                  | some c1 =>
                    simp only
                    by_cases hc1 : c1.state = TASK_STATE_RUNNABLE
                    · simp only [hc1, if_true]
                      rw [← task_change_state_steps_snd cfg s1 curr TASK_STATE_RUNNING]
                      cases task_change_state_steps cfg s1 curr TASK_STATE_RUNNING with
                      | none => rfl
                      | some pr2 =>
                        obtain ⟨l2, s2⟩ := pr2
                        simp only [Option.map_some']
                        cases s2.mem curr <;> rfl
                    · simp only [hc1, if_false]
                      rfl

theorem schedule_steps_gate (cfg : sched_config) (s : sched_state)
    (tasklet_runner : Option TaskPtr) (curr_irq : Int) (l : List sched_state) (e : sched_exit)
    (hn : s.disable_preemption_count < 4294967295)
    (h : schedule_steps cfg s tasklet_runner curr_irq = some (l, e)) :
    (∀ x ∈ l, x.disable_preemption_count = s.disable_preemption_count + 1 ∨
      x.disable_preemption_count = s.disable_preemption_count) ∧
    e.state.disable_preemption_count = s.disable_preemption_count := by
  unfold schedule_steps at h
  split at h
  · exact absurd h (by simp)
  · split at h
    · simp only [Option.some.injEq, Prod.mk.injEq] at h
      rw [← h.1, ← h.2]
      exact ⟨fun x hx => by simp at hx, rfl⟩
    · split at h
      · exact absurd h (by simp)
      · rename_i curr hcur
        split at h
        · exact absurd h (by simp)
        · rename_i c hmem
          split at h
          · exact absurd h (by simp)
          · rename_i l1 s1 hX
            have h1 : (∀ x ∈ l1, x.disable_preemption_count = s.disable_preemption_count + 1 ∨
                x.disable_preemption_count = s.disable_preemption_count) ∧
                s1.disable_preemption_count = s.disable_preemption_count := by
              split at hX
              · exact task_change_state_steps_gate cfg s s1 curr _ l1 hn hX
              · simp only [Option.some.injEq, Prod.mk.injEq] at hX
                rw [← hX.1, ← hX.2]
                exact ⟨fun x hx => by simp at hx, rfl⟩
            split at h
            · simp only [Option.some.injEq, Prod.mk.injEq] at h
              rw [← h.1, ← h.2]
              exact h1
            · split at h
              · exact absurd h (by simp)
              · simp only [Option.some.injEq, Prod.mk.injEq] at h
                rw [← h.1, ← h.2]
                exact h1
              · split at h
                · exact absurd h (by simp)
                · split at h
                  · split at h
                    · exact absurd h (by simp)
                    · rename_i l2 s2 hX2
                      have hn1 : s1.disable_preemption_count < 4294967295 := by
                        rw [h1.2]
                        exact hn
                      have h2 := task_change_state_steps_gate cfg s1 s2 curr _ l2 hn1 hX2
                      rw [h1.2] at h2
                      split at h
                      · exact absurd h (by simp)
                      · simp only [Option.some.injEq, Prod.mk.injEq] at h
                        rw [← h.1, ← h.2]
                        refine ⟨?_, h2.2⟩
                        intro x hx
                        rcases List.mem_append.mp hx with hx1 | hx2
                        · exact h1.1 x hx1
                        · exact h2.1 x hx2
                  · simp only [Option.some.injEq, Prod.mk.injEq] at h
                    rw [← h.1, ← h.2]
                    exact h1

/-- C20: the gate counter starts at 1; each of `task_change_state`, `add_task`,
`remove_task` and `get_task` returns with the counter equal to its value on
entry (a `u32`), the body of `task_change_state` running with the counter one
higher; and every state that `schedule` passes through, when entered with a
counter above 0 and below the largest `u32`, has the counter at its entry value
or one higher, hence never at 0, and `schedule` ends with the entry value. -/
theorem preemption_gate_balanced (cfg : sched_config) :
    boot_state.disable_preemption_count = 1 ∧
    (∀ s s' ti st, s.disable_preemption_count < 4294967296 →
      task_change_state cfg s ti st = some s' →
      s'.disable_preemption_count = s.disable_preemption_count) ∧
    (∀ s s' ti, s.disable_preemption_count < 4294967296 →
      add_task cfg s ti = some s' →
      s'.disable_preemption_count = s.disable_preemption_count) ∧
    (∀ s s' ti, s.disable_preemption_count < 4294967296 →
      remove_task cfg s ti = some s' →
      s'.disable_preemption_count = s.disable_preemption_count) ∧
    (∀ s s' tid res, s.disable_preemption_count < 4294967296 →
      get_task s tid = some (res, s') →
      s'.disable_preemption_count = s.disable_preemption_count) ∧
    (∀ s ti st, (task_change_state_steps cfg s ti st).map Prod.snd =
      task_change_state cfg s ti st) ∧
    (∀ s s' ti st l, s.disable_preemption_count < 4294967295 →
      task_change_state_steps cfg s ti st = some (l, s') →
      ∀ x ∈ l, x.disable_preemption_count = s.disable_preemption_count + 1 ∨
        x.disable_preemption_count = s.disable_preemption_count) ∧
    (∀ s r irq, (schedule_steps cfg s r irq).map Prod.snd = schedule cfg s r irq) ∧
    (∀ s r irq l e, 0 < s.disable_preemption_count →
      s.disable_preemption_count < 4294967295 →
      schedule_steps cfg s r irq = some (l, e) →
      (∀ x ∈ l, x.disable_preemption_count ≠ 0 ∧
        (x.disable_preemption_count = s.disable_preemption_count + 1 ∨
          x.disable_preemption_count = s.disable_preemption_count)) ∧
      e.state.disable_preemption_count = s.disable_preemption_count) := by
  refine ⟨rfl, ?_, ?_, ?_, ?_, ?_, ?_, ?_, ?_⟩
  · intro s s' ti st hn h
    obtain ⟨t, _, _, hs'⟩ := task_change_state_some cfg s s' ti st h
    rw [hs']
    exact wrap_u32_pred_succ _ hn
  · intro s s' ti hn h
    obtain ⟨t, root, ok, _, _, _, hs'⟩ := add_task_some cfg s s' ti h
    rw [hs']
    exact wrap_u32_pred_succ _ hn
  · intro s s' ti hn h
    obtain ⟨t, root, _, _, _, hs'⟩ := remove_task_some cfg s s' ti h
    rw [hs']
    exact wrap_u32_pred_succ _ hn
  · intro s s' tid res hn h
    unfold get_task at h
    split at h
    · exact absurd h (by simp)
    · simp only [Option.some.injEq, Prod.mk.injEq] at h
      rw [← h.2]
      exact wrap_u32_pred_succ _ hn
  · intro s ti st
    exact task_change_state_steps_snd cfg s ti st
  · intro s s' ti st l hn h
    exact (task_change_state_steps_gate cfg s s' ti st l hn h).1
  · intro s r irq
    exact schedule_steps_snd cfg s r irq
  · intro s r irq l e hpos hn h
    obtain ⟨h1, h2⟩ := schedule_steps_gate cfg s r irq l e hn h
    refine ⟨fun x hx => ⟨?_, h1 x hx⟩, h2⟩
    rcases h1 x hx with e1 | e1 <;> omega

/-- C20 at the re-selection of a task whose quantum has expired, entered with
the counter at 1: `schedule` passes through ten states, none with the counter
at 0, and returns with the counter at 1. -/
theorem preemption_gate_balanced_witness :
    ∃ l e, schedule_steps cfg5 quantum_expired_state none 0 = some (l, e) ∧
      l.length = 10 ∧
      (∀ x ∈ l, x.disable_preemption_count ≠ 0) ∧
      e.state.disable_preemption_count = 1 := by
  obtain ⟨l, e, h⟩ : ∃ l e, schedule_steps cfg5 quantum_expired_state none 0 = some (l, e) :=
    ⟨_, _, rfl⟩
  have hlen : (schedule_steps cfg5 quantum_expired_state none 0).map
      (fun r => r.1.length) = some 10 := rfl
  rw [h] at hlen
  obtain ⟨_, _, _, _, _, _, _, _, h9⟩ := preemption_gate_balanced cfg5
  obtain ⟨h1, h2⟩ := h9 quantum_expired_state none 0 l e (by decide) (by decide) h
  exact ⟨l, e, h, Option.some.inj hlen, fun x hx => (h1 x hx).1, h2⟩

/-! ## Two calls of `schedule` in a row -/

/-- C16 as stated fails: with the running task 1 and the runnable task 2, the
first call of `schedule` switches to task 2, and the second call, made with
nothing changed in between, switches back to task 1. -/
theorem schedule_twice_switches_twice :
    ∃ s1 smid s2,
      schedule cfg5 two_tasks_state none 0 = some (.switched s1 (some 2) 0) ∧
      after_schedule cfg5 (.switched s1 (some 2) 0) = some smid ∧
      smid.current = some 2 ∧
      schedule cfg5 smid none 0 = some (.switched s2 (some 1) 0) :=
  ⟨_, _, _, rfl, rfl, rfl, rfl⟩

theorem schedule_cases (cfg : sched_config) (s : sched_state)
    (tasklet_runner : Option TaskPtr) (curr_irq : Int) (e : sched_exit)
    (h : schedule cfg s tasklet_runner curr_irq = some e) :
    s.disable_preemption_count ≠ 0 ∧
    ((tasklet_runner = s.current ∧ e = .returned s) ∨
     (tasklet_runner ≠ s.current ∧
      ∃ curr c, s.current = some curr ∧ s.mem curr = some c ∧
        ((∃ t, e = .switched (after_demotion cfg s curr c) t curr_irq ∧
            (∀ R, tasklet_runner = some R → t = some R)) ∨
         (tasklet_runner = none ∧
          ∃ c1, (after_demotion cfg s curr c).mem curr = some c1 ∧
            c1.state = TASK_STATE_RUNNABLE ∧
            change_state_returns cfg (after_demotion cfg s curr c) curr c1
              TASK_STATE_RUNNING ∧
            e = .returned ((change_state_result cfg (after_demotion cfg s curr c) curr c1
              TASK_STATE_RUNNING).write curr
                { c1 with state := TASK_STATE_RUNNING, time_slot_ticks := 0 }))))) := by
  unfold schedule at h
  split at h
  · exact absurd h (by simp)
  · rename_i hg
    have hgate : s.disable_preemption_count ≠ 0 := by
      intro h0
      simp [is_preemption_enabled, h0] at hg
    refine ⟨hgate, ?_⟩
    split at h
    · rename_i heq
      left
      exact ⟨heq, (Option.some.inj h).symm⟩
    · rename_i hne
      right
      refine ⟨hne, ?_⟩
      split at h
      · exact absurd h (by simp)
      · rename_i curr hcur
        split at h
        · exact absurd h (by simp)
        · rename_i c hmem
          refine ⟨curr, c, hcur, hmem, ?_⟩
          rw [demotion_eq cfg s curr c hmem] at h
          simp only at h
          split at h
          · rename_i R
            left
            exact ⟨some R, (Option.some.inj h).symm, fun R' hR' => by rw [hR']⟩
          · split at h
            · exact absurd h (by simp)
            · rename_i sel _
              left
              exact ⟨some sel, (Option.some.inj h).symm, fun R' hR' => by simp at hR'⟩
            · split at h
              · exact absurd h (by simp)
              · rename_i c1 hm1
                split at h
                · rename_i hc1
                  split at h
                  · exact absurd h (by simp)
                  · rename_i s2 hs2
                    right
                    obtain ⟨c1', hm1', hret, hs2'⟩ := task_change_state_some _ _ _ _ _ hs2
                    have e1 : c1' = c1 := Option.some.inj (hm1'.symm.trans hm1)
                    rw [e1] at hret hs2'
                    have hm2 : s2.mem curr = some { c1 with state := TASK_STATE_RUNNING } := by
                      rw [hs2']
                      simp [change_state_result]
                    rw [hm2] at h
                    simp only [Option.some.injEq] at h
                    refine ⟨rfl, c1, hm1, hc1, hret, ?_⟩
                    rw [← h, hs2']
                · left
                  exact ⟨_, (Option.some.inj h).symm, fun R' hR' => by simp at hR'⟩

theorem switch_to_task_some (cfg : sched_config) (s s' : sched_state)
    (task : Option TaskPtr) (h : switch_to_task cfg s task = some s') :
    ∃ p tp x, task = some p ∧ s.mem p = some tp ∧
      ((tp.state = TASK_STATE_RUNNING ∧ x = s) ∨
        (tp.state ≠ TASK_STATE_RUNNING ∧
          task_change_state cfg s p TASK_STATE_RUNNING = some x)) ∧
      x.mem p = some { tp with state := TASK_STATE_RUNNING } ∧
      s' = { x.write p { tp with state := TASK_STATE_RUNNING, time_slot_ticks := 0 }
             with current := some p } := by
  unfold switch_to_task at h
  split at h
  · exact absurd h (by simp)
  · rename_i p
    split at h
    · exact absurd h (by simp)
    · rename_i tp hp
      split at h
      · exact absurd h (by simp)
      · rename_i x hx
        have hxm : x.mem p = some { tp with state := TASK_STATE_RUNNING } := by
          split at hx
          · rename_i hr
            rw [← Option.some.inj hx, hp]
            congr 1
            cases tp
            simp only at hr
            rw [hr]
          · obtain ⟨t', ht', _, hx'⟩ := task_change_state_some _ _ _ _ _ hx
            have e : t' = tp := Option.some.inj (ht'.symm.trans hp)
            rw [hx', e]
            simp [change_state_result]
        rw [hxm] at h
        simp only [Option.some.injEq] at h
        refine ⟨p, tp, x, rfl, hp, ?_, hxm, h.symm⟩
        split at hx
        · rename_i hr
          exact Or.inl ⟨hr, (Option.some.inj hx).symm⟩
        · rename_i hr
          exact Or.inr ⟨hr, hx⟩

theorem change_state_result_gate (cfg : sched_config) (x : sched_state) (p : TaskPtr)
    (t : task_info) (st : task_state) (h : x.disable_preemption_count < 4294967296) :
    (change_state_result cfg x p t st).disable_preemption_count =
      x.disable_preemption_count := by
  simp only [change_state_result]
  exact wrap_u32_pred_succ _ h

theorem after_demotion_gate (cfg : sched_config) (s : sched_state) (curr : TaskPtr)
    (c : task_info) (h : s.disable_preemption_count < 4294967296) :
    (after_demotion cfg s curr c).disable_preemption_count = s.disable_preemption_count := by
  unfold after_demotion
  split
  · exact change_state_result_gate cfg s curr c _ h
  · rfl

theorem schedule_fast_path (cfg : sched_config) (s : sched_state)
    (tasklet_runner : Option TaskPtr) (curr_irq : Int)
    (hgate : s.disable_preemption_count ≠ 0) (heq : tasklet_runner = s.current) :
    schedule cfg s tasklet_runner curr_irq = some (.returned s) := by
  have hg : is_preemption_enabled s = false := by simp [is_preemption_enabled, hgate]
  unfold schedule
  rw [hg, heq]
  simp

theorem schedule_reselect_returns (cfg : sched_config) (s : sched_state)
    (curr_irq : Int) (curr : TaskPtr) (c : task_info)
    (hgate : s.disable_preemption_count ≠ 0)
    (hcur : s.current = some curr) (hmem : s.mem curr = some c)
    (hr : c.state = TASK_STATE_RUNNING)
    (hrun : ∀ p ∈ s.runnable_tasks_list, ∃ t, s.mem p = some t ∧ t.state = TASK_STATE_RUNNABLE)
    (honly : ∀ p ∈ s.runnable_tasks_list, some p = s.idle_task ∨ some p = s.current)
    (hcount : 0 ≤ s.runnable_tasks_count ∧ s.runnable_tasks_count < 2147483647) :
    ∃ s', schedule cfg s none curr_irq = some (.returned s') := by
  have hpick : pick_least (total_ticks_of s) (sched_candidates s) none = none := by
    have : sched_candidates s = [] := by
      unfold sched_candidates
      rw [List.filter_eq_nil_iff]
      intro p hp
      simp [honly p hp]
    rw [this]
    rfl
  obtain ⟨_, _, _, f4⟩ := after_demotion_fields cfg s curr c
  have hm1 := after_demotion_mem cfg s curr c hmem curr
  rw [if_pos rfl, if_pos hr] at hm1
  have hsched := schedule_no_runner_eq cfg s curr_irq curr c hgate hcur hmem hrun
  rw [hpick] at hsched
  simp only at hsched
  have hret : change_state_returns cfg (after_demotion cfg s curr c) curr
      { c with state := TASK_STATE_RUNNABLE } TASK_STATE_RUNNING := by
    refine ⟨by simp, by simp, ?_⟩
    cases htrc : cfg.is_tasklet_runner curr
    · right
      refine ⟨by simp, by decide, fun _ => ?_⟩
      rw [f4, if_pos ⟨hr, htrc⟩]
      have e1 : wrap_int (s.runnable_tasks_count + 1) = s.runnable_tasks_count + 1 :=
        wrap_int_eq _ (by omega) (by omega)
      rw [e1, wrap_int_eq _ (by omega) (by omega)]
      omega
    · left; rfl
  have hcs := task_change_state_eq cfg (after_demotion cfg s curr c) curr _
    TASK_STATE_RUNNING hm1 hret
  have hm2 : (change_state_result cfg (after_demotion cfg s curr c) curr
      { c with state := TASK_STATE_RUNNABLE } TASK_STATE_RUNNING).mem curr =
      some { c with state := TASK_STATE_RUNNING } := by
    simp [change_state_result]
  simp only [hm1, if_true, hcs, hm2] at hsched
  exact ⟨_, hsched⟩

theorem after_schedule_facts (cfg : sched_config) (s smid : sched_state)
    (tasklet_runner : Option TaskPtr) (curr_irq : Int) (e : sched_exit)
    (hn : s.disable_preemption_count < 4294967296)
    (h1 : schedule cfg s tasklet_runner curr_irq = some e)
    (hmid : after_schedule cfg e = some smid) :
    smid.disable_preemption_count = s.disable_preemption_count ∧
    s.disable_preemption_count ≠ 0 ∧
    ((tasklet_runner = s.current ∧ smid = s) ∨
     (tasklet_runner ≠ s.current ∧
      ∃ p t, smid.current = some p ∧ smid.mem p = some t ∧
        t.state = TASK_STATE_RUNNING ∧ (∀ R, tasklet_runner = some R → p = R))) := by
  obtain ⟨hgate, hc⟩ := schedule_cases cfg s tasklet_runner curr_irq e h1
  rcases hc with ⟨heq, he⟩ | ⟨hne, curr, c, hcur, hmem, hc2⟩
  · rw [he] at hmid
    have e2 : smid = s := (Option.some.inj hmid).symm
    exact ⟨by rw [e2], hgate, Or.inl ⟨heq, e2⟩⟩
  · have hd := after_demotion_gate cfg s curr c hn
    rcases hc2 with ⟨t, he, hR⟩ | ⟨_, c1, hm1, hc1, hret, he⟩
    · rw [he] at hmid
      obtain ⟨p, tp, x, htp, hp, hx, hxm, hs'⟩ := switch_to_task_some cfg _ smid t hmid
      have hxg : x.disable_preemption_count = s.disable_preemption_count := by
        rcases hx with ⟨_, hx⟩ | ⟨_, hx⟩
        · rw [hx, hd]
        · obtain ⟨t', _, _, hx'⟩ := task_change_state_some _ _ _ _ _ hx
          rw [hx', change_state_result_gate _ _ _ _ _ (by rw [hd]; exact hn), hd]
      refine ⟨by rw [hs']; exact hxg, hgate, Or.inr ⟨hne, p,
        { tp with state := TASK_STATE_RUNNING, time_slot_ticks := 0 }, by rw [hs'], ?_, rfl,
        ?_⟩⟩
      · rw [hs']
        simp [sched_state.write]
      · intro R hR'
        have := hR R hR'
        rw [htp] at this
        exact Option.some.inj this
    · rw [he] at hmid
      have e2 := (Option.some.inj hmid).symm
      refine ⟨?_, hgate, Or.inr ⟨hne, curr,
        { c1 with state := TASK_STATE_RUNNING, time_slot_ticks := 0 }, ?_, ?_, rfl, ?_⟩⟩
      · rw [e2]
        simp only [sched_state.write]
        rw [change_state_result_gate _ _ _ _ _ (by rw [hd]; exact hn), hd]
      · rw [e2]
        simp only [sched_state.write, change_state_result]
        rw [(after_demotion_fields cfg s curr c).1, hcur]
      · rw [e2]
        simp [sched_state.write]
      · intro R hR'
        rw [‹tasklet_runner = none›] at hR'
        exact absurd hR' (by simp)

/-- C16, amended: let `schedule` be called twice with nothing changed in
between (`switch_to_task` by its contract, the same answer of the tasklet
subsystem).  When a high-priority tasklet runner is ready, the second call
returns without a context switch and leaves the state as it is.  When none is
ready, a current task exists and after the first call every task in the
runnable list has state runnable, the second call returns without a context
switch if the runnable list holds no task other than the idle task and the
current task; if it holds another task, the second call performs a context
switch. -/
theorem schedule_twice (cfg : sched_config) (s smid : sched_state)
    (tasklet_runner : Option TaskPtr) (curr_irq : Int) (e1 : sched_exit)
    (hn : s.disable_preemption_count < 4294967296)
    (h1 : schedule cfg s tasklet_runner curr_irq = some e1)
    (hmid : after_schedule cfg e1 = some smid) :
    ((∃ R, tasklet_runner = some R) →
      schedule cfg smid tasklet_runner curr_irq = some (.returned smid)) ∧
    (tasklet_runner = none → s.current ≠ none →
      (∀ p ∈ smid.runnable_tasks_list,
        ∃ t, smid.mem p = some t ∧ t.state = TASK_STATE_RUNNABLE) →
      ((∀ p ∈ smid.runnable_tasks_list, some p = smid.idle_task ∨ some p = smid.current) →
        0 ≤ smid.runnable_tasks_count ∧ smid.runnable_tasks_count < 2147483647 →
        ∃ s', schedule cfg smid none curr_irq = some (.returned s')) ∧
      ((∃ p ∈ smid.runnable_tasks_list, some p ≠ smid.idle_task ∧ some p ≠ smid.current) →
        ∃ s2 t, schedule cfg smid none curr_irq = some (.switched s2 (some t) curr_irq))) := by
  obtain ⟨hg, hgate, hfacts⟩ := after_schedule_facts cfg s smid tasklet_runner curr_irq e1
    hn h1 hmid
  have hgmid : smid.disable_preemption_count ≠ 0 := by rw [hg]; exact hgate
  constructor
  · rintro ⟨R, hR⟩
    apply schedule_fast_path cfg smid tasklet_runner curr_irq hgmid
    rcases hfacts with ⟨heq, hs⟩ | ⟨_, p, t, hcur, _, _, hp⟩
    · rw [hs]; exact heq
    · rw [hcur, hR, hp R hR]
  · intro hnone hcur0 hrun
    rcases hfacts with ⟨heq, _⟩ | ⟨_, p, t, hcur, hmem, hst, _⟩
    · rw [hnone] at heq
      exact absurd heq.symm hcur0
    · constructor
      · intro honly hcount
        exact schedule_reselect_returns cfg smid curr_irq p t hgmid hcur hmem hst hrun
          honly hcount
      · intro hcand
        have hne : sched_candidates smid ≠ [] := by
          obtain ⟨q, hq, h2, h3⟩ := hcand
          intro h
          have : q ∈ sched_candidates smid := by
            unfold sched_candidates
            rw [List.mem_filter]
            exact ⟨hq, by simp [h2, h3]⟩
          rw [h] at this
          simp at this
        obtain ⟨sel, _, _, hsel, _⟩ :=
          pick_least_none (total_ticks_of smid) (sched_candidates smid) hne
        refine ⟨after_demotion cfg smid p t, sel, ?_⟩
        rw [schedule_no_runner_eq cfg smid curr_irq p t hgmid hcur hmem hrun, hsel]

/-- C16, amended, at two scenarios: with the tasklet runner 9 ready, the first
call switches to it and the second call returns; with a single task whose
quantum has expired, both calls return. -/
theorem schedule_twice_witness :
    (∃ s1 smid, schedule cfg5 runner_ready_state (some 9) 0 =
        some (.switched s1 (some 9) 0) ∧
      after_schedule cfg5 (.switched s1 (some 9) 0) = some smid ∧
      schedule cfg5 smid (some 9) 0 = some (.returned smid)) ∧
    (∃ smid s', schedule cfg5 quantum_expired_state none 0 = some (.returned smid) ∧
      schedule cfg5 smid none 0 = some (.returned s')) := by
  constructor
  · obtain ⟨s1, h1⟩ : ∃ s1, schedule cfg5 runner_ready_state (some 9) 0 =
        some (.switched s1 (some 9) 0) := ⟨_, rfl⟩
    obtain ⟨smid, hmid⟩ : ∃ smid, after_schedule cfg5 (.switched s1 (some 9) 0) =
        some smid := by
      have h2 : ((schedule cfg5 runner_ready_state (some 9) 0).bind
          (after_schedule cfg5)).isSome = true := rfl
      rw [h1, Option.some_bind] at h2
      exact Option.isSome_iff_exists.mp h2
    obtain ⟨ha, _⟩ := schedule_twice cfg5 runner_ready_state smid (some 9) 0 _
      (by decide) h1 hmid
    exact ⟨s1, smid, h1, hmid, ha ⟨9, rfl⟩⟩
  · obtain ⟨smid, h1⟩ : ∃ smid, schedule cfg5 quantum_expired_state none 0 =
        some (.returned smid) := ⟨_, rfl⟩
    obtain ⟨_, hb⟩ := schedule_twice cfg5 quantum_expired_state smid none 0 _
      (by decide) h1 rfl
    have hl : smid.runnable_tasks_list = [7] ∧ smid.idle_task = some 7 ∧
        smid.runnable_tasks_count = 1 ∧
        smid.mem 7 = some (mk_task 7 0 TASK_STATE_RUNNABLE 0) := by
      have h2 : (schedule cfg5 quantum_expired_state none 0).map
          (fun e => (e.state.runnable_tasks_list, e.state.idle_task,
            e.state.runnable_tasks_count, e.state.mem 7)) =
          some ([7], some 7, 1, some (mk_task 7 0 TASK_STATE_RUNNABLE 0)) := rfl
      rw [h1] at h2
      simp only [Option.map_some', sched_exit.state, Option.some.injEq, Prod.mk.injEq] at h2
      exact h2
    obtain ⟨hl1, hl2, hl3, hl4⟩ := hl
    obtain ⟨hret, _⟩ := hb rfl (by decide) (by
      intro p hp
      rw [hl1] at hp
      have e : p = 7 := by simpa using hp
      rw [e]
      exact ⟨_, hl4, rfl⟩)
    obtain ⟨s', hs'⟩ := hret (by
      intro p hp
      rw [hl1] at hp
      have e : p = 7 := by simpa using hp
      rw [e, hl2]
      exact Or.inl rfl) (by rw [hl3]; decide)
    exact ⟨smid, s', h1, hs'⟩

/-! ## The running task and the current-task pointer -/

theorem links_ok_change (cfg : sched_config) (s s1 : sched_state) (p : TaskPtr)
    (st : task_state) (hinv : links_ok cfg s)
    (hcall : task_change_state cfg s p st = some s1) : links_ok cfg s1 := by
  obtain ⟨hl, he⟩ := hinv
  obtain ⟨t, ht, hret, hs1⟩ := task_change_state_some cfg s s1 p st hcall
  have hmem1 : ∀ q, s1.mem q = if q = p then some { t with state := st } else s.mem q := by
    intro q
    rw [hs1]
    rfl
  refine ⟨?_, ?_⟩
  · intro q u hu
    rw [hmem1] at hu
    by_cases hqp : q = p
    · rw [if_pos hqp] at hu
      have eu : u = { t with state := st } := (Option.some.inj hu).symm
      rw [hqp] at *
      obtain ⟨c1, c2, c3⟩ := hl p t ht
      obtain ⟨r1, r2, r3⟩ := hret
      rw [eu]
      unfold linked_by_state listed_state at *
      rw [hs1]
      cases htr : cfg.is_tasklet_runner p
      · rw [htr] at c1 c2 c3 r3
        simp only [Bool.false_eq_true, if_false, false_or] at c1 c2 c3 r3
        simp only [change_state_result, htr, Bool.false_eq_true, if_false]
        cases hst : t.state <;> cases st <;> simp_all [List.count_erase_self]
      · rw [htr] at c1 c2 c3
        simp only [change_state_result, htr, if_true]
        exact ⟨c1, c2, c3⟩
    · rw [if_neg hqp] at hu
      obtain ⟨c1, c2, c3⟩ := hl q u hu
      unfold linked_by_state at *
      rw [hs1]
      simp only [change_state_result]
      cases htr : cfg.is_tasklet_runner p
      · simp only [Bool.false_eq_true, if_false]
        rw [count_moved _ p q hqp, count_moved _ p q hqp, count_moved _ p q hqp]
        exact ⟨c1, c2, c3⟩
      · simp only [if_true]
        exact ⟨c1, c2, c3⟩
  · intro x hx
    rw [hmem1]
    by_cases hxp : x = p
    · rw [if_pos hxp]
      simp
    · rw [if_neg hxp]
      apply he x
      rw [hs1] at hx
      simp only [change_state_result] at hx
      cases htr : cfg.is_tasklet_runner p
      · rw [htr] at hx
        simp only [Bool.false_eq_true, if_false] at hx
        rcases hx with h | h | h
        · exact Or.inl ((mem_moved _ p x _ _ h).resolve_right hxp)
        · exact Or.inr (Or.inl ((mem_moved _ p x _ _ h).resolve_right hxp))
        · exact Or.inr (Or.inr ((mem_moved _ p x _ _ h).resolve_right hxp))
      · rw [htr] at hx
        simpa using hx

theorem links_ok_write (cfg : sched_config) (s : sched_state) (p : TaskPtr)
    (t t' : task_info) (hinv : links_ok cfg s) (hp : s.mem p = some t)
    (hstate : t'.state = t.state) : links_ok cfg (s.write p t') := by
  obtain ⟨hl, he⟩ := hinv
  refine ⟨?_, ?_⟩
  · intro q u hu
    simp only [sched_state.write] at hu
    by_cases hqp : q = p
    · rw [if_pos hqp] at hu
      have eu : u = t' := (Option.some.inj hu).symm
      have h := hl p t hp
      rw [hqp, eu]
      unfold listed_state at h ⊢
      rw [hstate]
      exact h
    · rw [if_neg hqp] at hu
      exact hl q u hu
  · intro x hx
    simp only [sched_state.write]
    by_cases hxp : x = p
    · rw [if_pos hxp]
      simp
    · rw [if_neg hxp]
      exact he x hx

theorem links_ok_after_demotion (cfg : sched_config) (s : sched_state) (curr : TaskPtr)
    (c : task_info) (hinv : links_ok cfg s) (hmem : s.mem curr = some c) :
    links_ok cfg (after_demotion cfg s curr c) := by
  have hd := demotion_eq cfg s curr c hmem
  split at hd
  · exact links_ok_change cfg s _ curr _ hinv hd
  · rw [← Option.some.inj hd]
    exact hinv

theorem links_ok_add (cfg : sched_config) (s s1 : sched_state) (p : TaskPtr)
    (t : task_info) (hinv : links_ok cfg s) (hnew : s.mem p = none)
    (hcall : add_task cfg (s.write p t) p = some s1) : links_ok cfg s1 := by
  obtain ⟨hl, he⟩ := hinv
  obtain ⟨t', root, ok, ht', _, hvalid, hs1⟩ := add_task_some cfg _ s1 p hcall
  have e : t' = t := by
    simp only [sched_state.write, if_true, Option.some.injEq] at ht'
    exact ht'.symm
  rw [e] at hvalid hs1
  have hmem1 : ∀ q, s1.mem q = if q = p then some t else s.mem q := by
    intro q
    rw [hs1]
    rfl
  have hpl : p ∉ s.runnable_tasks_list ∧ p ∉ s.sleeping_tasks_list ∧
      p ∉ s.zombie_tasks_list :=
    ⟨fun h => he p (Or.inl h) hnew, fun h => he p (Or.inr (Or.inl h)) hnew,
      fun h => he p (Or.inr (Or.inr h)) hnew⟩
  refine ⟨?_, ?_⟩
  · intro q u hu
    rw [hmem1] at hu
    by_cases hqp : q = p
    · rw [if_pos hqp] at hu
      have eu : u = t := (Option.some.inj hu).symm
      rw [hqp, eu]
      have c1 := List.count_eq_zero_of_not_mem hpl.1
      have c2 := List.count_eq_zero_of_not_mem hpl.2.1
      have c3 := List.count_eq_zero_of_not_mem hpl.2.2
      unfold linked_by_state listed_state
      rw [hs1]
      simp only [add_task_result, sched_state.write]
      cases htr : cfg.is_tasklet_runner p
      · have hni := hvalid htr
        cases hst : t.state <;> simp_all
      · simp [c1, c2, c3]
    · rw [if_neg hqp] at hu
      obtain ⟨c1, c2, c3⟩ := hl q u hu
      unfold linked_by_state at *
      rw [hs1]
      simp only [add_task_result, sched_state.write]
      rw [count_appended _ p q hqp, count_appended _ p q hqp, count_appended _ p q hqp]
      exact ⟨c1, c2, c3⟩
  · intro x hx
    rw [hmem1]
    by_cases hxp : x = p
    · rw [if_pos hxp]
      simp
    · rw [if_neg hxp]
      apply he x
      rw [hs1] at hx
      simp only [add_task_result, sched_state.write] at hx
      rcases hx with h | h | h
      · exact Or.inl ((mem_appended _ p x _ h).resolve_right hxp)
      · exact Or.inr (Or.inl ((mem_appended _ p x _ h).resolve_right hxp))
      · exact Or.inr (Or.inr ((mem_appended _ p x _ h).resolve_right hxp))

theorem links_ok_remove (cfg : sched_config) (s s1 : sched_state) (p : TaskPtr)
    (hinv : links_ok cfg s) (hcall : remove_task cfg s p = some s1) : links_ok cfg s1 := by
  obtain ⟨hl, he⟩ := hinv
  obtain ⟨t, root, ht, hz, _, hs1⟩ := remove_task_some cfg s s1 p hcall
  have hmem1 : ∀ q, s1.mem q = if q = p then none else s.mem q := by
    intro q
    rw [hs1]
    rfl
  have hp1 : p ∉ s1.runnable_tasks_list ∧ p ∉ s1.sleeping_tasks_list ∧
      p ∉ s1.zombie_tasks_list := by
    obtain ⟨c1, c2, c3⟩ := hl p t ht
    unfold listed_state at c1 c2 c3
    rw [hs1]
    simp only [remove_task_result]
    cases htr : cfg.is_tasklet_runner p
    · rw [htr, hz] at c1 c2 c3
      simp only [Bool.false_eq_true, if_false, reduceCtorEq, if_true] at c1 c2 c3
      refine ⟨List.count_eq_zero.mp c1, List.count_eq_zero.mp c2, ?_⟩
      simp only [if_true]
      rw [← List.count_eq_zero, List.count_erase_self, c3]
    · rw [htr] at c1 c2 c3
      simp only [if_true, reduceCtorEq, if_false] at c1 c2 c3
      exact ⟨List.count_eq_zero.mp c1, List.count_eq_zero.mp c2,
        by simpa using List.count_eq_zero.mp c3⟩
  refine ⟨?_, ?_⟩
  · intro q u hu
    rw [hmem1] at hu
    by_cases hqp : q = p
    · rw [if_pos hqp] at hu
      exact absurd hu (by simp)
    · rw [if_neg hqp] at hu
      obtain ⟨c1, c2, c3⟩ := hl q u hu
      unfold linked_by_state at *
      rw [hs1]
      simp only [remove_task_result]
      refine ⟨c1, c2, ?_⟩
      split
      · rw [List.count_erase_of_ne hqp]
        exact c3
      · exact c3
  · intro x hx
    have hxp : x ≠ p := by
      rintro rfl
      rcases hx with h | h | h
      · exact hp1.1 h
      · exact hp1.2.1 h
      · exact hp1.2.2 h
    rw [hmem1, if_neg hxp]
    apply he x
    rw [hs1] at hx
    simp only [remove_task_result] at hx
    rcases hx with h | h | h
    · exact Or.inl h
    · exact Or.inr (Or.inl h)
    · right; right
      split at h
      · exact List.mem_of_mem_erase h
      · exact h

theorem create_kernel_process_mem (cfg : sched_config) (k : TaskPtr) (s : sched_state)
    (hcall : create_kernel_process cfg boot_state k = some s) :
    (∀ q, s.mem q = if q = k then
      some { kernel_proc_buf with running_in_kernel := true, state := TASK_STATE_SLEEPING }
      else none) ∧
    s.current = some k ∧
    s.runnable_tasks_list = [] ∧ s.zombie_tasks_list = [] ∧
    s.sleeping_tasks_list = (if cfg.is_tasklet_runner k = false then [k] else []) := by
  have hmax := create_kernel_process_some cfg k s hcall
  rw [create_kernel_process_eq cfg k hmax] at hcall
  have hs := (Option.some.inj hcall).symm
  refine ⟨fun q => by rw [hs]; rfl, by rw [hs], ?_, ?_, ?_⟩
  · rw [hs]
    simp [add_task_result, sched_state.write, boot_state, kernel_proc_buf]
  · rw [hs]
    simp [add_task_result, sched_state.write, boot_state, kernel_proc_buf]
  · rw [hs]
    simp [add_task_result, sched_state.write, boot_state, kernel_proc_buf]

theorem links_ok_init (cfg : sched_config) (k : TaskPtr) (s : sched_state)
    (hcall : create_kernel_process cfg boot_state k = some s) : links_ok cfg s := by
  obtain ⟨hmem, _, hr, hz, hsl⟩ := create_kernel_process_mem cfg k s hcall
  refine ⟨?_, ?_⟩
  · intro q u hu
    rw [hmem] at hu
    by_cases hq : q = k
    · rw [if_pos hq] at hu
      have eu := (Option.some.inj hu).symm
      rw [hq, eu]
      unfold linked_by_state listed_state
      rw [hr, hz, hsl]
      cases htr : cfg.is_tasklet_runner k <;> simp
    · rw [if_neg hq] at hu
      exact absurd hu (by simp)
  · intro x hx
    rw [hr, hz, hsl] at hx
    have e : x = k := by
      rcases hx with h | h | h
      · simp at h
      · split at h
        · simpa using h
        · simp at h
      · simp at h
    rw [hmem, if_pos e]
    simp

theorem account_ticks_some (w : tick_widths) (s s1 : sched_state)
    (h : account_ticks w s = some s1) :
    ∃ curr c c', s.current = some curr ∧ s.mem curr = some c ∧ c'.state = c.state ∧
      s1 = s.write curr c' := by
  unfold account_ticks at h
  split at h
  · exact absurd h (by simp)
  · rename_i curr hcur
    split at h
    · exact absurd h (by simp)
    · rename_i c hmem
      simp only [Option.some.injEq] at h
      refine ⟨curr, c, _, hcur, hmem, ?_, h.symm⟩
      split <;> rfl

theorem no_running_after_demotion (cfg : sched_config) (s : sched_state) (curr : TaskPtr)
    (c : task_info) (hrun : running_is_current s) (hcur : s.current = some curr)
    (hmem : s.mem curr = some c) :
    ∀ q u, (after_demotion cfg s curr c).mem q = some u → u.state ≠ TASK_STATE_RUNNING := by
  intro q u hu hst
  rw [after_demotion_mem cfg s curr c hmem q] at hu
  by_cases hq : q = curr
  · rw [if_pos hq] at hu
    have e := (Option.some.inj hu).symm
    by_cases hc : c.state = TASK_STATE_RUNNING
    · rw [if_pos hc] at e
      rw [e] at hst
      simp at hst
    · rw [if_neg hc] at e
      rw [e] at hst
      exact hc hst
  · rw [if_neg hq] at hu
    have h1 := hrun q u hu hst
    rw [hcur] at h1
    exact hq (Option.some.inj h1).symm

theorem schedule_step_inv (cfg : sched_config) (s s1 : sched_state)
    (tasklet_runner : Option TaskPtr) (curr_irq : Int) (e : sched_exit)
    (hl : links_ok cfg s) (hrun : running_is_current s)
    (hcall : schedule cfg s tasklet_runner curr_irq = some e)
    (hafter : after_schedule cfg e = some s1) :
    links_ok cfg s1 ∧ running_is_current s1 := by
  obtain ⟨_, hfast | ⟨_, curr, c, hcur, hmem, hsw | hre⟩⟩ :=
    schedule_cases cfg s tasklet_runner curr_irq e hcall
  · obtain ⟨_, he⟩ := hfast
    rw [he] at hafter
    have e1 : s1 = s := (Option.some.inj hafter).symm
    rw [e1]
    exact ⟨hl, hrun⟩
  · obtain ⟨t, he, _⟩ := hsw
    rw [he] at hafter
    obtain ⟨p, tp, x, _, hp, hx, hxp, hs1⟩ :=
      switch_to_task_some cfg (after_demotion cfg s curr c) s1 t hafter
    have hlad := links_ok_after_demotion cfg s curr c hl hmem
    have hnr := no_running_after_demotion cfg s curr c hrun hcur hmem
    have hlx : links_ok cfg x := by
      rcases hx with ⟨_, ex⟩ | ⟨_, hch⟩
      · rw [ex]
        exact hlad
      · exact links_ok_change cfg _ x p TASK_STATE_RUNNING hlad hch
    have hxq : ∀ q, q ≠ p → x.mem q = (after_demotion cfg s curr c).mem q := by
      intro q hq
      rcases hx with ⟨_, ex⟩ | ⟨_, hch⟩
      · rw [ex]
      · obtain ⟨t0, _, _, ex⟩ := task_change_state_some cfg _ x p TASK_STATE_RUNNING hch
        rw [ex]
        show (if q = p then _ else _) = _
        rw [if_neg hq]
    have hlw := links_ok_write cfg x p { tp with state := TASK_STATE_RUNNING }
      { tp with state := TASK_STATE_RUNNING, time_slot_ticks := 0 } hlx hxp rfl
    refine ⟨?_, ?_⟩
    · rw [hs1]
      exact hlw
    · intro q u hu hst
      rw [hs1]
      show some p = some q
      by_cases hq : q = p
      · rw [hq]
      · exfalso
        rw [hs1] at hu
        have hu1 : x.mem q = some u := by
          have h2 : (if q = p then
              some { tp with state := TASK_STATE_RUNNING, time_slot_ticks := 0 }
            else x.mem q) = some u := hu
          rw [if_neg hq] at h2
          exact h2
        rw [hxq q hq] at hu1
        exact hnr q u hu1 hst
  · obtain ⟨_, c1, hc1, _, hret, he⟩ := hre
    rw [he] at hafter
    have e1 : s1 = _ := (Option.some.inj hafter).symm
    have hlad := links_ok_after_demotion cfg s curr c hl hmem
    have hnr := no_running_after_demotion cfg s curr c hrun hcur hmem
    have hch := task_change_state_eq cfg _ curr c1 TASK_STATE_RUNNING hc1 hret
    have hlx := links_ok_change cfg _ _ curr TASK_STATE_RUNNING hlad hch
    have hxp : (change_state_result cfg (after_demotion cfg s curr c) curr c1
        TASK_STATE_RUNNING).mem curr = some { c1 with state := TASK_STATE_RUNNING } := by
      show (if curr = curr then _ else _) = _
      rw [if_pos rfl]
    have hlw := links_ok_write cfg _ curr { c1 with state := TASK_STATE_RUNNING }
      { c1 with state := TASK_STATE_RUNNING, time_slot_ticks := 0 } hlx hxp rfl
    refine ⟨?_, ?_⟩
    · rw [e1]
      exact hlw
    · intro q u hu hst
      have hc : s1.current = some curr := by
        rw [e1]
        show (after_demotion cfg s curr c).current = some curr
        rw [(after_demotion_fields cfg s curr c).1, hcur]
      rw [hc]
      by_cases hq : q = curr
      · rw [hq]
      · exfalso
        rw [e1] at hu
        have hu1 : (after_demotion cfg s curr c).mem q = some u := by
          have h2 : (if q = curr then
              some { c1 with state := TASK_STATE_RUNNING, time_slot_ticks := 0 }
            else if q = curr then some { c1 with state := TASK_STATE_RUNNING }
            else (after_demotion cfg s curr c).mem q) = some u := hu
          rw [if_neg hq, if_neg hq] at h2
          exact h2
        exact hnr q u hu1 hst

theorem run_reachable_inv (cfg : sched_config) (w : tick_widths) (k : TaskPtr)
    (s : sched_state) (h : run_reachable cfg w k s) :
    links_ok cfg s ∧ running_is_current s := by
  induction h with
  | init s hcall =>
    refine ⟨links_ok_init cfg k s hcall, ?_⟩
    obtain ⟨hmem, _⟩ := create_kernel_process_mem cfg k s hcall
    intro q u hu hst
    rw [hmem] at hu
    by_cases hq : q = k
    · rw [if_pos hq] at hu
      have e := (Option.some.inj hu).symm
      rw [e] at hst
      simp at hst
    · rw [if_neg hq] at hu
      exact absurd hu (by simp)
  | add s s1 p t _ hnew hstate hcall ih =>
    refine ⟨links_ok_add cfg s s1 p t ih.1 hnew hcall, ?_⟩
    obtain ⟨t', root, ok, ht', _, _, hs1⟩ := add_task_some cfg _ s1 p hcall
    intro q u hu hst
    rw [hs1] at hu ⊢
    have hu1 : (if q = p then some t else s.mem q) = some u := hu
    show s.current = some q
    by_cases hq : q = p
    · rw [if_pos hq] at hu1
      have e := (Option.some.inj hu1).symm
      rw [e] at hst
      exact absurd hst hstate
    · rw [if_neg hq] at hu1
      exact ih.2 q u hu1 hst
  | change s s1 p st _ hst hcall ih =>
    refine ⟨links_ok_change cfg s s1 p st ih.1 hcall, ?_⟩
    obtain ⟨t0, _, _, ex⟩ := task_change_state_some cfg s s1 p st hcall
    intro q u hu hrun
    rw [ex] at hu ⊢
    have hu1 : (if q = p then some { t0 with state := st } else s.mem q) = some u := hu
    show s.current = some q
    by_cases hq : q = p
    · rw [if_pos hq] at hu1
      have e := (Option.some.inj hu1).symm
      rw [e] at hrun
      exact absurd hrun hst
    · rw [if_neg hq] at hu1
      exact ih.2 q u hu1 hrun
  | remove s s1 p _ hcall ih =>
    refine ⟨links_ok_remove cfg s s1 p ih.1 hcall, ?_⟩
    obtain ⟨t, root, _, _, _, hs1⟩ := remove_task_some cfg s s1 p hcall
    intro q u hu hrun
    rw [hs1] at hu ⊢
    have hu1 : (if q = p then none else s.mem q) = some u := hu
    show s.current = some q
    by_cases hq : q = p
    · rw [if_pos hq] at hu1
      exact absurd hu1 (by simp)
    · rw [if_neg hq] at hu1
      exact ih.2 q u hu1 hrun
  | ticks s s1 _ hcall ih =>
    obtain ⟨curr, c, c', hcur, hmem, hstate, hs1⟩ := account_ticks_some w s s1 hcall
    refine ⟨?_, ?_⟩
    · rw [hs1]
      exact links_ok_write cfg s curr c c' ih.1 hmem hstate
    · intro q u hu hrun
      rw [hs1] at hu ⊢
      have hu1 : (if q = curr then some c' else s.mem q) = some u := hu
      show s.current = some q
      by_cases hq : q = curr
      · rw [hq]
        exact hcur
      · rw [if_neg hq] at hu1
        exact ih.2 q u hu1 hrun
  | sched s s1 tasklet_runner curr_irq e _ hcall hafter ih =>
    exact schedule_step_inv cfg s s1 tasklet_runner curr_irq e ih.1 ih.2 hcall hafter

/-- C18 as stated fails in the first reachable state: when `create_kernel_process`
has returned, the current task is the kernel record, its state is sleeping, it
is in the sleeping list, and no task has state running. -/
theorem current_task_sleeping_after_boot :
    ∃ s, create_kernel_process cfg5 boot_state 1 = some s ∧
      run_reachable cfg5 widths_32_64 1 s ∧
      s.current = some 1 ∧
      (s.mem 1).map (fun t => t.state) = some TASK_STATE_SLEEPING ∧
      1 ∈ s.sleeping_tasks_list ∧
      ∀ p t, s.mem p = some t → t.state ≠ TASK_STATE_RUNNING := by
  obtain ⟨s, hs⟩ : ∃ s, create_kernel_process cfg5 boot_state 1 = some s := ⟨_, rfl⟩
  obtain ⟨hmem, hcur, _, _, hsl⟩ := create_kernel_process_mem cfg5 1 s hs
  refine ⟨s, hs, run_reachable.init s hs, hcur, ?_, ?_, ?_⟩
  · rw [hmem 1]
    rfl
  · rw [hsl]
    decide
  · intro p t ht
    rw [hmem p] at ht
    by_cases hp : p = 1
    · rw [if_pos hp] at ht
      rw [← Option.some.inj ht]
      simp
    · rw [if_neg hp] at ht
      exact absurd ht (by simp)

/-- C18, amended: in every state reachable from `create_kernel_process` by
`add_task` of a new task whose state is not running, `task_change_state` to a
state other than running, `remove_task`, `account_ticks`, and `schedule` followed
by `switch_to_task` modelled by its contract, at most one task has state
running, and a task whose state is running is the value of the current-task
pointer and is in none of the three state lists. -/
theorem running_task_is_current (cfg : sched_config) (w : tick_widths) (k : TaskPtr)
    (s : sched_state) (h : run_reachable cfg w k s) :
    (∀ p t, s.mem p = some t → t.state = TASK_STATE_RUNNING →
      s.current = some p ∧ p ∉ s.runnable_tasks_list ∧ p ∉ s.sleeping_tasks_list ∧
        p ∉ s.zombie_tasks_list) ∧
    (∀ p q tp tq, s.mem p = some tp → s.mem q = some tq →
      tp.state = TASK_STATE_RUNNING → tq.state = TASK_STATE_RUNNING → p = q) := by
  obtain ⟨⟨hl, _⟩, hrun⟩ := run_reachable_inv cfg w k s h
  refine ⟨?_, ?_⟩
  · intro p t ht hst
    refine ⟨hrun p t ht hst, ?_⟩
    obtain ⟨c1, c2, c3⟩ := hl p t ht
    have e : listed_state cfg p t = TASK_STATE_RUNNING := by
      unfold listed_state
      rw [hst]
      simp
    rw [e] at c1 c2 c3
    simp only [reduceCtorEq, if_false] at c1 c2 c3
    exact ⟨List.count_eq_zero.mp c1, List.count_eq_zero.mp c2, List.count_eq_zero.mp c3⟩
  · intro p q tp tq hp hq hsp hsq
    have h1 := hrun p tp hp hsp
    have h2 := hrun q tq hq hsq
    rw [h1] at h2
    exact Option.some.inj h2

/-- C18, amended, after the boot sequence, the creation of a runnable task at
address 2 and one call of `schedule` with its switch: task 2 is running, it is
the current task, and it is in no state list. -/
theorem running_task_is_current_witness :
    run_reachable cfg5 widths_32_64 1 boot_add_schedule ∧
    boot_add_schedule.mem 2 = some (mk_task 1 1 TASK_STATE_RUNNING 0) ∧
    boot_add_schedule.current = some 2 ∧
    2 ∉ boot_add_schedule.runnable_tasks_list ∧
    2 ∉ boot_add_schedule.sleeping_tasks_list ∧
    2 ∉ boot_add_schedule.zombie_tasks_list := by
  have h0 : run_reachable cfg5 widths_32_64 1
      ((create_kernel_process cfg5 boot_state 1).getD boot_state) :=
    run_reachable.init _ rfl
  have h1 := run_reachable.add _
    ((add_task cfg5 (((create_kernel_process cfg5 boot_state 1).getD boot_state).write 2
      (mk_task 1 1 TASK_STATE_RUNNABLE 0)) 2).getD boot_state)
    2 (mk_task 1 1 TASK_STATE_RUNNABLE 0) h0 rfl (by decide) rfl
  have h2 : run_reachable cfg5 widths_32_64 1 boot_add_schedule :=
    run_reachable.sched _ _ none 0 _ h1 rfl rfl
  have h3 : boot_add_schedule.mem 2 = some (mk_task 1 1 TASK_STATE_RUNNING 0) := rfl
  exact ⟨h2, h3, (running_task_is_current cfg5 widths_32_64 1 boot_add_schedule h2).1 2 _ h3 rfl⟩

/-! ## The two candidates of the allocator at the end of the traversal -/

theorem pid_scan_least (x : Int) (nodes : List task_info)
    (hs : nodes.Pairwise (fun a b => a.tid < b.tid))
    (hb : ∀ t ∈ nodes, is_main_thread t = true → t.tid < 2147483647)
    (hx : 0 ≤ x) :
    x ≤ pid_scan x nodes ∧
    (pid_scan x nodes = x ∨ ∃ t ∈ nodes, t.tid < pid_scan x nodes) ∧
    (∀ t ∈ nodes, is_main_thread t = true → t.tid ≠ pid_scan x nodes) ∧
    (∀ j, x ≤ j → j < pid_scan x nodes →
      ∃ t ∈ nodes, is_main_thread t = true ∧ t.tid = j) := by
  induction nodes generalizing x with
  | nil =>
    refine ⟨le_refl _, Or.inl rfl, fun t ht => absurd ht (List.not_mem_nil t), ?_⟩
    intro j hj1 hj2
    have e : pid_scan x [] = x := rfl
    rw [e] at hj2
    omega
  | cons t rest ih =>
    rw [List.pairwise_cons] at hs
    have hb' : ∀ u ∈ rest, is_main_thread u = true → u.tid < 2147483647 :=
      fun u hu => hb u (List.mem_cons_of_mem _ hu)
    by_cases hc : is_main_thread t = true ∧ x = t.tid
    · have hlt := hb t (List.mem_cons_self _ _) hc.1
      have hxt := hc.2
      have hw : wrap_int (t.tid + 1) = t.tid + 1 := wrap_int_eq _ (by omega) (by omega)
      have e : pid_scan x (t :: rest) = pid_scan (t.tid + 1) rest := by
        simp only [pid_scan]
        rw [if_pos hc, hw]
      obtain ⟨h1, _, h3, h4⟩ := ih (t.tid + 1) hs.2 hb' (by omega)
      rw [e]
      refine ⟨by omega, Or.inr ⟨t, List.mem_cons_self _ _, by omega⟩, ?_, ?_⟩
      · intro u hu hm
        rcases List.mem_cons.mp hu with h | hu'
        · rw [h]
          omega
        · exact h3 u hu' hm
      · intro j hj1 hj2
        by_cases hj : j = t.tid
        · exact ⟨t, List.mem_cons_self _ _, hc.1, hj.symm⟩
        · obtain ⟨u, hu, hm, he⟩ := h4 j (by omega) hj2
          exact ⟨u, List.mem_cons_of_mem _ hu, hm, he⟩
    · have e : pid_scan x (t :: rest) = pid_scan x rest := by
        simp only [pid_scan]
        rw [if_neg hc]
      obtain ⟨h1, h2, h3, h4⟩ := ih x hs.2 hb' hx
      rw [e]
      refine ⟨h1, ?_, ?_, ?_⟩
      · rcases h2 with h | ⟨u, hu, hlt⟩
        · exact Or.inl h
        · exact Or.inr ⟨u, List.mem_cons_of_mem _ hu, hlt⟩
      · intro u hu hm
        rcases List.mem_cons.mp hu with h | hu'
        · rw [h] at hm ⊢
          rcases h2 with h5 | ⟨v, hv, hlt⟩
          · rw [h5]
            intro heq
            exact hc ⟨hm, heq.symm⟩
          · have h6 := hs.1 v hv
            omega
        · exact h3 u hu' hm
      · intro j hj1 hj2
        obtain ⟨u, hu, hm, he⟩ := h4 j hj1 hj2
        exact ⟨u, List.mem_cons_of_mem _ hu, hm, he⟩

theorem index_records (s : sched_state)
    (hr : index_in_range s.mem s.tree_by_tid_root)
    (hs : index_sorted s.mem s.tree_by_tid_root) :
    ∃ nodes, deref_all s.mem s.tree_by_tid_root = some nodes ∧
      nodes.Pairwise (fun a b => a.tid < b.tid) ∧
      (∀ t ∈ nodes, is_main_thread t = true → t.tid < 2147483647) ∧
      (∀ j, main_thread_tid s j ↔ ∃ t ∈ nodes, is_main_thread t = true ∧ t.tid = j) := by
  obtain ⟨nodes, hn⟩ := deref_all_total s.mem s.tree_by_tid_root (fun p hp => by
    obtain ⟨t, ht, _⟩ := hr p hp
    exact ⟨t, ht⟩)
  have hf := deref_all_forall₂ _ _ _ hn
  refine ⟨nodes, hn, forall₂_sorted _ _ _ hf hs, ?_, ?_⟩
  · intro t ht hm
    obtain ⟨p, hp1, hp2⟩ := forall₂_mem_right _ _ _ hf t ht
    obtain ⟨t', ht', hb⟩ := hr p hp1
    have e : t' = t := Option.some.inj (ht'.symm.trans hp2)
    rw [e] at hb
    exact hb hm
  · intro j
    constructor
    · rintro ⟨p, hp, t, ht, hm, hj⟩
      obtain ⟨t', ht', hpt⟩ := forall₂_mem_left _ _ _ hf p hp
      have e : t' = t := Option.some.inj (hpt.symm.trans ht)
      rw [e] at ht'
      exact ⟨t, ht', hm, hj⟩
    · rintro ⟨t, ht, hm, hj⟩
      obtain ⟨p, hp1, hp2⟩ := forall₂_mem_right _ _ _ hf t ht
      exact ⟨p, hp1, t, hp2, hm, hj⟩

theorem iterate_create_new_pid_eq (s : sched_state) (nodes : List task_info)
    (ctx : create_pid_visit_ctx)
    (hgate : s.disable_preemption_count ≠ 0)
    (hnodes : deref_all s.mem s.tree_by_tid_root = some nodes) :
    iterate_over_tasks s create_new_pid_visit_cb ctx =
      some (⟨pid_scan ctx.lowest_available nodes,
        pid_scan ctx.lowest_after_current_max nodes⟩, 0) := by
  have hg : is_preemption_enabled s = false := by
    simp [is_preemption_enabled, hgate]
  simp only [iterate_over_tasks, hg, hnodes, visit_eq_scan]
  simp

theorem index_sorted_of_check (mem : TaskPtr → Option task_info) (root : List TaskPtr)
    (h : root.Pairwise (fun p q =>
      (mem p).bind (fun t => (mem q).map (fun u => decide (t.tid < u.tid))) = some true)) :
    index_sorted mem root := by
  unfold index_sorted
  refine h.imp ?_
  intro p q hpq t u ht hu
  rw [ht, hu] at hpq
  simpa using hpq

theorem gap_index_in_range :
    index_in_range gap_index_state.mem gap_index_state.tree_by_tid_root := by
  intro p hp
  have hp' : p = 1 ∨ p = 2 ∨ p = 3 ∨ p = 4 := by
    simpa [gap_index_state, table_state] using hp
  rcases hp' with h | h | h | h <;> rw [h] <;> exact ⟨_, rfl, by decide⟩

theorem gap_index_sorted :
    index_sorted gap_index_state.mem gap_index_state.tree_by_tid_root :=
  index_sorted_of_check _ _ (by decide)

/-- C21: for an index in strictly ascending `tid` order (gate closed, main-thread
`tid`s below `INT_MAX`), the traversal of `iterate_over_tasks` with the visitor
`create_new_pid_visit_cb`, started with `lowest_available = 0`, ends with
`lowest_available` equal to the smallest non-negative integer that is not the
`tid` of a main thread of the index; tasks that are not main threads do not
count. -/
theorem lowest_available_is_least_unused (s : sched_state) (a : Int)
    (hgate : s.disable_preemption_count ≠ 0)
    (hr : index_in_range s.mem s.tree_by_tid_root)
    (hs : index_sorted s.mem s.tree_by_tid_root) :
    ∃ ctx, iterate_over_tasks s create_new_pid_visit_cb ⟨0, a⟩ = some (ctx, 0) ∧
      0 ≤ ctx.lowest_available ∧
      ¬ main_thread_tid s ctx.lowest_available ∧
      ∀ j, 0 ≤ j → j < ctx.lowest_available → main_thread_tid s j := by
  obtain ⟨nodes, hn, hsorted, hb, hiff⟩ := index_records s hr hs
  obtain ⟨l1, _, l3, l4⟩ := pid_scan_least 0 nodes hsorted hb (le_refl 0)
  refine ⟨_, iterate_create_new_pid_eq s nodes ⟨0, a⟩ hgate hn, l1, ?_, ?_⟩
  · intro hm
    obtain ⟨t, ht, hmt, htid⟩ := (hiff _).mp hm
    exact l3 t ht hmt htid
  · intro j hj1 hj2
    exact (hiff j).mpr (l4 j hj1 hj2)

/-- C21 at the index with the main threads 0, 1 and 4 and the additional thread
2: the traversal ends with `lowest_available = 2`. -/
theorem lowest_available_is_least_unused_witness :
    iterate_over_tasks gap_index_state create_new_pid_visit_cb ⟨0, 4⟩ = some (⟨2, 5⟩, 0) ∧
    ∃ ctx, iterate_over_tasks gap_index_state create_new_pid_visit_cb ⟨0, 4⟩ =
        some (ctx, 0) ∧
      0 ≤ ctx.lowest_available ∧
      ¬ main_thread_tid gap_index_state ctx.lowest_available ∧
      ∀ j, 0 ≤ j → j < ctx.lowest_available → main_thread_tid gap_index_state j :=
  ⟨rfl, lowest_available_is_least_unused gap_index_state 4 (by decide) gap_index_in_range
    gap_index_sorted⟩

/-- C22: for an index in strictly ascending `tid` order (gate closed, main-thread
`tid`s below `INT_MAX`) and `-1 ≤ current_max_pid < INT_MAX`, the traversal that
`create_new_pid` starts with `lowest_after_current_max = current_max_pid + 1`
ends with `lowest_after_current_max` equal to the smallest integer strictly
greater than `current_max_pid` that is not the `tid` of a main thread of the
index. -/
theorem lowest_after_current_max_is_least_unused (s : sched_state)
    (hgate : s.disable_preemption_count ≠ 0)
    (hr : index_in_range s.mem s.tree_by_tid_root)
    (hs : index_sorted s.mem s.tree_by_tid_root)
    (hc1 : -1 ≤ s.current_max_pid) (hc2 : s.current_max_pid < 2147483647) :
    ∃ ctx, iterate_over_tasks s create_new_pid_visit_cb
        ⟨0, wrap_int (s.current_max_pid + 1)⟩ = some (ctx, 0) ∧
      s.current_max_pid < ctx.lowest_after_current_max ∧
      ¬ main_thread_tid s ctx.lowest_after_current_max ∧
      ∀ j, s.current_max_pid < j → j < ctx.lowest_after_current_max →
        main_thread_tid s j := by
  obtain ⟨nodes, hn, hsorted, hb, hiff⟩ := index_records s hr hs
  have hw : wrap_int (s.current_max_pid + 1) = s.current_max_pid + 1 :=
    wrap_int_eq _ (by omega) (by omega)
  obtain ⟨a1, _, a3, a4⟩ :=
    pid_scan_least (s.current_max_pid + 1) nodes hsorted hb (by omega)
  rw [hw]
  refine ⟨_, iterate_create_new_pid_eq s nodes ⟨0, s.current_max_pid + 1⟩ hgate hn, ?_, ?_, ?_⟩
  · show s.current_max_pid < pid_scan (s.current_max_pid + 1) nodes
    omega
  · intro hm
    obtain ⟨t, ht, hmt, htid⟩ := (hiff _).mp hm
    exact a3 t ht hmt htid
  · intro j hj1 hj2
    exact (hiff j).mpr (a4 j (by omega) hj2)

/-- C22 at the index with the main threads 0, 1 and 4 and `current_max_pid = 3`:
the traversal ends with `lowest_after_current_max = 5`. -/
theorem lowest_after_current_max_is_least_unused_witness :
    iterate_over_tasks gap_index_state create_new_pid_visit_cb
      ⟨0, wrap_int (gap_index_state.current_max_pid + 1)⟩ = some (⟨2, 5⟩, 0) ∧
    ∃ ctx, iterate_over_tasks gap_index_state create_new_pid_visit_cb
        ⟨0, wrap_int (gap_index_state.current_max_pid + 1)⟩ = some (ctx, 0) ∧
      gap_index_state.current_max_pid < ctx.lowest_after_current_max ∧
      ¬ main_thread_tid gap_index_state ctx.lowest_after_current_max ∧
      ∀ j, gap_index_state.current_max_pid < j → j < ctx.lowest_after_current_max →
        main_thread_tid gap_index_state j :=
  ⟨rfl, lowest_after_current_max_is_least_unused gap_index_state (by decide)
    gap_index_in_range gap_index_sorted (by decide) (by decide)⟩

/-- C23: for an index in strictly ascending `tid` order (gate closed, main-thread
`tid`s below `INT_MAX`) and `-1 ≤ current_max_pid < INT_MAX`, `create_new_pid`
returns, and it returns -1 if and only if every integer in `0..MAX_PID` is the
`tid` of a main thread of the index; any other result is an identifier in
`0..MAX_PID` that no main thread has, and it becomes `current_max_pid`.  After
the call `current_max_pid` is at least -1, and it is at most `MAX_PID` if it was
so before the call. -/
theorem create_new_pid_fails_iff_full (cfg : sched_config) (s : sched_state)
    (hgate : s.disable_preemption_count ≠ 0)
    (hr : index_in_range s.mem s.tree_by_tid_root)
    (hs : index_sorted s.mem s.tree_by_tid_root)
    (hc1 : -1 ≤ s.current_max_pid) (hc2 : s.current_max_pid < 2147483647) :
    ∃ r s', create_new_pid cfg s = some (r, s') ∧
      (r = -1 ↔ ∀ j, 0 ≤ j → j ≤ cfg.MAX_PID → main_thread_tid s j) ∧
      (r ≠ -1 → 0 ≤ r ∧ r ≤ cfg.MAX_PID ∧ ¬ main_thread_tid s r ∧
        s'.current_max_pid = r) ∧
      (r = -1 → s' = s) ∧
      -1 ≤ s'.current_max_pid ∧
      (s.current_max_pid ≤ cfg.MAX_PID → s'.current_max_pid ≤ cfg.MAX_PID) := by
  obtain ⟨nodes, hn, hsorted, hb, hiff⟩ := index_records s hr hs
  have hw : wrap_int (s.current_max_pid + 1) = s.current_max_pid + 1 :=
    wrap_int_eq _ (by omega) (by omega)
  obtain ⟨l1, _, l3, l4⟩ := pid_scan_least 0 nodes hsorted hb (le_refl 0)
  obtain ⟨a1, _, a3, a4⟩ :=
    pid_scan_least (s.current_max_pid + 1) nodes hsorted hb (by omega)
  have hcall := create_new_pid_eq cfg s nodes hgate hn
  rw [hw] at hcall
  simp only at hcall
  have hLA : pid_scan 0 nodes ≤ pid_scan (s.current_max_pid + 1) nodes := by
    by_contra hlt
    obtain ⟨t, ht, hmt, htid⟩ := l4 (pid_scan (s.current_max_pid + 1) nodes)
      (by omega) (by omega)
    exact a3 t ht hmt htid
  have hnotL : ¬ main_thread_tid s (pid_scan 0 nodes) := by
    intro hm
    obtain ⟨t, ht, hmt, htid⟩ := (hiff _).mp hm
    exact l3 t ht hmt htid
  have hnotA : ¬ main_thread_tid s (pid_scan (s.current_max_pid + 1) nodes) := by
    intro hm
    obtain ⟨t, ht, hmt, htid⟩ := (hiff _).mp hm
    exact a3 t ht hmt htid
  have hfull : (∀ j, 0 ≤ j → j ≤ cfg.MAX_PID → main_thread_tid s j) ↔
      cfg.MAX_PID < pid_scan 0 nodes := by
    constructor
    · intro hall
      by_contra hle
      exact hnotL (hall _ l1 (by omega))
    · intro hlt j hj1 hj2
      exact (hiff j).mpr (l4 j hj1 (by omega))
  by_cases hA : pid_scan (s.current_max_pid + 1) nodes ≤ cfg.MAX_PID
  · have hsel : select_pid cfg.MAX_PID
        ⟨pid_scan 0 nodes, pid_scan (s.current_max_pid + 1) nodes⟩ =
        pid_scan (s.current_max_pid + 1) nodes := by
      simp only [select_pid]
      rw [if_pos hA]
    rw [hsel, if_pos (by omega)] at hcall
    refine ⟨_, _, hcall, ?_, ?_, ?_, ?_, ?_⟩
    · rw [hfull]
      constructor <;> intro h <;> omega
    · intro _
      exact ⟨by omega, hA, hnotA, rfl⟩
    · intro h
      omega
    · show -1 ≤ pid_scan (s.current_max_pid + 1) nodes
      omega
    · intro _
      exact hA
  · by_cases hL : pid_scan 0 nodes ≤ cfg.MAX_PID
    · have hsel : select_pid cfg.MAX_PID
          ⟨pid_scan 0 nodes, pid_scan (s.current_max_pid + 1) nodes⟩ =
          pid_scan 0 nodes := by
        simp only [select_pid]
        rw [if_neg hA, if_pos hL]
      rw [hsel, if_pos (by omega)] at hcall
      refine ⟨_, _, hcall, ?_, ?_, ?_, ?_, ?_⟩
      · rw [hfull]
        constructor <;> intro h <;> omega
      · intro _
        exact ⟨l1, hL, hnotL, rfl⟩
      · intro h
        omega
      · show -1 ≤ pid_scan 0 nodes
        omega
      · intro _
        exact hL
    · have hsel : select_pid cfg.MAX_PID
          ⟨pid_scan 0 nodes, pid_scan (s.current_max_pid + 1) nodes⟩ = -1 := by
        simp only [select_pid]
        rw [if_neg hA, if_neg hL]
      rw [hsel, if_neg (by omega)] at hcall
      refine ⟨_, _, hcall, ?_, ?_, ?_, hc1, ?_⟩
      · rw [hfull]
        constructor
        · intro _
          omega
        · intro _
          rfl
      · intro h
        exact absurd rfl h
      · intro _
        rfl
      · intro h
        exact h

/-- C23 at the index with the main threads 0, 1 and 4 and `current_max_pid = 3`:
with `MAX_PID = 5` the call returns the unused identifier 5, and with
`MAX_PID = 1`, where 0 and 1 are both in use, it returns -1. -/
theorem create_new_pid_fails_iff_full_witness :
    (∃ s', create_new_pid cfg5 gap_index_state = some (5, s')) ∧
    (∃ s', create_new_pid { cfg5 with MAX_PID := 1 } gap_index_state = some (-1, s')) ∧
    (∃ r s', create_new_pid { cfg5 with MAX_PID := 1 } gap_index_state = some (r, s') ∧
      (r = -1 ↔ ∀ j, 0 ≤ j → j ≤ 1 → main_thread_tid gap_index_state j) ∧
      (r ≠ -1 → 0 ≤ r ∧ r ≤ 1 ∧ ¬ main_thread_tid gap_index_state r ∧
        s'.current_max_pid = r) ∧
      (r = -1 → s' = gap_index_state) ∧
      -1 ≤ s'.current_max_pid ∧
      (gap_index_state.current_max_pid ≤ 1 → s'.current_max_pid ≤ 1)) :=
  ⟨⟨_, rfl⟩, ⟨_, rfl⟩,
    create_new_pid_fails_iff_full { cfg5 with MAX_PID := 1 } gap_index_state (by decide)
      gap_index_in_range gap_index_sorted (by decide) (by decide)⟩

end Tilck
